import Mathlib

/-!
# A shallow embedding of the `ecs` core (`src/src/ecs.hpp`)

The C++ header implements a small entity-component-system: a FIFO pool of
entity ids, a registry of component types, one packed `ComponentArray` per
registered type, a bitset signature per entity and the `ECS` facade that
composes them.

Conventions of the embedding:

* every member function becomes a pure function from the state before the call
  to `Except Fault` of the state after it (and the returned value, if any);
* `ecs_assert` terminates the program, so a failed assertion is a `Fault` naming
  the assertion; there is no state after a fault;
* behaviour the C++ standard leaves undefined (indexing a `std::array` outside
  its bounds, `front()` of an empty queue, dereferencing a null `shared_ptr`)
  and the `std::out_of_range` thrown by `std::bitset` are faults of their own,
  so that they can be told apart from detected contract violations;
* `std::uint32_t`, `std::uint8_t` and `std::size_t` counters are natural numbers
  reduced modulo `2 ^ 32`, `2 ^ 8` and `2 ^ 64` after every update;
* a `std::unordered_map` with integer keys is a function into `Option`; the map
  `component_arrays`, which `remove_entity` iterates, is an association list;
* a component type `T` is identified by a natural number standing for
  `typeid(T).name()`, and all stores share one value type `V`.
-/

namespace ecs

/-! ## Constants and basic types -/

/-- The constant `MAX_ENTITIES` of the header. -/
def MAX_ENTITIES : Nat := 4096

/-- The constant `MAX_COMPONENTS` of the header. -/
def MAX_COMPONENTS : Nat := 32

/-- Number of values of a `std::uint32_t` (`Entity`, `entity_array_count`). -/
def UINT32_MOD : Nat := 2 ^ 32

/-- Number of values of a `std::uint8_t` (`ComponentType`, `component_arrays_count`). -/
def UINT8_MOD : Nat := 2 ^ 8

/-- Number of values of a `std::size_t` (`ComponentArray::size`). -/
def SIZE_MOD : Nat := 2 ^ 64

/-- An entity handle, `using Entity = std::uint32_t`. -/
abbrev Entity := Nat

/-- A type slot, `using ComponentType = std::uint8_t`. -/
abbrev ComponentType := Nat

/-- A signature, `std::bitset<MAX_COMPONENTS>`, as the number whose binary digits are its bits. -/
abbrev Signature := Nat

/-- The key `typeid(T).name()` under which a component type `T` is registered. -/
abbrev TypeName := Nat

/-- The ways in which a call can end without returning. -/
inductive Fault where
  /-- The assertion of `ComponentArray::insert_component` failed. -/
  | component_already_present
  /-- The assertion of `ComponentArray::remove_component` failed. -/
  | component_absent_on_remove
  /-- The assertion of `ComponentArray::get_component` failed. -/
  | component_absent_on_get
  /-- The assertion of `ECS::create_entity` failed. -/
  | entity_array_full
  /-- The assertion of `ECS::remove_entity` failed. -/
  | remove_entity_out_of_range
  /-- The assertion of `ECS::get_entity_signature` failed. -/
  | signature_entity_out_of_range
  /-- The assertion of `ECS::register_component` failed. -/
  | type_already_registered
  /-- The assertion of `ECS::get_component_type` failed. -/
  | type_not_registered
  /-- The assertion of `ECS::get_component_array` failed. -/
  | array_not_registered
  /-- A `std::array` was indexed outside its bounds (undefined behaviour). -/
  | array_out_of_bounds
  /-- The call `std::bitset::set` or `reset` threw `std::out_of_range`, which nothing catches. -/
  | bitset_out_of_range
  /-- The call `front()` was made on an empty queue (undefined behaviour). -/
  | empty_queue_front
  /-- A null `shared_ptr` was dereferenced (undefined behaviour). -/
  | null_component_array
  deriving DecidableEq, Repr

/-- Whether a fault is a failed `ecs_assert`, that is, a contract violation the code detects. -/
def Fault.is_assertion : Fault → Bool
  | .array_out_of_bounds => false
  | .bitset_out_of_range => false
  | .empty_queue_front => false
  | .null_component_array => false
  | _ => true

/-! ## `std::unordered_map` with integer keys -/

/-- An unordered map from integers to `β`. -/
abbrev UMap (β : Type) := Nat → Option β

/-- The empty map. -/
def UMap.empty {β : Type} : UMap β := fun _ => none

/-- The test `m.find(k) != m.end()`. -/
def UMap.contains {β : Type} (m : UMap β) (k : Nat) : Bool := (m k).isSome

/-- The assignment `m[k] = v`. -/
def UMap.assign {β : Type} (m : UMap β) (k : Nat) (v : β) : UMap β :=
  fun j => if j = k then some v else m j

/-- The call `m.insert({k, v})`, which leaves an existing entry as it is. -/
def UMap.insert {β : Type} (m : UMap β) (k : Nat) (v : β) : UMap β :=
  if UMap.contains m k then m else UMap.assign m k v

/-- The call `m.erase(k)`. -/
def UMap.erase {β : Type} (m : UMap β) (k : Nat) : UMap β :=
  fun j => if j = k then none else m j

/-! ## `std::bitset<MAX_COMPONENTS>` -/

/-- The call `sig.set(pos)`: sets bit `pos`, throws when `pos` is not a valid position. -/
def Signature.set (sig : Signature) (pos : Nat) : Except Fault Signature :=
  if pos < MAX_COMPONENTS then .ok (sig ||| (1 <<< pos)) else .error .bitset_out_of_range

/-- The call `sig.reset(pos)`: clears bit `pos`, throws when `pos` is not a valid position. -/
def Signature.reset_bit (sig : Signature) (pos : Nat) : Except Fault Signature :=
  if pos < MAX_COMPONENTS then .ok (sig ^^^ (sig &&& (1 <<< pos))) else .error .bitset_out_of_range

/-- The call `sig.reset()`: clears every bit. -/
def Signature.reset (_sig : Signature) : Signature := 0

/-! ## `ComponentArray<T>` -/

/-- The fields of `ComponentArray<T>`; `values` is a `std::array<T, MAX_ENTITIES>`, whose
bound is checked at every access. -/
structure ComponentArray (T : Type) where
  values : Nat → T
  entity_to_index_map : UMap Nat
  index_to_entity_map : UMap Entity
  size : Nat

/-- The store `std::make_shared<ComponentArray<T>>()` creates: value-initialised, so
`size` is zero, both maps are empty and every value is zero-initialised. -/
def ComponentArray.empty {T : Type} [Inhabited T] : ComponentArray T :=
  { values := fun _ => default
    entity_to_index_map := UMap.empty
    index_to_entity_map := UMap.empty
    size := 0 }

/-- The method `ComponentArray::insert_component`. -/
def ComponentArray.insert_component {T : Type} (c : ComponentArray T) (entity : Entity)
    (component : T) : Except Fault (ComponentArray T) :=
  if UMap.contains c.entity_to_index_map entity then .error .component_already_present
  else
    let new_index := c.size
    if new_index < MAX_ENTITIES then
      .ok { values := fun i => if i = new_index then component else c.values i
            entity_to_index_map := UMap.assign c.entity_to_index_map entity new_index
            index_to_entity_map := UMap.assign c.index_to_entity_map new_index entity
            size := (c.size + 1) % SIZE_MOD }
    else .error .array_out_of_bounds

/-- The method `ComponentArray::remove_component`. Reading `index_to_entity_map[i]` for an
absent key yields a zero entity; the entry this read creates is erased again before the
method returns. -/
def ComponentArray.remove_component {T : Type} (c : ComponentArray T) (entity : Entity) :
    Except Fault (ComponentArray T) :=
  match c.entity_to_index_map entity with
  | none => .error .component_absent_on_remove
  | some index_of_removed_entity =>
    let index_of_last_component := (c.size + SIZE_MOD - 1) % SIZE_MOD
    if index_of_removed_entity < MAX_ENTITIES ∧ index_of_last_component < MAX_ENTITIES then
      let entity_of_last_component := (c.index_to_entity_map index_of_last_component).getD 0
      .ok { values := fun i =>
              if i = index_of_removed_entity then c.values index_of_last_component
              else c.values i
            entity_to_index_map :=
              UMap.erase
                (UMap.assign c.entity_to_index_map entity_of_last_component
                  index_of_removed_entity)
                entity
            index_to_entity_map :=
              UMap.erase
                (UMap.assign c.index_to_entity_map index_of_removed_entity
                  entity_of_last_component)
                index_of_last_component
            size := (c.size + SIZE_MOD - 1) % SIZE_MOD }
    else .error .array_out_of_bounds

/-- The method `ComponentArray::get_component`. -/
def ComponentArray.get_component {T : Type} (c : ComponentArray T) (entity : Entity) :
    Except Fault T :=
  match c.entity_to_index_map entity with
  | none => .error .component_absent_on_get
  | some index => if index < MAX_ENTITIES then .ok (c.values index) else .error .array_out_of_bounds

/-- The method `ComponentArray::handle_entity_removed`. -/
def ComponentArray.handle_entity_removed {T : Type} (c : ComponentArray T) (entity : Entity) :
    Except Fault (ComponentArray T) :=
  let entity_had_component_of_this_type := UMap.contains c.entity_to_index_map entity
  if entity_had_component_of_this_type then c.remove_component entity else .ok c

/-! ## The map `component_arrays` -/

/-- The map `component_arrays`, from type names to stores, in the order of insertion. -/
abbrev ArrayMap (V : Type) := List (TypeName × ComponentArray V)

/-- The lookup `component_arrays.find(type_name)`. -/
def ArrayMap.find {V : Type} : ArrayMap V → TypeName → Option (ComponentArray V)
  | [], _ => none
  | (t, c) :: rest, type_name => if t = type_name then some c else ArrayMap.find rest type_name

/-- The call `component_arrays.insert({type_name, c})`, which leaves an existing entry as it is. -/
def ArrayMap.insert {V : Type} (m : ArrayMap V) (type_name : TypeName) (c : ComponentArray V) :
    ArrayMap V :=
  match ArrayMap.find m type_name with
  | some _ => m
  | none => m ++ [(type_name, c)]

/-- The effect of mutating, through its `shared_ptr`, the store registered under `type_name`. -/
def ArrayMap.replace {V : Type} : ArrayMap V → TypeName → ComponentArray V → ArrayMap V
  | [], _, _ => []
  | (t, c) :: rest, type_name, c' =>
    if t = type_name then (t, c') :: rest else (t, c) :: ArrayMap.replace rest type_name c'

/-- The loop of `ECS::remove_entity` that calls `handle_entity_removed` on every store. -/
def ArrayMap.handle_entity_removed {V : Type} : ArrayMap V → Entity → Except Fault (ArrayMap V)
  | [], _ => .ok []
  | (t, c) :: rest, entity =>
    match c.handle_entity_removed entity with
    | .error f => .error f
    | .ok c' =>
      match ArrayMap.handle_entity_removed rest entity with
      | .error f => .error f
      | .ok rest' => .ok ((t, c') :: rest')

/-! ## `ECS` -/

/-- The fields of `ECS`; `entity_signatures` is a `std::array<Signature, MAX_ENTITIES>`,
whose bound is checked at every access, and `entity_available_ids` is the queue with its
front at the head of the list. -/
structure ECS (V : Type) where
  entity_available_ids : List Entity
  entity_signatures : Nat → Signature
  entity_array_count : Nat
  component_types : UMap ComponentType
  component_arrays : ArrayMap V
  component_arrays_count : Nat

/-- The constructor `ECS::ECS`. -/
def ECS.new {V : Type} : ECS V :=
  { entity_available_ids := List.range MAX_ENTITIES
    entity_signatures := fun _ => 0
    entity_array_count := 0
    component_types := UMap.empty
    component_arrays := []
    component_arrays_count := 0 }

/-- The method `ECS::create_entity`. -/
def ECS.create_entity {V : Type} (s : ECS V) : Except Fault (Entity × ECS V) :=
  if s.entity_array_count < MAX_ENTITIES then
    match s.entity_available_ids with
    | [] => .error .empty_queue_front
    | new_entity_id :: rest =>
      .ok (new_entity_id,
        { s with
          entity_available_ids := rest
          entity_array_count := (s.entity_array_count + 1) % UINT32_MOD })
  else .error .entity_array_full

/-- The method `ECS::remove_entity`. -/
def ECS.remove_entity {V : Type} (s : ECS V) (entity_to_remove : Entity) :
    Except Fault (ECS V) :=
  if entity_to_remove < MAX_ENTITIES then
    match ArrayMap.handle_entity_removed s.component_arrays entity_to_remove with
    | .error f => .error f
    | .ok arrays =>
      .ok { s with
            entity_signatures := fun i =>
              if i = entity_to_remove then Signature.reset (s.entity_signatures i)
              else s.entity_signatures i
            entity_available_ids := s.entity_available_ids ++ [entity_to_remove]
            component_arrays := arrays
            entity_array_count := (s.entity_array_count + UINT32_MOD - 1) % UINT32_MOD }
  else .error .remove_entity_out_of_range

/-- The method `ECS::get_entity_signature`. -/
def ECS.get_entity_signature {V : Type} (s : ECS V) (entity : Entity) : Except Fault Signature :=
  if entity < MAX_ENTITIES then .ok (s.entity_signatures entity)
  else .error .signature_entity_out_of_range

/-- The method `ECS::register_component<T>`, with `type_name` for `typeid(T).name()`. -/
def ECS.register_component {V : Type} [Inhabited V] (s : ECS V) (type_name : TypeName) :
    Except Fault (ECS V) :=
  if UMap.contains s.component_types type_name then .error .type_already_registered
  else
    .ok { s with
          component_types := UMap.insert s.component_types type_name s.component_arrays_count
          component_arrays := ArrayMap.insert s.component_arrays type_name ComponentArray.empty
          component_arrays_count := (s.component_arrays_count + 1) % UINT8_MOD }

/-- The method `ECS::get_component_type<T>`. -/
def ECS.get_component_type {V : Type} (s : ECS V) (type_name : TypeName) :
    Except Fault ComponentType :=
  match s.component_types type_name with
  | none => .error .type_not_registered
  | some slot => .ok slot

/-- The private method `ECS::get_component_array<T>`. -/
def ECS.get_component_array {V : Type} (s : ECS V) (type_name : TypeName) :
    Except Fault (ComponentArray V) :=
  if UMap.contains s.component_types type_name then
    match ArrayMap.find s.component_arrays type_name with
    | none => .error .null_component_array
    | some c => .ok c
  else .error .array_not_registered

/-- The method `ECS::add_component<T>`. -/
def ECS.add_component {V : Type} (s : ECS V) (type_name : TypeName) (entity : Entity)
    (component : V) : Except Fault (ECS V) :=
  match s.get_component_array type_name with
  | .error f => .error f
  | .ok c =>
    match c.insert_component entity component with
    | .error f => .error f
    | .ok c' =>
      match s.get_component_type type_name with
      | .error f => .error f
      | .ok slot =>
        if entity < MAX_ENTITIES then
          match Signature.set (s.entity_signatures entity) slot with
          | .error f => .error f
          | .ok sig =>
            .ok { s with
                  component_arrays := ArrayMap.replace s.component_arrays type_name c'
                  entity_signatures := fun i => if i = entity then sig else s.entity_signatures i }
        else .error .array_out_of_bounds

/-- The method `ECS::remove_component<T>`. -/
def ECS.remove_component {V : Type} (s : ECS V) (type_name : TypeName) (entity : Entity) :
    Except Fault (ECS V) :=
  match s.get_component_array type_name with
  | .error f => .error f
  | .ok c =>
    match c.remove_component entity with
    | .error f => .error f
    | .ok c' =>
      match s.get_component_type type_name with
      | .error f => .error f
      | .ok slot =>
        if entity < MAX_ENTITIES then
          match Signature.reset_bit (s.entity_signatures entity) slot with
          | .error f => .error f
          | .ok sig =>
            .ok { s with
                  component_arrays := ArrayMap.replace s.component_arrays type_name c'
                  entity_signatures := fun i => if i = entity then sig else s.entity_signatures i }
        else .error .array_out_of_bounds

/-- The method `ECS::get_component<T>`. -/
def ECS.get_component {V : Type} (s : ECS V) (type_name : TypeName) (entity : Entity) :
    Except Fault V :=
  match s.get_component_array type_name with
  | .error f => .error f
  | .ok c => c.get_component entity

/-- The private method `ECS::get_system_signature<T>` for a single type. -/
def ECS.get_system_signature_single {V : Type} (s : ECS V) (signature : Signature)
    (type_name : TypeName) : Except Fault Signature :=
  match s.get_component_type type_name with
  | .error f => .error f
  | .ok slot => Signature.set signature slot

/-- The private method `ECS::get_system_signature<T, U, rest...>`, together with its base
case; the template needs at least one type. -/
def ECS.get_system_signature {V : Type} (s : ECS V) (signature : Signature) :
    TypeName → List TypeName → Except Fault Signature
  | t, [] => s.get_system_signature_single signature t
  | t, u :: rest =>
    match s.get_system_signature_single signature t with
    | .error f => .error f
    | .ok signature' => ECS.get_system_signature s signature' u rest

/-- The loop of `ECS::view` over `i = 0, ..., n - 1`, appending the matching ids. -/
def ECS.view_scan {V : Type} (s : ECS V) (system_signature : Signature) :
    Nat → Except Fault (List Entity)
  | 0 => .ok []
  | i + 1 =>
    match ECS.view_scan s system_signature i with
    | .error f => .error f
    | .ok entity_list =>
      if i < MAX_ENTITIES then
        if (s.entity_signatures i &&& system_signature) = system_signature then
          .ok (entity_list ++ [i])
        else .ok entity_list
      else .error .array_out_of_bounds

/-- The method `ECS::view<T, rest...>`. -/
def ECS.view {V : Type} (s : ECS V) (t : TypeName) (rest : List TypeName) :
    Except Fault (List Entity) :=
  match s.get_system_signature 0 t rest with
  | .error f => .error f
  | .ok system_signature => s.view_scan system_signature s.entity_array_count

/-! ## Calls, runs and reachable states -/

/-- A call of one of the state-changing public methods of `ECS`. -/
inductive Op (V : Type) where
  | register_component (type_name : TypeName)
  | create_entity
  | remove_entity (entity : Entity)
  | add_component (type_name : TypeName) (entity : Entity) (component : V)
  | remove_component (type_name : TypeName) (entity : Entity)

/-- The state after a call. -/
def ECS.call {V : Type} [Inhabited V] (s : ECS V) : Op V → Except Fault (ECS V)
  | .register_component t => s.register_component t
  | .create_entity =>
    match s.create_entity with
    | .error f => .error f
    | .ok (_, s') => .ok s'
  | .remove_entity e => s.remove_entity e
  | .add_component t e v => s.add_component t e v
  | .remove_component t e => s.remove_component t e

/-- The entities that are live after a call that returned: `create_entity` makes the id
it returns live, `remove_entity` ends the life of its argument. -/
def live_after {V : Type} (live : List Entity) (s : ECS V) : Op V → List Entity
  | .create_entity =>
    match s.create_entity with
    | .error _ => live
    | .ok (e, _) => live ++ [e]
  | .remove_entity e => live.erase e
  | _ => live

/-- Calls whose entity argument is in range, with at most `MAX_COMPONENTS` registered types. -/
def in_range_calls {V : Type} (s : ECS V) (_live : List Entity) : Op V → Bool
  | .register_component _ => decide (s.component_arrays_count < MAX_COMPONENTS)
  | .create_entity => true
  | .remove_entity e => decide (e < MAX_ENTITIES)
  | .add_component _ e _ => decide (e < MAX_ENTITIES)
  | .remove_component _ e => decide (e < MAX_ENTITIES)

/-- Calls whose entity argument is a live entity. -/
def live_calls {V : Type} (_s : ECS V) (live : List Entity) : Op V → Bool
  | .register_component _ => true
  | .create_entity => true
  | .remove_entity e => decide (e ∈ live)
  | .add_component _ e _ => decide (e ∈ live)
  | .remove_component _ e => decide (e ∈ live)

/-- All calls. -/
def any_calls {V : Type} (_s : ECS V) (_live : List Entity) (_op : Op V) : Bool := true

/-- The state and the live entities after a sequence of calls, starting from `s` and `live`;
there is none when a call is not allowed by `allowed` or does not return. -/
def ECS.run {V : Type} [Inhabited V] (allowed : ECS V → List Entity → Op V → Bool) (s : ECS V)
    (live : List Entity) : List (Op V) → Option (ECS V × List Entity)
  | [] => some (s, live)
  | op :: ops =>
    if allowed s live op then
      match s.call op with
      | .error _ => none
      | .ok s' => ECS.run allowed s' (live_after live s op) ops
    else none

/-- The states reachable from a fresh `ECS` by calls that all returned and that were all
allowed by `allowed`, each paired with the list of entities that are live in it. -/
inductive Reach {V : Type} [Inhabited V] (allowed : ECS V → List Entity → Op V → Bool) :
    ECS V → List Entity → Prop where
  | new : Reach allowed ECS.new []
  | call {s s' : ECS V} {live : List Entity} {op : Op V} :
      Reach allowed s live → allowed s live op = true → s.call op = .ok s' →
      Reach allowed s' (live_after live s op)

/-- The method `ECS::create_entity` called `n` times in a row: the ids it returns, in the
order of the calls, and the state after the last call. -/
def ECS.create_entities {V : Type} (s : ECS V) : Nat → Except Fault (List Entity × ECS V)
  | 0 => .ok ([], s)
  | n + 1 =>
    match s.create_entity with
    | .error f => .error f
    | .ok (e, s1) =>
      match ECS.create_entities s1 n with
      | .error f => .error f
      | .ok (es, s2) => .ok (e :: es, s2)

/-- The bit of a signature at a position, `sig.test(pos)` or `sig[pos]`. -/
def Signature.test (sig : Signature) (pos : Nat) : Bool := Nat.testBit sig pos

/-- Whether `entity` has a value in the store `c`. -/
def ComponentArray.has {T : Type} (c : ComponentArray T) (entity : Entity) : Bool :=
  UMap.contains c.entity_to_index_map entity

/-! ## Invariants -/

/-- The packed-store invariant of a `ComponentArray`. -/
structure ComponentArray.Packed {T : Type} (c : ComponentArray T) : Prop where
  size_le : c.size ≤ MAX_ENTITIES
  index_lt : ∀ e i, c.entity_to_index_map e = some i → i < c.size
  inverse : ∀ e i, c.entity_to_index_map e = some i ↔ c.index_to_entity_map i = some e
  index_present : ∀ i, i < c.size → ∃ e, c.index_to_entity_map i = some e

/-- Every entity of the store is an id in range. -/
def ComponentArray.InRange {T : Type} (c : ComponentArray T) : Prop :=
  ∀ e i, c.entity_to_index_map e = some i → e < MAX_ENTITIES

/-- The invariant of the registry and the stores of an `ECS`: the registered types are the
types with a store, every store is packed and holds entities in range only, and a store
that holds an entity belongs to a type whose slot is a valid bit position. -/
structure ECS.Stores {V : Type} (s : ECS V) : Prop where
  registered : ∀ t, (s.component_types t).isSome = (ArrayMap.find s.component_arrays t).isSome
  packed : ∀ t c, (t, c) ∈ s.component_arrays → c.Packed ∧ c.InRange
  slot_ok : ∀ (t : TypeName) (k : Nat) (c : ComponentArray V) (e : Entity),
    s.component_types t = some k → ArrayMap.find s.component_arrays t = some c →
    c.has e = true → k < MAX_COMPONENTS

/-- The invariant of the registry, the stores and the signatures of an `ECS` with at most
`MAX_COMPONENTS` registered types: the slots are distinct and below the number of
registered types, and bit `k` of the signature of `e` is set exactly when the store of the
type with slot `k` holds `e`. -/
structure ECS.Inv {V : Type} (s : ECS V) : Prop where
  stores : s.Stores
  count_le : s.component_arrays_count ≤ MAX_COMPONENTS
  slot_lt : ∀ (t : TypeName) (k : Nat), s.component_types t = some k →
    k < s.component_arrays_count
  slot_inj : ∀ t u k, s.component_types t = some k → s.component_types u = some k → t = u
  sig_store : ∀ e t k c, s.component_types t = some k →
    ArrayMap.find s.component_arrays t = some c →
    Signature.test (s.entity_signatures e) k = c.has e
  sig_unused : ∀ e k, s.component_arrays_count ≤ k →
    Signature.test (s.entity_signatures e) k = false

/-- The invariant of the id pool of an `ECS` whose live entities are `live`. -/
structure ECS.Pool {V : Type} (s : ECS V) (live : List Entity) : Prop where
  perm : (s.entity_available_ids ++ live).Perm (List.range MAX_ENTITIES)
  count : s.entity_array_count = live.length
  free_sig : ∀ e, e ∉ live → s.entity_signatures e = 0

/-! ## Example runs -/

/-- Calls that register the 33 types `0, ..., 32` and create one entity. -/
def calls_33_types : List (Op Nat) :=
  (List.range 33).map Op.register_component ++ [Op.create_entity]

/-- Calls that register two types, create three entities, give the third one a component of
each type and remove the first entity. -/
def calls_remove_first : List (Op Nat) :=
  [.register_component 0, .register_component 1, .create_entity, .create_entity,
   .create_entity, .add_component 0 2 7, .add_component 1 2 8, .remove_entity 0]

/-- The type name that stands for `Position` in the scenario of the specification. -/
def Position : TypeName := 0

/-- The type name that stands for `Velocity` in the scenario of the specification. -/
def Velocity : TypeName := 1

/-- The scenario of the specification: register `Position` and `Velocity`, create `e0` with
`Position{0,0}` and `Velocity{1,1}`, create `e1` with `Position{5,5}` only; the result is
`e0`, `e1`, `view<Position, Velocity>()` and `view<Position>()`. -/
def scenario : Except Fault (Entity × Entity × List Entity × List Entity) := do
  let s : ECS (Int × Int) := ECS.new
  let s ← s.register_component Position
  let s ← s.register_component Velocity
  let (e0, s) ← s.create_entity
  let s ← s.add_component Position e0 (0, 0)
  let s ← s.add_component Velocity e0 (1, 1)
  let (e1, s) ← s.create_entity
  let s ← s.add_component Position e1 (5, 5)
  let both ← s.view Position [Velocity]
  let positions ← s.view Position []
  pure (e0, e1, both, positions)

/-- The state and the live entities after the calls `ops` on a fresh `ECS`; the fresh `ECS`
when the calls do not all return. -/
def ECS.after {V : Type} [Inhabited V] (ops : List (Op V)) : ECS V × List Entity :=
  (ECS.run any_calls ECS.new [] ops).getD (ECS.new, [])

/-- Calls that register one type and create one entity. -/
def calls_one_entity : List (Op Nat) := [.register_component 0, .create_entity]

/-- Calls that create three entities and remove the first one. -/
def calls_recycle : List (Op Nat) :=
  [.create_entity, .create_entity, .create_entity, .remove_entity 0]

/-- Calls that create three entities. -/
def calls_three_entities : List (Op Nat) := [.create_entity, .create_entity, .create_entity]

/-- Calls that register one type, create one entity and give it a component. -/
def calls_one_component : List (Op Nat) :=
  [.register_component 0, .create_entity, .add_component 0 0 5]

/-- Calls that register three types, create one entity and give it a component of the first
and of the third type. -/
def calls_two_of_three : List (Op Nat) :=
  [.register_component 0, .register_component 1, .register_component 2, .create_entity,
   .add_component 0 0 5, .add_component 2 0 6]

/-- Calls that register one type, create two entities with a component each and remove the
second entity. -/
def calls_remove_second : List (Op Nat) :=
  [.register_component 0, .create_entity, .create_entity, .add_component 0 0 5,
   .add_component 0 1 6, .remove_entity 1]

/-- The id `create_entity` returns and the state after the call; the id `0` and the state
itself when the call does not return. -/
def ECS.created {V : Type} (s : ECS V) : Entity × ECS V :=
  match s.create_entity with
  | .ok r => r
  | .error _ => (0, s)

/-! ## Calls on a single store -/

/-- A call of one of the state-changing methods of `ComponentArray<T>`. -/
inductive StoreOp (T : Type) where
  | insert_component (entity : Entity) (component : T)
  | remove_component (entity : Entity)
  | handle_entity_removed (entity : Entity)

/-- The store after a call. -/
def ComponentArray.call {T : Type} (c : ComponentArray T) :
    StoreOp T → Except Fault (ComponentArray T)
  | .insert_component e v => c.insert_component e v
  | .remove_component e => c.remove_component e
  | .handle_entity_removed e => c.handle_entity_removed e

/-- The entities that hold the component after a call that returned: `insert_component`
gives it to its argument, the two removals take it from theirs. -/
def holders_after {T : Type} (holders : List Entity) : StoreOp T → List Entity
  | .insert_component e _ => holders ++ [e]
  | .remove_component e => holders.erase e
  | .handle_entity_removed e => holders.erase e

/-- The stores reachable from an empty `ComponentArray` by calls that all returned, each
paired with the list of entities that hold the component in it. -/
inductive StoreReach {T : Type} [Inhabited T] : ComponentArray T → List Entity → Prop where
  | empty : StoreReach ComponentArray.empty []
  | call {c c' : ComponentArray T} {holders : List Entity} {op : StoreOp T} :
      StoreReach c holders → c.call op = .ok c' → StoreReach c' (holders_after holders op)

/-- The store and the holders after a sequence of calls, starting from `c` and `holders`;
there is none when a call does not return. -/
def ComponentArray.run {T : Type} (c : ComponentArray T) (holders : List Entity) :
    List (StoreOp T) → Option (ComponentArray T × List Entity)
  | [] => some (c, holders)
  | op :: ops =>
    match c.call op with
    | .error _ => none
    | .ok c' => ComponentArray.run c' (holders_after holders op) ops

/-- The store and the holders after the calls `ops` on an empty store; the empty store when
the calls do not all return. -/
def ComponentArray.after {T : Type} [Inhabited T] (ops : List (StoreOp T)) :
    ComponentArray T × List Entity :=
  (ComponentArray.run ComponentArray.empty [] ops).getD (ComponentArray.empty, [])

/-- The entities found at the positions `0, ..., size - 1` of the dense array. -/
def ComponentArray.entities {T : Type} (c : ComponentArray T) : List Entity :=
  (List.range c.size).filterMap c.index_to_entity_map

/-- Calls that insert the entities `5`, `7`, `9`, remove `5` and report the removal of
`3`. -/
def store_calls : List (StoreOp Nat) :=
  [.insert_component 5 50, .insert_component 7 70, .insert_component 9 90,
   .remove_component 5, .handle_entity_removed 3]

/-- What ties a reachable store to the entities that hold the component. -/
structure ComponentArray.Holds {T : Type} (c : ComponentArray T) (holders : List Entity) :
    Prop where
  packed : c.Packed
  nodup : holders.Nodup
  mem_iff : ∀ e, e ∈ holders ↔ c.has e = true
  size_eq : c.size = holders.length

/-! ## Registrations, issued ids and freed ids of a run -/

/-- Calls that register the `n` types `0, ..., n - 1`. -/
def calls_register (n : Nat) : List (Op Nat) := (List.range n).map Op.register_component

/-- Calls that register one type. -/
def calls_one_type : List (Op Nat) := [.register_component 0]

/-- The type names of the `register_component` calls of a sequence of calls, in order. -/
def registrations {V : Type} : List (Op V) → List TypeName
  | [] => []
  | .register_component t :: ops => t :: registrations ops
  | .create_entity :: ops => registrations ops
  | .remove_entity _ :: ops => registrations ops
  | .add_component _ _ _ :: ops => registrations ops
  | .remove_component _ _ :: ops => registrations ops

/-- The arguments of the `remove_entity` calls of a sequence of calls, in order. -/
def freed {V : Type} : List (Op V) → List Entity
  | [] => []
  | .register_component _ :: ops => freed ops
  | .create_entity :: ops => freed ops
  | .remove_entity e :: ops => e :: freed ops
  | .add_component _ _ _ :: ops => freed ops
  | .remove_component _ _ :: ops => freed ops

/-- The ids the `create_entity` calls of a sequence of calls return, in order, when the
calls are made from the state `s`; the sequence is followed up to its first call that does
not return. -/
def ECS.issued {V : Type} [Inhabited V] (s : ECS V) : List (Op V) → List Entity
  | [] => []
  | .create_entity :: ops =>
    match s.create_entity with
    | .error _ => []
    | .ok (e, s') => e :: ECS.issued s' ops
  | op :: ops =>
    match s.call op with
    | .error _ => []
    | .ok s' => ECS.issued s' ops

/-- What ties the registry of a state to the types `ts` registered so far, in order. -/
structure ECS.Registry {V : Type} (s : ECS V) (ts : List TypeName) : Prop where
  nodup : ts.Nodup
  count : s.component_arrays_count = ts.length % UINT8_MOD
  slot : ∀ (i : Nat) (t : TypeName), ts[i]? = some t →
    s.component_types t = some (i % UINT8_MOD)
  unregistered : ∀ t, t ∉ ts → s.component_types t = none

/-- Calls that create three entities, remove the first one and create a fourth entity. -/
def calls_recycle_create : List (Op Nat) :=
  [.create_entity, .create_entity, .create_entity, .remove_entity 0, .create_entity]

/-- Calls that insert the entities `5`, `7` and `9` into an empty store. -/
def store_calls_three : List (StoreOp Nat) :=
  [.insert_component 5 50, .insert_component 7 70, .insert_component 9 90]

/-- Calls that register one type, create three entities, give the third one a component and
remove the first entity. -/
def calls_live_omitted : List (Op Nat) :=
  [.register_component 0, .create_entity, .create_entity, .create_entity,
   .add_component 0 2 7, .remove_entity 0]

/-- The store of the type `type_name` in the map `component_arrays`; the empty store when
the map has none. -/
def ECS.store {V : Type} [Inhabited V] (s : ECS V) (type_name : TypeName) : ComponentArray V :=
  (ArrayMap.find s.component_arrays type_name).getD ComponentArray.empty

/-- Calls that register one type and create two entities with a component each. -/
def calls_two_components : List (Op Nat) :=
  [.register_component 0, .create_entity, .create_entity, .add_component 0 0 5,
   .add_component 0 1 6]

/-- Calls other than `remove_entity`, with a live entity as the entity argument of
`add_component` and `remove_component`. -/
def no_removal_calls {V : Type} (_s : ECS V) (live : List Entity) : Op V → Bool
  | .register_component _ => true
  | .create_entity => true
  | .remove_entity _ => false
  | .add_component _ e _ => decide (e ∈ live)
  | .remove_component _ e => decide (e ∈ live)

/-- The invariant of the id pool as long as `remove_entity` has not been called: the live
entities are `0, ..., entity_array_count - 1` in the order of their creation, and the
free-id queue holds the ids from `entity_array_count` on, in ascending order. -/
structure ECS.Unremoved {V : Type} (s : ECS V) (live : List Entity) : Prop where
  live_eq : live = List.range s.entity_array_count
  queue : List.range s.entity_array_count ++ s.entity_available_ids = List.range MAX_ENTITIES

/-! ## The packed store -/

theorem ComponentArray.packed_empty {T : Type} [Inhabited T] :
    (ComponentArray.empty : ComponentArray T).Packed := by
  constructor <;> simp [ComponentArray.empty, UMap.empty]

theorem ComponentArray.in_range_empty {T : Type} [Inhabited T] :
    (ComponentArray.empty : ComponentArray T).InRange := by
  intro e i h
  simp [ComponentArray.empty, UMap.empty] at h

theorem ComponentArray.insert_component_eq {T : Type} {c c' : ComponentArray T} {e : Entity}
    {v : T} (h : c.insert_component e v = .ok c') :
    c.entity_to_index_map e = none ∧ c.size < MAX_ENTITIES ∧
    c' = { values := fun i => if i = c.size then v else c.values i
           entity_to_index_map := UMap.assign c.entity_to_index_map e c.size
           index_to_entity_map := UMap.assign c.index_to_entity_map c.size e
           size := c.size + 1 } := by
  unfold ComponentArray.insert_component at h
  by_cases h1 : UMap.contains c.entity_to_index_map e = true
  · simp [h1] at h
  · by_cases h2 : c.size < MAX_ENTITIES
    · simp only [h1, h2] at h
      simp only [Bool.false_eq_true, if_false, if_true, Except.ok.injEq] at h
      refine ⟨?_, h2, ?_⟩
      · simpa [UMap.contains] using h1
      · rw [← h]
        have : (c.size + 1) % SIZE_MOD = c.size + 1 := by
          apply Nat.mod_eq_of_lt
          unfold MAX_ENTITIES at h2
          unfold SIZE_MOD
          omega
        rw [this]
    · simp [h1, h2] at h


theorem ComponentArray.insert_component_ok {T : Type} (c : ComponentArray T) (e : Entity) (v : T)
    (h1 : c.entity_to_index_map e = none) (h2 : c.size < MAX_ENTITIES) :
    c.insert_component e v =
      .ok { values := fun i => if i = c.size then v else c.values i
            entity_to_index_map := UMap.assign c.entity_to_index_map e c.size
            index_to_entity_map := UMap.assign c.index_to_entity_map c.size e
            size := c.size + 1 } := by
  have : (c.size + 1) % SIZE_MOD = c.size + 1 := by
    apply Nat.mod_eq_of_lt
    unfold MAX_ENTITIES at h2
    unfold SIZE_MOD
    omega
  simp [ComponentArray.insert_component, UMap.contains, h1, h2, this]

theorem ComponentArray.Packed.packed_insert {T : Type} {c c' : ComponentArray T} {e : Entity}
    {v : T} (hc : c.Packed) (h : c.insert_component e v = .ok c') : c'.Packed := by
  obtain ⟨hnone, hlt, rfl⟩ := ComponentArray.insert_component_eq h
  refine ⟨?_, ?_, ?_, ?_⟩
  · show c.size + 1 ≤ MAX_ENTITIES
    omega
  · intro x i hx
    simp only [UMap.assign] at hx
    by_cases hxe : x = e
    · simp [hxe] at hx
      show i < c.size + 1
      omega
    · simp [hxe] at hx
      have := hc.index_lt x i hx
      show i < c.size + 1
      omega
  · intro x i
    simp only [UMap.assign]
    by_cases hxe : x = e <;> by_cases hi : i = c.size
    · simp [hxe, hi]
    · subst hxe
      simp only [if_true, hi, if_false]
      constructor
      · intro h1
        simp at h1
        omega
      · intro h1
        have := (hc.inverse x i).2 h1
        rw [hnone] at this
        cases this
    · subst hi
      simp only [hxe, if_false, if_true]
      constructor
      · intro h1
        have := hc.index_lt x _ h1
        omega
      · intro h1
        simp at h1
        exact absurd h1.symm hxe
    · simp only [hxe, hi, if_false]
      exact hc.inverse x i
  · intro i hi
    simp only [UMap.assign]
    by_cases hi2 : i = c.size
    · exact ⟨e, by simp [hi2]⟩
    · have hi3 : i < c.size := by
        have : i < c.size + 1 := hi
        omega
      obtain ⟨x, hx⟩ := hc.index_present i hi3
      exact ⟨x, by simp [hi2, hx]⟩

theorem ComponentArray.InRange.in_range_insert {T : Type} {c c' : ComponentArray T} {e : Entity}
    {v : T} (hc : c.InRange) (he : e < MAX_ENTITIES) (h : c.insert_component e v = .ok c') :
    c'.InRange := by
  obtain ⟨_, _, rfl⟩ := ComponentArray.insert_component_eq h
  intro x i hx
  simp only [UMap.assign] at hx
  by_cases hxe : x = e
  · rw [hxe]
    exact he
  · simp [hxe] at hx
    exact hc x i hx

/-- The facts about a packed store that `remove_component` relies on. -/
theorem ComponentArray.Packed.last_entity {T : Type} {c : ComponentArray T} (hc : c.Packed)
    {e : Entity} {idx : Nat} (he : c.entity_to_index_map e = some idx) :
    (c.size + SIZE_MOD - 1) % SIZE_MOD = c.size - 1 ∧ idx < c.size ∧ c.size - 1 < MAX_ENTITIES ∧
    ∃ el, c.index_to_entity_map (c.size - 1) = some el ∧
      c.entity_to_index_map el = some (c.size - 1) := by
  have h1 := hc.index_lt e idx he
  have h2 := hc.size_le
  have h3 : (c.size + SIZE_MOD - 1) % SIZE_MOD = c.size - 1 := by
    unfold MAX_ENTITIES at h2
    unfold SIZE_MOD
    omega
  obtain ⟨el, hel⟩ := hc.index_present (c.size - 1) (by omega)
  refine ⟨h3, h1, ?_, el, hel, (hc.inverse el _).2 hel⟩
  omega

theorem ComponentArray.store_remove_eq {T : Type} {c c' : ComponentArray T} {e : Entity}
    (h : c.remove_component e = .ok c') :
    ∃ idx, c.entity_to_index_map e = some idx ∧ idx < MAX_ENTITIES ∧
      (c.size + SIZE_MOD - 1) % SIZE_MOD < MAX_ENTITIES ∧
      c' = { values := fun i =>
               if i = idx then c.values ((c.size + SIZE_MOD - 1) % SIZE_MOD) else c.values i
             entity_to_index_map :=
               UMap.erase
                 (UMap.assign c.entity_to_index_map
                   ((c.index_to_entity_map ((c.size + SIZE_MOD - 1) % SIZE_MOD)).getD 0) idx) e
             index_to_entity_map :=
               UMap.erase
                 (UMap.assign c.index_to_entity_map idx
                   ((c.index_to_entity_map ((c.size + SIZE_MOD - 1) % SIZE_MOD)).getD 0))
                 ((c.size + SIZE_MOD - 1) % SIZE_MOD)
             size := (c.size + SIZE_MOD - 1) % SIZE_MOD } := by
  unfold ComponentArray.remove_component at h
  cases he : c.entity_to_index_map e with
  | none => simp [he] at h
  | some idx =>
    simp only [he] at h
    by_cases hb : idx < MAX_ENTITIES ∧ (c.size + SIZE_MOD - 1) % SIZE_MOD < MAX_ENTITIES
    · simp only [hb, and_self, if_true, Except.ok.injEq] at h
      exact ⟨idx, rfl, hb.1, hb.2, h.symm⟩
    · simp [hb] at h

/-- On a packed store `remove_component` returns for every entity the store holds, and the
result is described by the position `idx` of the entity and the entity `el` at the last
position. -/
theorem ComponentArray.Packed.store_remove_ok {T : Type} {c : ComponentArray T}
    (hc : c.Packed) {e : Entity} {idx : Nat} (he : c.entity_to_index_map e = some idx) :
    ∃ el, c.index_to_entity_map (c.size - 1) = some el ∧
      c.entity_to_index_map el = some (c.size - 1) ∧
      c.remove_component e =
        .ok { values := fun i => if i = idx then c.values (c.size - 1) else c.values i
              entity_to_index_map := UMap.erase (UMap.assign c.entity_to_index_map el idx) e
              index_to_entity_map :=
                UMap.erase (UMap.assign c.index_to_entity_map idx el) (c.size - 1)
              size := c.size - 1 } := by
  obtain ⟨h3, h1, h4, el, hel, hel2⟩ := hc.last_entity he
  refine ⟨el, hel, hel2, ?_⟩
  have h5 : idx < MAX_ENTITIES := by omega
  simp [ComponentArray.remove_component, he, h3, h4, h5, hel]


theorem ComponentArray.Packed.packed_remove {T : Type} {c c' : ComponentArray T}
    {e : Entity} (hc : c.Packed) (h : c.remove_component e = .ok c') : c'.Packed := by
  obtain ⟨idx, he, -, -, -⟩ := ComponentArray.store_remove_eq h
  obtain ⟨el, hel, hel2, heq⟩ := hc.store_remove_ok he
  rw [heq] at h
  cases h
  have hidx := hc.index_lt e idx he
  have hsz := hc.size_le
  -- the removed entity is the last one exactly when its position is the last one
  have hlast : idx = c.size - 1 ↔ el = e := by
    constructor
    · intro h1
      rw [h1] at he
      have := (hc.inverse e _).1 he
      rw [hel] at this
      exact Option.some.inj this
    · intro h1
      rw [h1, he] at hel2
      exact Option.some.inj hel2
  refine ⟨?_, ?_, ?_, ?_⟩
  · show c.size - 1 ≤ MAX_ENTITIES
    omega
  · intro x i hx
    show i < c.size - 1
    simp only [UMap.erase, UMap.assign] at hx
    by_cases hxe : x = e
    · simp [hxe] at hx
    · simp only [hxe, if_false] at hx
      by_cases hxl : x = el
      · simp only [hxl, if_true, Option.some.injEq] at hx
        have : ¬ idx = c.size - 1 := fun h1 => hxe (hxl.trans (hlast.1 h1))
        omega
      · simp only [hxl, if_false] at hx
        have h1 := hc.index_lt x i hx
        have : ¬ i = c.size - 1 := by
          intro h2
          rw [h2] at hx
          have := (hc.inverse x _).1 hx
          rw [hel] at this
          exact hxl (Option.some.inj this).symm
        omega
  · intro x i
    simp only [UMap.erase, UMap.assign]
    constructor
    · intro hx
      by_cases hxe : x = e
      · simp [hxe] at hx
      · simp only [hxe, if_false] at hx
        by_cases hxl : x = el
        · simp only [hxl, if_true, Option.some.injEq] at hx
          have : ¬ idx = c.size - 1 := fun h1 => hxe (hxl.trans (hlast.1 h1))
          subst hx
          simp [this, hxl]
        · simp only [hxl, if_false] at hx
          have h1 : ¬ i = c.size - 1 := by
            intro h2
            rw [h2] at hx
            have := (hc.inverse x _).1 hx
            rw [hel] at this
            exact hxl (Option.some.inj this).symm
          have h2 : ¬ i = idx := by
            intro h2
            rw [h2, ← he] at hx
            have h3 := (hc.inverse x idx).1 (hx.trans he)
            have h4 := (hc.inverse e idx).1 he
            rw [h3] at h4
            exact hxe (Option.some.inj h4)
          simp only [h1, h2, if_false]
          exact (hc.inverse x i).1 hx
    · intro hi
      by_cases h1 : i = c.size - 1
      · simp [h1] at hi
      · simp only [h1, if_false] at hi
        by_cases h2 : i = idx
        · simp only [h2, if_true, Option.some.injEq] at hi
          have hne : ¬ el = e := fun h3 => h1 (h2.trans (hlast.2 h3))
          subst hi
          simp [hne, h2]
        · simp only [h2, if_false] at hi
          have h3 := (hc.inverse x i).2 hi
          have hxe : ¬ x = e := by
            intro h4
            rw [h4, he] at h3
            exact h2 (Option.some.inj h3).symm
          have hxl : ¬ x = el := by
            intro h4
            rw [h4, hel2] at h3
            exact h1 (Option.some.inj h3).symm
          simp only [hxe, hxl, if_false]
          exact h3
  · intro i hi
    have hi2 : i < c.size - 1 := hi
    simp only [UMap.erase, UMap.assign]
    have h1 : ¬ i = c.size - 1 := by omega
    by_cases h2 : i = idx
    · exact ⟨el, by rw [if_neg h1, if_pos h2]⟩
    · obtain ⟨x, hx⟩ := hc.index_present i (by omega)
      exact ⟨x, by simp [h1, h2, hx]⟩

/-- Which entities a packed store holds after `remove_component`: the same as before,
without the removed one. -/
theorem ComponentArray.Packed.remove_component_has {T : Type} {c c' : ComponentArray T}
    {e : Entity} (hc : c.Packed) (h : c.remove_component e = .ok c') (x : Entity) :
    (c'.entity_to_index_map x).isSome = true ↔
      (x ≠ e ∧ (c.entity_to_index_map x).isSome = true) := by
  obtain ⟨idx, he, -, -, -⟩ := ComponentArray.store_remove_eq h
  obtain ⟨el, hel, hel2, heq⟩ := hc.store_remove_ok he
  rw [heq] at h
  cases h
  simp only [UMap.erase, UMap.assign]
  by_cases hxe : x = e
  · simp [hxe]
  · by_cases hxl : x = el
    · simp [hxe, hxl, hel2]
    · simp [hxe, hxl]

theorem ComponentArray.InRange.in_range_remove {T : Type} {c c' : ComponentArray T}
    {e : Entity} (hc : c.Packed) (hr : c.InRange) (h : c.remove_component e = .ok c') :
    c'.InRange := by
  intro x i hx
  have h1 := (hc.remove_component_has h x).1 (by simp [hx])
  cases h2 : c.entity_to_index_map x with
  | none => simp [h2] at h1
  | some j => exact hr x j h2


/-- A packed store whose entities are all in range has room for one more entity in range. -/
theorem ComponentArray.Packed.size_lt {T : Type} {c : ComponentArray T} (hc : c.Packed)
    (hr : c.InRange) {e : Entity} (he : e < MAX_ENTITIES)
    (hnone : c.entity_to_index_map e = none) : c.size < MAX_ENTITIES := by
  have hcard : (Finset.range c.size).card ≤ ((Finset.range MAX_ENTITIES).erase e).card := by
    apply Finset.card_le_card_of_injOn (fun i => (c.index_to_entity_map i).getD 0)
    · intro i hi
      obtain ⟨x, hx⟩ := hc.index_present i (Finset.mem_range.1 hi)
      have hx2 := (hc.inverse x i).2 hx
      simp only [hx, Option.getD_some, Finset.mem_erase, Finset.mem_range]
      refine ⟨?_, hr x i hx2⟩
      intro h1
      rw [h1, hnone] at hx2
      cases hx2
    · intro i hi j hj hij
      obtain ⟨x, hx⟩ := hc.index_present i (Finset.mem_range.1 hi)
      obtain ⟨y, hy⟩ := hc.index_present j (Finset.mem_range.1 hj)
      simp only [hx, hy, Option.getD_some] at hij
      have h1 := (hc.inverse x i).2 hx
      have h2 := (hc.inverse y j).2 hy
      rw [hij, h2] at h1
      exact (Option.some.inj h1).symm
  rw [Finset.card_range, Finset.card_erase_of_mem (Finset.mem_range.2 he),
    Finset.card_range] at hcard
  have he' : @LT.lt Nat _ e MAX_ENTITIES := he
  omega

theorem ComponentArray.handle_entity_removed_absent {T : Type} (c : ComponentArray T)
    {e : Entity} (h : c.entity_to_index_map e = none) : c.handle_entity_removed e = .ok c := by
  simp [ComponentArray.handle_entity_removed, UMap.contains, h]

theorem ComponentArray.handle_entity_removed_present {T : Type} (c : ComponentArray T)
    {e : Entity} {idx : Nat} (h : c.entity_to_index_map e = some idx) :
    c.handle_entity_removed e = c.remove_component e := by
  simp [ComponentArray.handle_entity_removed, UMap.contains, h]

/-- On a packed store `handle_entity_removed` always returns. -/
theorem ComponentArray.Packed.store_handle_ok {T : Type} {c : ComponentArray T}
    (hc : c.Packed) (e : Entity) : ∃ c', c.handle_entity_removed e = .ok c' := by
  cases h : c.entity_to_index_map e with
  | none => exact ⟨c, c.handle_entity_removed_absent h⟩
  | some idx =>
    obtain ⟨el, -, -, heq⟩ := hc.store_remove_ok h
    exact ⟨_, (c.handle_entity_removed_present h).trans heq⟩

theorem ComponentArray.Packed.packed_handle {T : Type} {c c' : ComponentArray T}
    {e : Entity} (hc : c.Packed) (hr : c.InRange) (h : c.handle_entity_removed e = .ok c') :
    c'.Packed ∧ c'.InRange := by
  cases h1 : c.entity_to_index_map e with
  | none =>
    rw [c.handle_entity_removed_absent h1] at h
    cases h
    exact ⟨hc, hr⟩
  | some idx =>
    rw [c.handle_entity_removed_present h1] at h
    exact ⟨hc.packed_remove h, ComponentArray.InRange.in_range_remove hc hr h⟩

/-- Which entities a packed store holds after `handle_entity_removed`. -/
theorem ComponentArray.Packed.handle_entity_removed_has {T : Type} {c c' : ComponentArray T}
    {e : Entity} (hc : c.Packed) (h : c.handle_entity_removed e = .ok c') (x : Entity) :
    c'.has x = (decide (x ≠ e) && c.has x) := by
  cases h1 : c.entity_to_index_map e with
  | none =>
    rw [c.handle_entity_removed_absent h1] at h
    cases h
    by_cases hx : x = e
    · simp [hx, ComponentArray.has, UMap.contains, h1]
    · simp [hx]
  | some idx =>
    rw [c.handle_entity_removed_present h1] at h
    have := hc.remove_component_has h x
    simp only [ComponentArray.has, UMap.contains]
    rw [Bool.eq_iff_iff, this]
    simp

/-! ## The map of stores -/

theorem ArrayMap.mem_of_find {V : Type} {m : ArrayMap V} {t : TypeName} {c : ComponentArray V}
    (h : ArrayMap.find m t = some c) : (t, c) ∈ m := by
  induction m with
  | nil => simp [ArrayMap.find] at h
  | cons p rest ih =>
    obtain ⟨u, d⟩ := p
    simp only [ArrayMap.find] at h
    by_cases hu : u = t
    · simp only [hu, if_true, Option.some.injEq] at h
      simp [hu, h]
    · simp only [hu, if_false] at h
      exact List.mem_cons_of_mem _ (ih h)

theorem ArrayMap.find_replace {V : Type} (m : ArrayMap V) (t u : TypeName)
    (c' : ComponentArray V) :
    ArrayMap.find (ArrayMap.replace m t c') u =
      if u = t then (ArrayMap.find m t).map (fun _ => c') else ArrayMap.find m u := by
  induction m with
  | nil => simp [ArrayMap.find, ArrayMap.replace]
  | cons p rest ih =>
    obtain ⟨w, d⟩ := p
    by_cases hw : w = t
    · subst hw
      by_cases hu : u = w
      · simp [ArrayMap.find, ArrayMap.replace, hu]
      · have : ¬ w = u := fun h => hu h.symm
        simp [ArrayMap.find, ArrayMap.replace, hu, this]
    · by_cases hu : u = t
      · subst hu
        simp [ArrayMap.find, ArrayMap.replace, hw, ih]
      · simp only [ArrayMap.replace, hw, if_false, ArrayMap.find, ih, hu]

theorem ArrayMap.mem_replace {V : Type} {m : ArrayMap V} {t u : TypeName}
    {c' d : ComponentArray V} (h : (u, d) ∈ ArrayMap.replace m t c') :
    (u, d) ∈ m ∨ ((u, d) = (t, c') ∧ (ArrayMap.find m t).isSome) := by
  induction m with
  | nil => simp [ArrayMap.replace] at h
  | cons p rest ih =>
    obtain ⟨w, x⟩ := p
    by_cases hw : w = t
    · subst hw
      simp only [ArrayMap.replace, if_true, List.mem_cons] at h
      rcases h with h | h
      · right
        simp [h, ArrayMap.find]
      · left
        exact List.mem_cons_of_mem _ h
    · simp only [ArrayMap.replace, hw, if_false, List.mem_cons] at h
      rcases h with h | h
      · left
        simp [h]
      · rcases ih h with h1 | h1
        · left
          exact List.mem_cons_of_mem _ h1
        · right
          simpa [ArrayMap.find, hw] using h1

theorem ArrayMap.find_append {V : Type} (m n : ArrayMap V) (u : TypeName) :
    ArrayMap.find (m ++ n) u = (ArrayMap.find m u).orElse (fun _ => ArrayMap.find n u) := by
  induction m with
  | nil => simp [ArrayMap.find]
  | cons p rest ih =>
    obtain ⟨w, x⟩ := p
    by_cases hw : w = u
    · simp [ArrayMap.find, hw]
    · simp [ArrayMap.find, hw, ih]

theorem ArrayMap.find_insert {V : Type} (m : ArrayMap V) (t u : TypeName)
    (c : ComponentArray V) :
    ArrayMap.find (ArrayMap.insert m t c) u =
      (ArrayMap.find m u).orElse (fun _ => if t = u then some c else none) := by
  unfold ArrayMap.insert
  cases h : ArrayMap.find m t with
  | some d =>
    simp only
    by_cases htu : t = u
    · subst htu
      simp [h]
    · cases h2 : ArrayMap.find m u <;> simp [htu]
  | none =>
    simp only [ArrayMap.find_append, ArrayMap.find]

theorem ArrayMap.mem_insert {V : Type} {m : ArrayMap V} {t u : TypeName}
    {c d : ComponentArray V} (h : (u, d) ∈ ArrayMap.insert m t c) :
    (u, d) ∈ m ∨ (u, d) = (t, c) := by
  unfold ArrayMap.insert at h
  cases h1 : ArrayMap.find m t with
  | some x =>
    simp only [h1] at h
    exact Or.inl h
  | none =>
    simp only [h1, List.mem_append, List.mem_singleton] at h
    exact h

/-- The loop over the stores returns when every store is packed. -/
theorem ArrayMap.handle_all_ok {V : Type} (m : ArrayMap V) (e : Entity)
    (hm : ∀ t c, (t, c) ∈ m → c.Packed) : ∃ m', ArrayMap.handle_entity_removed m e = .ok m' := by
  induction m with
  | nil => exact ⟨[], rfl⟩
  | cons p rest ih =>
    obtain ⟨t, c⟩ := p
    obtain ⟨c', hc'⟩ := (hm t c (List.mem_cons_self _ _)).store_handle_ok e
    obtain ⟨rest', hrest'⟩ := ih (fun u d hd => hm u d (List.mem_cons_of_mem _ hd))
    exact ⟨(t, c') :: rest', by simp [ArrayMap.handle_entity_removed, hc', hrest']⟩

/-- Every store after the loop is the result of `handle_entity_removed` on a store before. -/
theorem ArrayMap.mem_handle_entity_removed {V : Type} {m m' : ArrayMap V} {e : Entity}
    (h : ArrayMap.handle_entity_removed m e = .ok m') {t : TypeName} {c' : ComponentArray V}
    (hc' : (t, c') ∈ m') : ∃ c, (t, c) ∈ m ∧ c.handle_entity_removed e = .ok c' := by
  induction m generalizing m' with
  | nil =>
    simp only [ArrayMap.handle_entity_removed, Except.ok.injEq] at h
    subst h
    cases hc'
  | cons p rest ih =>
    obtain ⟨u, d⟩ := p
    simp only [ArrayMap.handle_entity_removed] at h
    cases hd : d.handle_entity_removed e with
    | error f => simp [hd] at h
    | ok d' =>
      cases hr : ArrayMap.handle_entity_removed rest e with
      | error f => simp [hd, hr] at h
      | ok rest' =>
        simp only [hd, hr, Except.ok.injEq] at h
        subst h
        rcases List.mem_cons.1 hc' with h1 | h1
        · cases h1
          exact ⟨d, List.mem_cons_self _ _, hd⟩
        · obtain ⟨c, hc, hc2⟩ := ih hr h1
          exact ⟨c, List.mem_cons_of_mem _ hc, hc2⟩

/-- The store found under a type name after the loop is the result of
`handle_entity_removed` on the store found under that name before. -/
theorem ArrayMap.find_handle_entity_removed {V : Type} {m m' : ArrayMap V} {e : Entity}
    (h : ArrayMap.handle_entity_removed m e = .ok m') (t : TypeName) :
    (ArrayMap.find m t = none ∧ ArrayMap.find m' t = none) ∨
    ∃ c c', ArrayMap.find m t = some c ∧ ArrayMap.find m' t = some c' ∧
      c.handle_entity_removed e = .ok c' := by
  induction m generalizing m' with
  | nil =>
    simp only [ArrayMap.handle_entity_removed, Except.ok.injEq] at h
    subst h
    exact Or.inl ⟨rfl, rfl⟩
  | cons p rest ih =>
    obtain ⟨u, d⟩ := p
    simp only [ArrayMap.handle_entity_removed] at h
    cases hd : d.handle_entity_removed e with
    | error f => simp [hd] at h
    | ok d' =>
      cases hr : ArrayMap.handle_entity_removed rest e with
      | error f => simp [hd, hr] at h
      | ok rest' =>
        simp only [hd, hr, Except.ok.injEq] at h
        subst h
        by_cases hu : u = t
        · right
          exact ⟨d, d', by simp [ArrayMap.find, hu], by simp [ArrayMap.find, hu], hd⟩
        · simpa [ArrayMap.find, hu] using ih hr

/-! ## What the calls of `ECS` do when they return -/

theorem ECS.create_entity_eq {V : Type} {s s' : ECS V} {e : Entity}
    (h : s.create_entity = .ok (e, s')) :
    s.entity_array_count < MAX_ENTITIES ∧ ∃ rest, s.entity_available_ids = e :: rest ∧
      s' = { s with
             entity_available_ids := rest
             entity_array_count := (s.entity_array_count + 1) % UINT32_MOD } := by
  unfold ECS.create_entity at h
  by_cases h1 : s.entity_array_count < MAX_ENTITIES
  · simp only [h1, if_true] at h
    cases h2 : s.entity_available_ids with
    | nil => simp [h2] at h
    | cons x rest =>
      simp only [h2, Except.ok.injEq, Prod.mk.injEq] at h
      exact ⟨h1, rest, by rw [h.1], h.2.symm⟩
  · simp [h1] at h

theorem ECS.remove_entity_eq {V : Type} {s s' : ECS V} {e : Entity}
    (h : s.remove_entity e = .ok s') :
    e < MAX_ENTITIES ∧ ∃ arrays, ArrayMap.handle_entity_removed s.component_arrays e = .ok arrays ∧
      s' = { s with
             entity_signatures := fun i => if i = e then 0 else s.entity_signatures i
             entity_available_ids := s.entity_available_ids ++ [e]
             component_arrays := arrays
             entity_array_count := (s.entity_array_count + UINT32_MOD - 1) % UINT32_MOD } := by
  unfold ECS.remove_entity at h
  by_cases h1 : e < MAX_ENTITIES
  · simp only [h1, if_true] at h
    cases h2 : ArrayMap.handle_entity_removed s.component_arrays e with
    | error f => simp [h2] at h
    | ok arrays =>
      simp only [h2, Except.ok.injEq] at h
      exact ⟨h1, arrays, rfl, h.symm⟩
  · simp [h1] at h

theorem ECS.register_component_eq {V : Type} [Inhabited V] {s s' : ECS V} {t : TypeName}
    (h : s.register_component t = .ok s') :
    s.component_types t = none ∧
      s' = { s with
             component_types := UMap.assign s.component_types t s.component_arrays_count
             component_arrays := ArrayMap.insert s.component_arrays t ComponentArray.empty
             component_arrays_count := (s.component_arrays_count + 1) % UINT8_MOD } := by
  unfold ECS.register_component at h
  by_cases h1 : UMap.contains s.component_types t = true
  · simp [h1] at h
  · simp only [h1, Bool.false_eq_true, if_false, Except.ok.injEq] at h
    have h2 : s.component_types t = none := by simpa [UMap.contains] using h1
    refine ⟨h2, ?_⟩
    rw [← h]
    simp [UMap.insert, h1]

theorem ECS.get_component_array_eq {V : Type} {s : ECS V} {t : TypeName} {c : ComponentArray V}
    (h : s.get_component_array t = .ok c) :
    (∃ k, s.component_types t = some k) ∧ ArrayMap.find s.component_arrays t = some c := by
  unfold ECS.get_component_array at h
  cases h1 : s.component_types t with
  | none => simp [UMap.contains, h1] at h
  | some k =>
    cases h2 : ArrayMap.find s.component_arrays t with
    | none => simp [UMap.contains, h1, h2] at h
    | some d =>
      simp only [UMap.contains, h1, h2, Option.isSome_some, if_true, Except.ok.injEq] at h
      exact ⟨⟨k, rfl⟩, by rw [h]⟩

theorem ECS.get_component_array_ok {V : Type} {s : ECS V} {t : TypeName} {k : ComponentType}
    {c : ComponentArray V} (h1 : s.component_types t = some k)
    (h2 : ArrayMap.find s.component_arrays t = some c) : s.get_component_array t = .ok c := by
  simp [ECS.get_component_array, UMap.contains, h1, h2]

theorem ECS.add_component_eq {V : Type} {s s' : ECS V} {t : TypeName} {e : Entity} {v : V}
    (h : s.add_component t e v = .ok s') :
    ∃ c c' k, s.component_types t = some k ∧ ArrayMap.find s.component_arrays t = some c ∧
      c.insert_component e v = .ok c' ∧ e < MAX_ENTITIES ∧ k < MAX_COMPONENTS ∧
      s' = { s with
             component_arrays := ArrayMap.replace s.component_arrays t c'
             entity_signatures := fun i =>
               if i = e then s.entity_signatures e ||| (1 <<< k) else s.entity_signatures i } := by
  unfold ECS.add_component at h
  cases h1 : s.get_component_array t with
  | error f => simp [h1] at h
  | ok c =>
    obtain ⟨⟨k, hk⟩, hc⟩ := ECS.get_component_array_eq h1
    cases h2 : c.insert_component e v with
    | error f => simp [h1, h2] at h
    | ok c' =>
      simp only [h1, h2, ECS.get_component_type, hk] at h
      by_cases h3 : e < MAX_ENTITIES
      · by_cases h4 : k < MAX_COMPONENTS
        · simp only [h3, if_true, Signature.set, h4, Except.ok.injEq] at h
          exact ⟨c, c', k, hk, hc, h2, h3, h4, h.symm⟩
        · simp [h3, Signature.set, h4] at h
      · simp [h3] at h

theorem ECS.add_component_ok {V : Type} {s : ECS V} {t : TypeName} {e : Entity} {v : V}
    {c c' : ComponentArray V} {k : ComponentType} (hk : s.component_types t = some k)
    (hc : ArrayMap.find s.component_arrays t = some c) (hins : c.insert_component e v = .ok c')
    (he : e < MAX_ENTITIES) (hk2 : k < MAX_COMPONENTS) :
    s.add_component t e v =
      .ok { s with
            component_arrays := ArrayMap.replace s.component_arrays t c'
            entity_signatures := fun i =>
              if i = e then s.entity_signatures e ||| (1 <<< k) else s.entity_signatures i } := by
  simp [ECS.add_component, ECS.get_component_array_ok hk hc, hins, ECS.get_component_type, hk,
    he, Signature.set, hk2]

theorem ECS.remove_component_eq {V : Type} {s s' : ECS V} {t : TypeName} {e : Entity}
    (h : s.remove_component t e = .ok s') :
    ∃ c c' k, s.component_types t = some k ∧ ArrayMap.find s.component_arrays t = some c ∧
      c.remove_component e = .ok c' ∧ e < MAX_ENTITIES ∧ k < MAX_COMPONENTS ∧
      s' = { s with
             component_arrays := ArrayMap.replace s.component_arrays t c'
             entity_signatures := fun i =>
               if i = e then s.entity_signatures e ^^^ (s.entity_signatures e &&& (1 <<< k))
               else s.entity_signatures i } := by
  unfold ECS.remove_component at h
  cases h1 : s.get_component_array t with
  | error f => simp [h1] at h
  | ok c =>
    obtain ⟨⟨k, hk⟩, hc⟩ := ECS.get_component_array_eq h1
    cases h2 : c.remove_component e with
    | error f => simp [h1, h2] at h
    | ok c' =>
      simp only [h1, h2, ECS.get_component_type, hk] at h
      by_cases h3 : e < MAX_ENTITIES
      · by_cases h4 : k < MAX_COMPONENTS
        · simp only [h3, if_true, Signature.reset_bit, h4, Except.ok.injEq] at h
          exact ⟨c, c', k, hk, hc, h2, h3, h4, h.symm⟩
        · simp [h3, Signature.reset_bit, h4] at h
      · simp [h3] at h

theorem ECS.remove_component_ok {V : Type} {s : ECS V} {t : TypeName} {e : Entity}
    {c c' : ComponentArray V} {k : ComponentType} (hk : s.component_types t = some k)
    (hc : ArrayMap.find s.component_arrays t = some c) (hrem : c.remove_component e = .ok c')
    (he : e < MAX_ENTITIES) (hk2 : k < MAX_COMPONENTS) :
    s.remove_component t e =
      .ok { s with
            component_arrays := ArrayMap.replace s.component_arrays t c'
            entity_signatures := fun i =>
              if i = e then s.entity_signatures e ^^^ (s.entity_signatures e &&& (1 <<< k))
              else s.entity_signatures i } := by
  simp [ECS.remove_component, ECS.get_component_array_ok hk hc, hrem, ECS.get_component_type, hk,
    he, Signature.reset_bit, hk2]

/-! ## Bits of a signature -/

theorem Signature.test_set (sig : Signature) (k j : Nat) :
    Signature.test (sig ||| (1 <<< k)) j = (Signature.test sig j || decide (k = j)) := by
  simp [Signature.test, Nat.one_shiftLeft, Nat.testBit_two_pow]

theorem Signature.test_reset_bit (sig : Signature) (k j : Nat) :
    Signature.test (sig ^^^ (sig &&& (1 <<< k))) j = (Signature.test sig j && !decide (k = j)) := by
  simp only [Signature.test, Nat.one_shiftLeft, Nat.testBit_xor, Nat.testBit_and,
    Nat.testBit_two_pow]
  cases Nat.testBit sig j <;> cases decide (k = j) <;> rfl

theorem Signature.test_zero (j : Nat) : Signature.test 0 j = false := by
  simp [Signature.test]


/-! ## The invariant of the stores is kept by every call -/

theorem ComponentArray.has_empty {T : Type} [Inhabited T] (e : Entity) :
    (ComponentArray.empty : ComponentArray T).has e = false := by
  simp [ComponentArray.has, ComponentArray.empty, UMap.contains, UMap.empty]

theorem ComponentArray.insert_component_has {T : Type} {c c' : ComponentArray T} {e : Entity}
    {v : T} (h : c.insert_component e v = .ok c') (x : Entity) :
    c'.has x = (decide (x = e) || c.has x) := by
  obtain ⟨_, _, rfl⟩ := ComponentArray.insert_component_eq h
  by_cases hx : x = e <;> simp [ComponentArray.has, UMap.contains, UMap.assign, hx]

theorem ComponentArray.Packed.remove_component_has_eq {T : Type} {c c' : ComponentArray T}
    {e : Entity} (hc : c.Packed) (h : c.remove_component e = .ok c') (x : Entity) :
    c'.has x = (decide (x ≠ e) && c.has x) := by
  have := hc.remove_component_has h x
  simp only [ComponentArray.has, UMap.contains]
  rw [Bool.eq_iff_iff, this]
  simp

theorem ECS.find_none_of_unregistered {V : Type} {s : ECS V} (hs : s.Stores) {t : TypeName}
    (h : s.component_types t = none) : ArrayMap.find s.component_arrays t = none := by
  have := hs.registered t
  rw [h] at this
  cases h1 : ArrayMap.find s.component_arrays t with
  | none => rfl
  | some c => simp [h1] at this

theorem ECS.find_of_registered {V : Type} {s : ECS V} (hs : s.Stores) {t : TypeName}
    {k : ComponentType} (h : s.component_types t = some k) :
    ∃ c, ArrayMap.find s.component_arrays t = some c := by
  have := hs.registered t
  rw [h] at this
  cases h1 : ArrayMap.find s.component_arrays t with
  | none => simp [h1] at this
  | some c => exact ⟨c, rfl⟩

theorem ECS.stores_new {V : Type} : (ECS.new : ECS V).Stores := by
  refine ⟨?_, ?_, ?_⟩
  · intro t
    simp [ECS.new, UMap.empty, ArrayMap.find]
  · intro t c h
    simp [ECS.new] at h
  · intro t k c e h
    simp [ECS.new, UMap.empty] at h

theorem ECS.Stores.stores_register {V : Type} [Inhabited V] {s s' : ECS V} {t : TypeName}
    (hs : s.Stores) (h : s.register_component t = .ok s') : s'.Stores := by
  obtain ⟨hnone, rfl⟩ := ECS.register_component_eq h
  have hfind := ECS.find_none_of_unregistered hs hnone
  refine ⟨?_, ?_, ?_⟩
  · intro u
    simp only [UMap.assign, ArrayMap.find_insert]
    by_cases hut : u = t
    · subst hut
      simp [hfind]
    · have hut2 : ¬ t = u := fun h1 => hut h1.symm
      simp only [hut, hut2, if_false]
      rw [hs.registered u]
      cases ArrayMap.find s.component_arrays u <;> rfl
  · intro u c hc
    rcases ArrayMap.mem_insert hc with h1 | h1
    · exact hs.packed u c h1
    · cases h1
      exact ⟨ComponentArray.packed_empty, ComponentArray.in_range_empty⟩
  · intro u k c e hu hc hhas
    simp only [UMap.assign] at hu
    simp only [ArrayMap.find_insert] at hc
    by_cases hut : u = t
    · subst hut
      simp only [hfind, if_true, Option.orElse] at hc
      cases hc
      rw [ComponentArray.has_empty] at hhas
      cases hhas
    · have hut2 : ¬ t = u := fun h1 => hut h1.symm
      simp only [hut, if_false] at hu
      simp only [hut2, if_false] at hc
      cases h1 : ArrayMap.find s.component_arrays u with
      | none => simp [h1] at hc
      | some d =>
        simp only [h1, Option.orElse, Option.some.injEq] at hc
        subst hc
        exact hs.slot_ok u k d e hu h1 hhas

theorem ECS.Stores.stores_create {V : Type} {s s' : ECS V} {e : Entity}
    (hs : s.Stores) (h : s.create_entity = .ok (e, s')) : s'.Stores := by
  obtain ⟨_, rest, _, rfl⟩ := ECS.create_entity_eq h
  exact ⟨hs.registered, hs.packed, hs.slot_ok⟩

theorem ECS.Stores.stores_remove_entity {V : Type} {s s' : ECS V} {e : Entity}
    (hs : s.Stores) (h : s.remove_entity e = .ok s') : s'.Stores := by
  obtain ⟨_, arrays, harr, rfl⟩ := ECS.remove_entity_eq h
  refine ⟨?_, ?_, ?_⟩
  · intro t
    show (s.component_types t).isSome = (ArrayMap.find arrays t).isSome
    rw [hs.registered t]
    rcases ArrayMap.find_handle_entity_removed harr t with ⟨h1, h2⟩ | ⟨c, c', h1, h2, _⟩
    · rw [h1, h2]
    · rw [h1, h2]
      rfl
  · intro t c' hc'
    obtain ⟨c, hc, hcc'⟩ := ArrayMap.mem_handle_entity_removed harr hc'
    exact (hs.packed t c hc).1.packed_handle (hs.packed t c hc).2 hcc'
  · intro t k c' x hk hc' hhas
    have hc2 : ArrayMap.find arrays t = some c' := hc'
    rcases ArrayMap.find_handle_entity_removed harr t with ⟨h1, h2⟩ | ⟨c, d, h1, h2, h3⟩
    · rw [h2] at hc2
      cases hc2
    · rw [h2] at hc2
      cases hc2
      rw [(hs.packed t c (ArrayMap.mem_of_find h1)).1.handle_entity_removed_has h3 x] at hhas
      simp only [Bool.and_eq_true] at hhas
      exact hs.slot_ok t k c x hk h1 hhas.2

theorem ECS.Stores.stores_replace {V : Type} {s : ECS V} (hs : s.Stores) {t : TypeName}
    {k : ComponentType} {c c' : ComponentArray V} (sigs : Nat → Signature)
    (hk : s.component_types t = some k) (hc : ArrayMap.find s.component_arrays t = some c)
    (hp : c'.Packed ∧ c'.InRange) (hk2 : k < MAX_COMPONENTS) :
    ECS.Stores { s with
                 component_arrays := ArrayMap.replace s.component_arrays t c'
                 entity_signatures := sigs } := by
  refine ⟨?_, ?_, ?_⟩
  · intro u
    show (s.component_types u).isSome =
      (ArrayMap.find (ArrayMap.replace s.component_arrays t c') u).isSome
    rw [ArrayMap.find_replace, hs.registered u]
    by_cases hu : u = t
    · simp [hu, hc]
    · simp [hu]
  · intro u d hd
    rcases ArrayMap.mem_replace hd with h1 | ⟨h1, _⟩
    · exact hs.packed u d h1
    · cases h1
      exact hp
  · intro u j d x hj hd hhas
    have hd2 : ArrayMap.find (ArrayMap.replace s.component_arrays t c') u = some d := hd
    have hj2 : s.component_types u = some j := hj
    rw [ArrayMap.find_replace] at hd2
    by_cases hu : u = t
    · subst hu
      rw [hk] at hj2
      cases hj2
      exact hk2
    · simp only [hu, if_false] at hd2
      exact hs.slot_ok u j d x hj2 hd2 hhas

theorem ECS.Stores.stores_add {V : Type} {s s' : ECS V} {t : TypeName} {e : Entity} {v : V}
    (hs : s.Stores) (h : s.add_component t e v = .ok s') : s'.Stores := by
  obtain ⟨c, c', k, hk, hc, hins, he, hk2, rfl⟩ := ECS.add_component_eq h
  have hp := hs.packed t c (ArrayMap.mem_of_find hc)
  exact hs.stores_replace _ hk hc
    ⟨hp.1.packed_insert hins, ComponentArray.InRange.in_range_insert hp.2 he hins⟩ hk2

theorem ECS.Stores.stores_remove_component {V : Type} {s s' : ECS V} {t : TypeName} {e : Entity}
    (hs : s.Stores) (h : s.remove_component t e = .ok s') : s'.Stores := by
  obtain ⟨c, c', k, hk, hc, hrem, he, hk2, rfl⟩ := ECS.remove_component_eq h
  have hp := hs.packed t c (ArrayMap.mem_of_find hc)
  exact hs.stores_replace _ hk hc
    ⟨hp.1.packed_remove hrem, ComponentArray.InRange.in_range_remove hp.1 hp.2 hrem⟩ hk2

/-- Every call that returns keeps the invariant of the stores. -/
theorem ECS.Stores.stores_call {V : Type} [Inhabited V] {s s' : ECS V} {op : Op V} (hs : s.Stores)
    (h : s.call op = .ok s') : s'.Stores := by
  cases op with
  | register_component t => exact hs.stores_register h
  | create_entity =>
    simp only [ECS.call] at h
    cases h1 : s.create_entity with
    | error f => simp [h1] at h
    | ok r =>
      obtain ⟨e, s1⟩ := r
      simp only [h1, Except.ok.injEq] at h
      subst h
      exact hs.stores_create h1
  | remove_entity e => exact hs.stores_remove_entity h
  | add_component t e v => exact hs.stores_add h
  | remove_component t e => exact hs.stores_remove_component h

/-! ## The invariant of the signatures is kept while at most `MAX_COMPONENTS` types are registered -/

theorem ECS.inv_new {V : Type} : (ECS.new : ECS V).Inv := by
  refine ⟨ECS.stores_new, ?_, ?_, ?_, ?_, ?_⟩
  · simp [ECS.new]
  · intro t k h
    simp [ECS.new, UMap.empty] at h
  · intro t u k h
    simp [ECS.new, UMap.empty] at h
  · intro e t k c h
    simp [ECS.new, UMap.empty] at h
  · intro e k _
    simp [ECS.new, Signature.test]

theorem ECS.Inv.inv_register {V : Type} [Inhabited V] {s s' : ECS V} {t : TypeName}
    (hs : s.Inv) (hcount : s.component_arrays_count < MAX_COMPONENTS)
    (h : s.register_component t = .ok s') : s'.Inv := by
  have hst := hs.stores.stores_register h
  obtain ⟨hnone, rfl⟩ := ECS.register_component_eq h
  have hmod : (s.component_arrays_count + 1) % UINT8_MOD = s.component_arrays_count + 1 := by
    apply Nat.mod_eq_of_lt
    unfold MAX_COMPONENTS at hcount
    unfold UINT8_MOD
    omega
  have hfind := ECS.find_none_of_unregistered hs.stores hnone
  refine ⟨hst, ?_, ?_, ?_, ?_, ?_⟩
  · show (s.component_arrays_count + 1) % UINT8_MOD ≤ MAX_COMPONENTS
    rw [hmod]
    omega
  · intro u k hu
    show k < (s.component_arrays_count + 1) % UINT8_MOD
    rw [hmod]
    simp only [UMap.assign] at hu
    by_cases hut : u = t
    · simp only [hut, if_true, Option.some.injEq, ComponentType] at hu
      omega
    · simp only [hut, if_false] at hu
      have := hs.slot_lt u k hu
      omega
  · intro u w k hu hw
    simp only [UMap.assign] at hu hw
    by_cases hut : u = t <;> by_cases hwt : w = t
    · rw [hut, hwt]
    · simp only [hut, if_true, Option.some.injEq, ComponentType] at hu
      simp only [hwt, if_false] at hw
      have := hs.slot_lt w k hw
      omega
    · simp only [hwt, if_true, Option.some.injEq, ComponentType] at hw
      simp only [hut, if_false] at hu
      have := hs.slot_lt u k hu
      omega
    · simp only [hut, if_false] at hu
      simp only [hwt, if_false] at hw
      exact hs.slot_inj u w k hu hw
  · intro e u k c hu hc
    simp only [UMap.assign] at hu
    simp only [ArrayMap.find_insert] at hc
    by_cases hut : u = t
    · subst hut
      simp only [hfind, if_true, Option.orElse] at hc
      cases hc
      simp only [if_true, Option.some.injEq, ComponentType] at hu
      rw [ComponentArray.has_empty]
      exact hs.sig_unused e k (by omega)
    · have hut2 : ¬ t = u := fun h1 => hut h1.symm
      simp only [hut, if_false] at hu
      simp only [hut2, if_false] at hc
      cases h1 : ArrayMap.find s.component_arrays u with
      | none => simp [h1] at hc
      | some d =>
        simp only [h1, Option.orElse, Option.some.injEq] at hc
        subst hc
        exact hs.sig_store e u k d hu h1
  · intro e k hk
    have hk2 : (s.component_arrays_count + 1) % UINT8_MOD ≤ k := hk
    rw [hmod] at hk2
    exact hs.sig_unused e k (by omega)

theorem ECS.Inv.inv_create {V : Type} {s s' : ECS V} {e : Entity}
    (hs : s.Inv) (h : s.create_entity = .ok (e, s')) : s'.Inv := by
  have hst := hs.stores.stores_create h
  obtain ⟨_, rest, _, rfl⟩ := ECS.create_entity_eq h
  exact ⟨hst, hs.count_le, hs.slot_lt, hs.slot_inj, hs.sig_store, hs.sig_unused⟩

theorem ECS.Inv.inv_remove_entity {V : Type} {s s' : ECS V} {e : Entity}
    (hs : s.Inv) (h : s.remove_entity e = .ok s') : s'.Inv := by
  have hst := hs.stores.stores_remove_entity h
  obtain ⟨_, arrays, harr, rfl⟩ := ECS.remove_entity_eq h
  refine ⟨hst, hs.count_le, hs.slot_lt, hs.slot_inj, ?_, ?_⟩
  · intro x t k c' hk hc'
    show Signature.test (if x = e then 0 else s.entity_signatures x) k = c'.has x
    have hc2 : ArrayMap.find arrays t = some c' := hc'
    rcases ArrayMap.find_handle_entity_removed harr t with ⟨h1, h2⟩ | ⟨c, d, h1, h2, h3⟩
    · rw [h2] at hc2
      cases hc2
    · rw [h2] at hc2
      cases hc2
      rw [(hs.stores.packed t c (ArrayMap.mem_of_find h1)).1.handle_entity_removed_has h3 x]
      by_cases hx : x = e
      · simp [hx, Signature.test_zero]
      · simp only [hx, if_false, ne_eq, not_false_eq_true, decide_True, Bool.true_and]
        exact hs.sig_store x t k c hk h1
  · intro x k hk
    show Signature.test (if x = e then 0 else s.entity_signatures x) k = false
    by_cases hx : x = e
    · simp [hx, Signature.test_zero]
    · simp only [hx, if_false]
      exact hs.sig_unused x k hk

theorem ECS.Inv.inv_replace {V : Type} {s : ECS V} (hs : s.Inv) {t : TypeName}
    {k : ComponentType} {c c' : ComponentArray V} {e : Entity} {sig : Signature}
    (hk : s.component_types t = some k) (hc : ArrayMap.find s.component_arrays t = some c)
    (hp : c'.Packed ∧ c'.InRange) (hk2 : k < MAX_COMPONENTS)
    (hhas : ∀ x, x ≠ e → c'.has x = c.has x)
    (hbit : Signature.test sig k = c'.has e)
    (hsig : ∀ j, j ≠ k → Signature.test sig j = Signature.test (s.entity_signatures e) j) :
    ECS.Inv { s with
              component_arrays := ArrayMap.replace s.component_arrays t c'
              entity_signatures := fun i => if i = e then sig else s.entity_signatures i } := by
  refine ⟨hs.stores.stores_replace _ hk hc hp hk2, hs.count_le, hs.slot_lt, hs.slot_inj, ?_, ?_⟩
  · intro x u j d hj hd
    have hd2 : ArrayMap.find (ArrayMap.replace s.component_arrays t c') u = some d := hd
    show Signature.test (if x = e then sig else s.entity_signatures x) j = d.has x
    rw [ArrayMap.find_replace] at hd2
    by_cases hu : u = t
    · subst hu
      simp only [if_true, hc, Option.map_some', Option.some.injEq] at hd2
      subst hd2
      have hjk : j = k := by
        have : s.component_types u = some j := hj
        rw [hk] at this
        exact (Option.some.inj this).symm
      subst hjk
      by_cases hx : x = e
      · simp only [hx, if_true]
        exact hbit
      · simp only [hx, if_false]
        rw [hhas x hx]
        exact hs.sig_store x u j c hk hc
    · simp only [hu, if_false] at hd2
      have hjk : j ≠ k := by
        intro h1
        subst h1
        exact hu (hs.slot_inj u t j hj hk)
      by_cases hx : x = e
      · simp only [hx, if_true]
        rw [hsig j hjk]
        exact hs.sig_store e u j d hj hd2
      · simp only [hx, if_false]
        exact hs.sig_store x u j d hj hd2
  · intro x j hj
    show Signature.test (if x = e then sig else s.entity_signatures x) j = false
    by_cases hx : x = e
    · simp only [hx, if_true]
      have hjk : j ≠ k := by
        have h1 := hs.slot_lt t k hk
        have h2 : s.component_arrays_count ≤ j := hj
        omega
      rw [hsig j hjk]
      exact hs.sig_unused e j hj
    · simp only [hx, if_false]
      exact hs.sig_unused x j hj

theorem ECS.Inv.inv_add {V : Type} {s s' : ECS V} {t : TypeName} {e : Entity} {v : V}
    (hs : s.Inv) (h : s.add_component t e v = .ok s') : s'.Inv := by
  obtain ⟨c, c', k, hk, hc, hins, he, hk2, rfl⟩ := ECS.add_component_eq h
  have hp := hs.stores.packed t c (ArrayMap.mem_of_find hc)
  apply hs.inv_replace hk hc
    ⟨hp.1.packed_insert hins, ComponentArray.InRange.in_range_insert hp.2 he hins⟩ hk2
  · intro x hx
    rw [ComponentArray.insert_component_has hins x]
    simp [hx]
  · rw [ComponentArray.insert_component_has hins e, Signature.test_set]
    simp
  · intro j hj
    rw [Signature.test_set]
    have : ¬ k = j := fun h1 => hj h1.symm
    simp [this]

theorem ECS.Inv.inv_remove_component {V : Type} {s s' : ECS V} {t : TypeName} {e : Entity}
    (hs : s.Inv) (h : s.remove_component t e = .ok s') : s'.Inv := by
  obtain ⟨c, c', k, hk, hc, hrem, he, hk2, rfl⟩ := ECS.remove_component_eq h
  have hp := hs.stores.packed t c (ArrayMap.mem_of_find hc)
  have hhas := hp.1.remove_component_has_eq hrem
  apply hs.inv_replace hk hc
    ⟨hp.1.packed_remove hrem, ComponentArray.InRange.in_range_remove hp.1 hp.2 hrem⟩ hk2
  · intro x hx
    rw [hhas x]
    simp [hx]
  · rw [hhas e, Signature.test_reset_bit]
    simp
  · intro j hj
    rw [Signature.test_reset_bit]
    have : ¬ k = j := fun h1 => hj h1.symm
    simp [this]

/-- Every call that returns keeps the invariant, provided a type is only registered while
fewer than `MAX_COMPONENTS` types are. -/
theorem ECS.Inv.inv_call {V : Type} [Inhabited V] {s s' : ECS V} {op : Op V} (hs : s.Inv)
    (hreg : ∀ t, op = .register_component t → s.component_arrays_count < MAX_COMPONENTS)
    (h : s.call op = .ok s') : s'.Inv := by
  cases op with
  | register_component t => exact hs.inv_register (hreg t rfl) h
  | create_entity =>
    simp only [ECS.call] at h
    cases h1 : s.create_entity with
    | error f => simp [h1] at h
    | ok r =>
      obtain ⟨e, s1⟩ := r
      simp only [h1, Except.ok.injEq] at h
      subst h
      exact hs.inv_create h1
  | remove_entity e => exact hs.inv_remove_entity h
  | add_component t e v => exact hs.inv_add h
  | remove_component t e => exact hs.inv_remove_component h


/-! ## The invariant of the id pool is kept by calls on live entities -/

theorem ECS.pool_new {V : Type} : (ECS.new : ECS V).Pool [] := by
  refine ⟨?_, rfl, fun e _ => rfl⟩
  simp only [ECS.new, List.append_nil]
  exact List.Perm.refl _

theorem ECS.Pool.length_eq {V : Type} {s : ECS V} {live : List Entity} (hp : s.Pool live) :
    s.entity_available_ids.length + live.length = MAX_ENTITIES := by
  have := hp.perm.length_eq
  rw [List.length_append, List.length_range] at this
  exact this

theorem ECS.Pool.nodup {V : Type} {s : ECS V} {live : List Entity} (hp : s.Pool live) :
    (s.entity_available_ids ++ live).Nodup :=
  hp.perm.nodup_iff.2 (List.nodup_range _)

theorem ECS.Pool.live_lt {V : Type} {s : ECS V} {live : List Entity} (hp : s.Pool live)
    {e : Entity} (he : e ∈ live) : e < MAX_ENTITIES := by
  have : e ∈ s.entity_available_ids ++ live := List.mem_append_right _ he
  exact List.mem_range.1 (hp.perm.mem_iff.1 this)

theorem ECS.Pool.pool_create {V : Type} {s s' : ECS V} {live : List Entity} {e : Entity}
    (hp : s.Pool live) (h : s.create_entity = .ok (e, s')) : s'.Pool (live ++ [e]) := by
  obtain ⟨hlt, rest, hq, rfl⟩ := ECS.create_entity_eq h
  refine ⟨?_, ?_, ?_⟩
  · show (rest ++ (live ++ [e])).Perm (List.range MAX_ENTITIES)
    refine List.Perm.trans ?_ hp.perm
    rw [hq, ← List.append_assoc]
    exact List.perm_append_singleton e (rest ++ live)
  · show (s.entity_array_count + 1) % UINT32_MOD = (live ++ [e]).length
    rw [List.length_append, List.length_singleton, ← hp.count]
    apply Nat.mod_eq_of_lt
    unfold MAX_ENTITIES at hlt
    unfold UINT32_MOD
    omega
  · intro x hx
    apply hp.free_sig x
    intro h1
    exact hx (List.mem_append_left _ h1)

theorem ECS.Pool.pool_remove_entity {V : Type} {s s' : ECS V} {live : List Entity} {e : Entity}
    (hp : s.Pool live) (he : e ∈ live) (h : s.remove_entity e = .ok s') :
    s'.Pool (live.erase e) := by
  obtain ⟨_, arrays, _, rfl⟩ := ECS.remove_entity_eq h
  have hlen := hp.length_eq
  have hpos : 0 < live.length := List.length_pos_of_mem he
  refine ⟨?_, ?_, ?_⟩
  · show ((s.entity_available_ids ++ [e]) ++ live.erase e).Perm (List.range MAX_ENTITIES)
    refine List.Perm.trans ?_ hp.perm
    rw [List.append_assoc]
    apply List.Perm.append_left
    exact (List.perm_cons_erase he).symm
  · show (s.entity_array_count + UINT32_MOD - 1) % UINT32_MOD = (live.erase e).length
    rw [List.length_erase_of_mem he, hp.count]
    unfold MAX_ENTITIES at hlen
    unfold UINT32_MOD
    omega
  · intro x hx
    show (if x = e then 0 else s.entity_signatures x) = 0
    by_cases hxe : x = e
    · simp [hxe]
    · simp only [hxe, if_false]
      apply hp.free_sig x
      intro h1
      exact hx ((List.mem_erase_of_ne hxe).2 h1)

theorem ECS.Pool.pool_replace {V : Type} {s : ECS V} {live : List Entity} (hp : s.Pool live)
    {e : Entity} (he : e ∈ live) (arrays : ArrayMap V) (sig : Signature) :
    ECS.Pool { s with
               component_arrays := arrays
               entity_signatures := fun i => if i = e then sig else s.entity_signatures i }
      live := by
  refine ⟨hp.perm, hp.count, ?_⟩
  intro x hx
  show (if x = e then sig else s.entity_signatures x) = 0
  have hxe : ¬ x = e := fun h1 => hx (h1 ▸ he)
  simp only [hxe, if_false]
  exact hp.free_sig x hx

/-- Every call on live entities that returns keeps the invariant of the id pool. -/
theorem ECS.Pool.pool_call {V : Type} [Inhabited V] {s s' : ECS V} {live : List Entity} {op : Op V}
    (hp : s.Pool live) (hop : live_calls s live op = true) (h : s.call op = .ok s') :
    s'.Pool (live_after live s op) := by
  cases op with
  | register_component t =>
    obtain ⟨_, rfl⟩ := ECS.register_component_eq h
    exact ⟨hp.perm, hp.count, hp.free_sig⟩
  | create_entity =>
    simp only [ECS.call] at h
    cases h1 : s.create_entity with
    | error f => simp [h1] at h
    | ok r =>
      obtain ⟨e, s1⟩ := r
      simp only [h1, Except.ok.injEq] at h
      subst h
      simp only [live_after, h1]
      exact hp.pool_create h1
  | remove_entity e => exact hp.pool_remove_entity (of_decide_eq_true hop) h
  | add_component t e v =>
    obtain ⟨c, c', k, _, _, _, _, _, rfl⟩ := ECS.add_component_eq h
    exact hp.pool_replace (of_decide_eq_true hop) _ _
  | remove_component t e =>
    obtain ⟨c, c', k, _, _, _, _, _, rfl⟩ := ECS.remove_component_eq h
    exact hp.pool_replace (of_decide_eq_true hop) _ _

/-! ## Reachable states satisfy the invariants -/

/-- A state reachable by some calls is reachable by any larger choice of calls. -/
theorem Reach.mono {V : Type} [Inhabited V] {p q : ECS V → List Entity → Op V → Bool}
    (hpq : ∀ s live op, p s live op = true → q s live op = true) {s : ECS V} {live : List Entity}
    (h : Reach p s live) : Reach q s live := by
  induction h with
  | new => exact Reach.new
  | call _ hop hcall ih => exact Reach.call ih (hpq _ _ _ hop) hcall

theorem Reach.has_stores {V : Type} [Inhabited V] {p : ECS V → List Entity → Op V → Bool}
    {s : ECS V} {live : List Entity} (h : Reach p s live) : s.Stores := by
  induction h with
  | new => exact ECS.stores_new
  | call _ _ hcall ih => exact ih.stores_call hcall

theorem in_range_calls.register {V : Type} {s : ECS V} {live : List Entity} {op : Op V}
    (h : in_range_calls s live op = true) (t : TypeName) (hop : op = .register_component t) :
    s.component_arrays_count < MAX_COMPONENTS := by
  subst hop
  exact of_decide_eq_true h

theorem Reach.has_inv {V : Type} [Inhabited V] {s : ECS V} {live : List Entity}
    (h : Reach in_range_calls s live) : s.Inv := by
  induction h with
  | new => exact ECS.inv_new
  | call _ hop hcall ih => exact ih.inv_call (in_range_calls.register hop) hcall

theorem Reach.has_pool {V : Type} [Inhabited V] {s : ECS V} {live : List Entity}
    (h : Reach live_calls s live) : s.Pool live := by
  induction h with
  | new => exact ECS.pool_new
  | call _ hop hcall ih => exact ih.pool_call hop hcall

/-- The state after a run of allowed calls from a reachable state is reachable. -/
theorem Reach.of_run {V : Type} [Inhabited V] {p : ECS V → List Entity → Op V → Bool}
    (ops : List (Op V)) {s s' : ECS V} {live live' : List Entity} (h : Reach p s live)
    (hrun : ECS.run p s live ops = some (s', live')) : Reach p s' live' := by
  induction ops generalizing s live with
  | nil =>
    simp only [ECS.run, Option.some.injEq, Prod.mk.injEq] at hrun
    rw [← hrun.1, ← hrun.2]
    exact h
  | cons op ops ih =>
    simp only [ECS.run] at hrun
    by_cases hop : p s live op = true
    · cases hcall : s.call op with
      | error f => simp [hop, hcall] at hrun
      | ok s1 =>
        simp only [hop, hcall, if_true] at hrun
        exact ih (Reach.call h hop hcall) hrun
    · simp [hop] at hrun


/-! ## Claims about components -/

theorem ECS.get_component_type_eq {V : Type} {s : ECS V} {t : TypeName} {k : ComponentType}
    (h : s.get_component_type t = .ok k) : s.component_types t = some k := by
  unfold ECS.get_component_type at h
  cases h1 : s.component_types t with
  | none => simp [h1] at h
  | some j =>
    simp only [h1, Except.ok.injEq] at h
    rw [h]

/-- The entity has no value in the store when `get_component` fails its assertion. -/
theorem ECS.get_component_absent {V : Type} {s : ECS V} {t : TypeName} {e : Entity}
    (h : s.get_component t e = .error .component_absent_on_get) :
    ∃ k c, s.component_types t = some k ∧ ArrayMap.find s.component_arrays t = some c ∧
      c.entity_to_index_map e = none := by
  unfold ECS.get_component at h
  cases h1 : s.get_component_array t with
  | error f =>
    simp only [h1, Except.error.injEq] at h
    unfold ECS.get_component_array at h1
    by_cases h2 : UMap.contains s.component_types t = true
    · simp only [h2, if_true] at h1
      cases h3 : ArrayMap.find s.component_arrays t with
      | none =>
        simp only [h3, Except.error.injEq] at h1
        rw [h] at h1
        cases h1
      | some c => simp [h3] at h1
    · simp only [h2, Bool.false_eq_true, if_false, Except.error.injEq] at h1
      rw [h] at h1
      cases h1
  | ok c =>
    obtain ⟨⟨k, hk⟩, hc⟩ := ECS.get_component_array_eq h1
    refine ⟨k, c, hk, hc, ?_⟩
    simp only [h1, ComponentArray.get_component] at h
    cases h2 : c.entity_to_index_map e with
    | none => rfl
    | some idx =>
      simp only [h2] at h
      by_cases h3 : idx < MAX_ENTITIES
      · simp [h3] at h
      · simp [h3] at h

/-- The entity has a value in the store when `get_component` returns. -/
theorem ECS.get_component_present {V : Type} {s : ECS V} {t : TypeName} {e : Entity} {v : V}
    (h : s.get_component t e = .ok v) :
    ∃ k c idx, s.component_types t = some k ∧ ArrayMap.find s.component_arrays t = some c ∧
      c.entity_to_index_map e = some idx ∧ idx < MAX_ENTITIES ∧ c.values idx = v := by
  unfold ECS.get_component at h
  cases h1 : s.get_component_array t with
  | error f => simp [h1] at h
  | ok c =>
    obtain ⟨⟨k, hk⟩, hc⟩ := ECS.get_component_array_eq h1
    simp only [h1, ComponentArray.get_component] at h
    cases h2 : c.entity_to_index_map e with
    | none => simp [h2] at h
    | some idx =>
      simp only [h2] at h
      by_cases h3 : idx < MAX_ENTITIES
      · simp only [h3, if_true, Except.ok.injEq] at h
        exact ⟨k, c, idx, hk, hc, h2, h3, h⟩
      · simp [h3] at h

/-- The result of `get_component` after the store of the type has been replaced. -/
theorem ECS.get_component_replace {V : Type} {s : ECS V} {t : TypeName} {k : ComponentType}
    {c c' : ComponentArray V} (sigs : Nat → Signature) (e : Entity)
    (hk : s.component_types t = some k) (hc : ArrayMap.find s.component_arrays t = some c) :
    ECS.get_component
      { s with
        component_arrays := ArrayMap.replace s.component_arrays t c'
        entity_signatures := sigs } t e = c'.get_component e := by
  have h1 : ECS.get_component_array
      { s with
        component_arrays := ArrayMap.replace s.component_arrays t c'
        entity_signatures := sigs } t = .ok c' := by
    apply ECS.get_component_array_ok (k := k)
    · exact hk
    · show ArrayMap.find (ArrayMap.replace s.component_arrays t c') t = some c'
      rw [ArrayMap.find_replace]
      simp [hc]
  simp only [ECS.get_component, h1]

/-- In every reachable state, for every registered type `T` whose slot is a type slot of
the data model (below `MAX_COMPONENTS`), every entity id `e` of the data model (below
`MAX_ENTITIES`) that has no `T` component and every value `v`, `add_component<T>(e, v)`
returns and `get_component<T>(e)` then returns `v`. -/
theorem Reach.add_component_round_trip {V : Type} [Inhabited V]
    {p : ECS V → List Entity → Op V → Bool} {s : ECS V} {live : List Entity}
    (hr : Reach p s live) (t : TypeName) (k : ComponentType) (e : Entity) (v : V)
    (hk : s.get_component_type t = .ok k) (hk2 : k < MAX_COMPONENTS) (he : e < MAX_ENTITIES)
    (hno : s.get_component t e = .error .component_absent_on_get) :
    ∃ s', s.add_component t e v = .ok s' ∧ s'.get_component t e = .ok v := by
  obtain ⟨k', c, hk', hc, hnone⟩ := ECS.get_component_absent hno
  have hp := hr.has_stores.packed t c (ArrayMap.mem_of_find hc)
  have hsize := hp.1.size_lt hp.2 he hnone
  have hins := c.insert_component_ok e v hnone hsize
  have hk3 := ECS.get_component_type_eq hk
  refine ⟨_, ECS.add_component_ok hk3 hc hins he hk2, ?_⟩
  rw [ECS.get_component_replace _ e hk3 hc]
  simp [ComponentArray.get_component, UMap.assign, hsize]

set_option maxRecDepth 100000 in
theorem reach_one_entity :
    Reach any_calls (ECS.after calls_one_entity).1 (ECS.after calls_one_entity).2 :=
  Reach.of_run calls_one_entity Reach.new rfl

set_option maxRecDepth 100000 in
/-- C1, the code at the failing input and on every reachable state: after registering the
33 types `0, ..., 32` and creating entity `0`, the type `32` is registered, its slot is 32,
which `register_component` hands out for want of a `MAX_COMPONENTS` assertion, and the live
entity `0` has no component of it; yet `add_component` does not return, because
`std::bitset::set` throws for position 32, so no `get_component` follows that returns the
value. For every registered type whose slot is below `MAX_COMPONENTS`, which is every type
as long as at most `MAX_COMPONENTS` types are registered, the claim holds in every
reachable state: for every entity id `e < MAX_ENTITIES` without a component of the type and
every value `v`, `add_component` returns and `get_component` then returns `v`, as it does
for the one entity of a state with one registered type. -/
theorem add_component_then_get_component {V : Type} [Inhabited V] :
    (ECS.run any_calls ECS.new [] calls_33_types = some (ECS.after calls_33_types) ∧
      (ECS.after calls_33_types).2 = [0] ∧
      (ECS.after calls_33_types).1.get_component_type 32 = .ok 32 ∧
      ¬ 32 < MAX_COMPONENTS ∧
      (ECS.after calls_33_types).1.get_component 32 0 = .error .component_absent_on_get ∧
      (ECS.after calls_33_types).1.add_component 32 0 5 = .error .bitset_out_of_range ∧
      ¬ ∃ s', (ECS.after calls_33_types).1.add_component 32 0 5 = .ok s' ∧
        s'.get_component 32 0 = .ok 5) ∧
    (∀ (p : ECS V → List Entity → Op V → Bool) (s : ECS V) (live : List Entity),
      Reach p s live → ∀ (t : TypeName) (k : ComponentType) (e : Entity) (v : V),
      s.get_component_type t = .ok k → k < MAX_COMPONENTS → e < MAX_ENTITIES →
      s.get_component t e = .error .component_absent_on_get →
      ∃ s', s.add_component t e v = .ok s' ∧ s'.get_component t e = .ok v) ∧
    ((ECS.after calls_one_entity).1.get_component_type 0 = .ok 0 ∧
      (ECS.after calls_one_entity).1.get_component 0 0 = .error .component_absent_on_get ∧
      ∃ s', (ECS.after calls_one_entity).1.add_component 0 0 5 = .ok s' ∧
        s'.get_component 0 0 = .ok 5) := by
  refine ⟨⟨rfl, rfl, rfl, by decide, rfl, rfl, ?_⟩, ?_, rfl, rfl, ?_⟩
  · rintro ⟨s', h, _⟩
    have h2 : (ECS.after calls_33_types).1.add_component 32 0 5 = .error .bitset_out_of_range :=
      rfl
    exact absurd (h.symm.trans h2) (by simp)
  · intro p s live hr t k e v hk hk2 he hno
    exact hr.add_component_round_trip t k e v hk hk2 he hno
  · exact reach_one_entity.add_component_round_trip 0 0 0 5 rfl (by decide) (by decide) rfl

/-! ## Claims about views -/

set_option maxRecDepth 100000 in
/-- C2, the code at the failing input: after registering `A` and `B`, creating `e0`, `e1`,
`e2`, adding an `A` and a `B` component to `e2` and removing `e0`, the live entities are
`e1` and `e2` and the signature of `e2` has both bits set, yet `view<A, B>()` returns the
empty list: its loop stops at `entity_array_count = 2`. -/
theorem view_omits_live_entity :
    ∃ s live, ECS.run live_calls ECS.new [] calls_remove_first = some (s, live) ∧
      live = [1, 2] ∧ s.entity_array_count = 2 ∧
      s.get_component_type 0 = .ok 0 ∧ s.get_component_type 1 = .ok 1 ∧
      s.get_entity_signature 2 = .ok 3 ∧ Signature.test 3 0 = true ∧
      Signature.test 3 1 = true ∧ s.view 0 [1] = .ok [] :=
  ⟨(ECS.after calls_remove_first).1, (ECS.after calls_remove_first).2, rfl, rfl, rfl, rfl, rfl,
    rfl, rfl, rfl, rfl⟩

set_option maxRecDepth 100000 in
/-- C3: in the scenario of the specification `create_entity` returns `e0 = 0` and `e1 = 1`,
`view<Position, Velocity>()` returns `[e0]` and `view<Position>()` returns `[e0, e1]`. -/
theorem scenario_views : ∃ e0 e1, scenario = .ok (e0, e1, [e0], [e0, e1]) :=
  ⟨0, 1, rfl⟩


/-! ## Claims about the id pool -/

theorem ECS.create_entity_ok {V : Type} {s : ECS V} {e : Entity} {rest : List Entity}
    (hq : s.entity_available_ids = e :: rest) (hcount : s.entity_array_count < MAX_ENTITIES) :
    s.create_entity =
      .ok (e, { s with
                entity_available_ids := rest
                entity_array_count := s.entity_array_count + 1 }) := by
  have hmod : (s.entity_array_count + 1) % UINT32_MOD = s.entity_array_count + 1 := by
    apply Nat.mod_eq_of_lt
    unfold MAX_ENTITIES at hcount
    unfold UINT32_MOD
    omega
  simp [ECS.create_entity, hq, hcount, hmod]

/-- Creating as many entities as a prefix of the queue is long returns that prefix. -/
theorem ECS.create_entities_prefix {V : Type} (q1 : List Entity) :
    ∀ (s : ECS V) (q2 : List Entity), s.entity_available_ids = q1 ++ q2 →
      s.entity_array_count + q1.length ≤ MAX_ENTITIES →
      s.create_entities q1.length =
        .ok (q1, { s with
                   entity_available_ids := q2
                   entity_array_count := s.entity_array_count + q1.length }) := by
  induction q1 with
  | nil =>
    intro s q2 hq _
    simp only [List.nil_append] at hq
    simp only [List.length_nil, ECS.create_entities, Nat.add_zero, ← hq]
  | cons e q1 ih =>
    intro s q2 hq hcount
    simp only [List.length_cons] at hcount ⊢
    rw [List.cons_append] at hq
    have h1 := ECS.create_entity_ok hq (by omega)
    have h2 := ih { s with
                    entity_available_ids := q1 ++ q2
                    entity_array_count := s.entity_array_count + 1 } q2 rfl
      (by show s.entity_array_count + 1 + q1.length ≤ MAX_ENTITIES; omega)
    simp only [ECS.create_entities, h1, h2, Nat.add_assoc, Nat.add_comm 1]

/-- Creating one entity more than the pool has room for fails at the last call. -/
theorem ECS.create_entities_full {V : Type} (q1 : List Entity) :
    ∀ (s : ECS V) (q2 : List Entity), s.entity_available_ids = q1 ++ q2 →
      s.entity_array_count + q1.length = MAX_ENTITIES →
      s.create_entities (q1.length + 1) = .error .entity_array_full := by
  induction q1 with
  | nil =>
    intro s q2 _ hcount
    simp only [List.length_nil, Nat.add_zero] at hcount
    simp [ECS.create_entities, ECS.create_entity, hcount]
  | cons e q1 ih =>
    intro s q2 hq hcount
    simp only [List.length_cons] at hcount ⊢
    rw [List.cons_append] at hq
    have h1 := ECS.create_entity_ok hq (by omega)
    have h2 := ih { s with
                    entity_available_ids := q1 ++ q2
                    entity_array_count := s.entity_array_count + 1 } q2 rfl
      (by show s.entity_array_count + 1 + q1.length = MAX_ENTITIES; omega)
    rw [ECS.create_entities]
    simp only [h1, h2]

theorem ECS.new_queue {V : Type} :
    (ECS.new : ECS V).entity_available_ids = List.range MAX_ENTITIES := by
  simp only [ECS.new]

/-- C4: in every state reachable from a fresh `ECS` by `create_entity` and by calls on live
entities (`remove_entity`, and also `add_component`, `remove_component`, with any
registrations), an id returned by `create_entity` is not the id of an entity that is live
at the moment of the call, and it is an id in range. -/
theorem created_id_is_not_live {V : Type} [Inhabited V] {s s' : ECS V} {live : List Entity}
    {e : Entity} (hr : Reach live_calls s live) (hc : s.create_entity = .ok (e, s')) :
    e ∉ live ∧ e < MAX_ENTITIES := by
  have hp := hr.has_pool
  obtain ⟨_, rest, hq, _⟩ := ECS.create_entity_eq hc
  have hmem : e ∈ s.entity_available_ids := by simp [hq]
  constructor
  · intro hl
    exact (List.nodup_append.1 hp.nodup).2.2 hmem hl
  · exact List.mem_range.1 (hp.perm.mem_iff.1 (List.mem_append_left _ hmem))

/-- C5: in every state reachable from a fresh `ECS` by `create_entity` and by calls on live
entities, `create_entity` fails exactly when `MAX_ENTITIES` entities are live, and then it
fails its capacity assertion; on a fresh `ECS` the first `MAX_ENTITIES` calls of
`create_entity` in a row all return and the next one fails that assertion. -/
theorem create_entity_fails_iff_full {V : Type} [Inhabited V] {s : ECS V}
    {live : List Entity} (hr : Reach live_calls s live) :
    ((∃ f, s.create_entity = .error f) ↔ live.length = MAX_ENTITIES) ∧
    (∀ f, s.create_entity = .error f → f = .entity_array_full) ∧
    (∀ n, n ≤ MAX_ENTITIES → ∃ ids s1, (ECS.new : ECS V).create_entities n = .ok (ids, s1)) ∧
    (ECS.new : ECS V).create_entities (MAX_ENTITIES + 1) = .error .entity_array_full := by
  have hp := hr.has_pool
  have hlen := hp.length_eq
  have hcount := hp.count
  have hfull : ¬ s.entity_array_count < MAX_ENTITIES →
      s.create_entity = .error .entity_array_full := by
    intro h
    simp [ECS.create_entity, h]
  have hroom : s.entity_array_count < MAX_ENTITIES → ∃ e s', s.create_entity = .ok (e, s') := by
    intro h
    cases hq : s.entity_available_ids with
    | nil =>
      rw [hq, List.length_nil] at hlen
      omega
    | cons e rest => exact ⟨e, _, ECS.create_entity_ok hq h⟩
  refine ⟨⟨?_, ?_⟩, ?_, ?_, ?_⟩
  · rintro ⟨f, hf⟩
    by_cases h : s.entity_array_count < MAX_ENTITIES
    · obtain ⟨e, s', h1⟩ := hroom h
      rw [h1] at hf
      cases hf
    · omega
  · intro h
    exact ⟨_, hfull (by omega)⟩
  · intro f hf
    by_cases h : s.entity_array_count < MAX_ENTITIES
    · obtain ⟨e, s', h1⟩ := hroom h
      rw [h1] at hf
      cases hf
    · rw [hfull h] at hf
      cases hf
      rfl
  · intro n hn
    have h1 := ECS.create_entities_prefix ((List.range MAX_ENTITIES).take n) (ECS.new : ECS V)
      ((List.range MAX_ENTITIES).drop n)
      (ECS.new_queue.trans (List.take_append_drop n (List.range MAX_ENTITIES)).symm)
      (by
        have : (ECS.new : ECS V).entity_array_count = 0 := rfl
        rw [this, List.length_take, List.length_range]
        omega)
    rw [List.length_take, List.length_range, Nat.min_eq_left hn] at h1
    exact ⟨_, _, h1⟩
  · have h1 := ECS.create_entities_full (List.range MAX_ENTITIES) (ECS.new : ECS V) []
      (ECS.new_queue.trans (List.append_nil (List.range MAX_ENTITIES)).symm)
      (by
        have : (ECS.new : ECS V).entity_array_count = 0 := rfl
        rw [this, List.length_range]
        omega)
    rw [List.length_range] at h1
    exact h1

set_option maxRecDepth 100000 in
theorem reach_recycle :
    Reach live_calls (ECS.after calls_recycle).1 (ECS.after calls_recycle).2 :=
  Reach.of_run calls_recycle Reach.new rfl

set_option maxRecDepth 100000 in
/-- C4, witness: after creating `0`, `1`, `2` and removing `0`, the next id is `3`. -/
theorem created_id_is_not_live_witness :
    Reach live_calls (ECS.after calls_recycle).1 (ECS.after calls_recycle).2 ∧
    (ECS.after calls_recycle).2 = [1, 2] ∧
    (ECS.after calls_recycle).1.create_entity =
      .ok (3, (ECS.after calls_recycle).1.created.2) ∧
    (3 ∉ (ECS.after calls_recycle).2 ∧ 3 < MAX_ENTITIES) :=
  ⟨reach_recycle, rfl, rfl,
    @created_id_is_not_live Nat _ (ECS.after calls_recycle).1
      (ECS.after calls_recycle).1.created.2 (ECS.after calls_recycle).2 3 reach_recycle rfl⟩

set_option maxRecDepth 100000 in
theorem reach_three_entities :
    Reach live_calls (ECS.after calls_three_entities).1 (ECS.after calls_three_entities).2 :=
  Reach.of_run calls_three_entities Reach.new rfl

/-- C5, witness: the state after creating three entities. -/
theorem create_entity_fails_iff_full_witness :
    Reach live_calls (ECS.after calls_three_entities).1 (ECS.after calls_three_entities).2 ∧
    (((∃ f, (ECS.after calls_three_entities).1.create_entity = .error f) ↔
      (ECS.after calls_three_entities).2.length = MAX_ENTITIES) ∧
    (∀ f, (ECS.after calls_three_entities).1.create_entity = .error f →
      f = .entity_array_full) ∧
    (∀ n, n ≤ MAX_ENTITIES →
      ∃ ids s1, (ECS.new : ECS Nat).create_entities n = .ok (ids, s1)) ∧
    (ECS.new : ECS Nat).create_entities (MAX_ENTITIES + 1) = .error .entity_array_full) :=
  ⟨reach_three_entities, create_entity_fails_iff_full reach_three_entities⟩


/-! ## Claims about removal -/

theorem ECS.get_entity_signature_ok {V : Type} (s : ECS V) {e : Entity}
    (he : e < MAX_ENTITIES) : s.get_entity_signature e = .ok (s.entity_signatures e) := by
  simp [ECS.get_entity_signature, he]

/-- The call `get_component` fails its assertion when the store of the type does not hold
the entity. -/
theorem ECS.get_component_of_absent {V : Type} {s : ECS V} {t : TypeName} {k : ComponentType}
    {c : ComponentArray V} {e : Entity} (hk : s.component_types t = some k)
    (hc : ArrayMap.find s.component_arrays t = some c) (he : c.has e = false) :
    s.get_component t e = .error .component_absent_on_get := by
  have h1 : c.entity_to_index_map e = none := by
    simpa [ComponentArray.has, UMap.contains] using he
  simp [ECS.get_component, ECS.get_component_array_ok hk hc, ComponentArray.get_component, h1]

/-- C6: in every reachable state, for every type `T` and entity `e` such that
`get_component<T>(e)` returns (`T` is registered and `e` has a `T` component),
`remove_component<T>(e)` returns, after it `get_component<T>(e)` fails its assertion, bit
`slot_of<T>` of the signature of `e` is clear and every other bit of it is unchanged. -/
theorem remove_component_clears {V : Type} [Inhabited V]
    {p : ECS V → List Entity → Op V → Bool} {s : ECS V} {live : List Entity}
    (hr : Reach p s live) (t : TypeName) (e : Entity) (v : V)
    (hget : s.get_component t e = .ok v) :
    ∃ k s', s.get_component_type t = .ok k ∧ s.remove_component t e = .ok s' ∧
      s'.get_component t e = .error .component_absent_on_get ∧
      ∃ sig sig', s.get_entity_signature e = .ok sig ∧ s'.get_entity_signature e = .ok sig' ∧
        Signature.test sig' k = false ∧
        ∀ j, j ≠ k → Signature.test sig' j = Signature.test sig j := by
  obtain ⟨k, c, idx, hk, hc, hidx, _, _⟩ := ECS.get_component_present hget
  have hst := hr.has_stores
  have hp := hst.packed t c (ArrayMap.mem_of_find hc)
  have he : e < MAX_ENTITIES := hp.2 e idx hidx
  have hhas : c.has e = true := by simp [ComponentArray.has, UMap.contains, hidx]
  have hk2 : k < MAX_COMPONENTS := hst.slot_ok t k c e hk hc hhas
  obtain ⟨el, _, _, hrem⟩ := hp.1.store_remove_ok hidx
  have hcall := ECS.remove_component_ok hk hc hrem he hk2
  refine ⟨k, _, by simp [ECS.get_component_type, hk], hcall, ?_, _, _,
    s.get_entity_signature_ok he, ECS.get_entity_signature_ok _ he, ?_, ?_⟩
  · rw [ECS.get_component_replace _ e hk hc]
    simp [ComponentArray.get_component, UMap.erase]
  · simp [Signature.test_reset_bit]
  · intro j hj
    have : ¬ k = j := fun h => hj h.symm
    simp [Signature.test_reset_bit, this]

theorem ECS.remove_entity_ok {V : Type} {s : ECS V} {e : Entity} {arrays : ArrayMap V}
    (he : e < MAX_ENTITIES)
    (harr : ArrayMap.handle_entity_removed s.component_arrays e = .ok arrays) :
    s.remove_entity e =
      .ok { s with
            entity_signatures := fun i => if i = e then 0 else s.entity_signatures i
            entity_available_ids := s.entity_available_ids ++ [e]
            component_arrays := arrays
            entity_array_count := (s.entity_array_count + UINT32_MOD - 1) % UINT32_MOD } := by
  simp [ECS.remove_entity, he, harr, Signature.reset]

/-- In a reachable state `remove_entity` returns for every entity in range. -/
theorem Reach.remove_entity_returns {V : Type} [Inhabited V]
    {p : ECS V → List Entity → Op V → Bool} {s : ECS V} {live : List Entity}
    (hr : Reach p s live) {e : Entity} (he : e < MAX_ENTITIES) :
    ∃ s', s.remove_entity e = .ok s' := by
  obtain ⟨arrays, harr⟩ := ArrayMap.handle_all_ok s.component_arrays e
    (fun t c hc => (hr.has_stores.packed t c hc).1)
  exact ⟨_, ECS.remove_entity_ok he harr⟩

/-- C7: in every state reachable by `create_entity` and calls on live entities, for every
live entity `e`, `remove_entity(e)` returns, after it `get_entity_signature(e)` is the
empty signature and `e` is at the back of the free-id queue, and the next calls of
`create_entity` return the ids queued ahead of `e`, in their order, and then `e`. -/
theorem remove_entity_frees_id {V : Type} [Inhabited V] {s : ECS V} {live : List Entity}
    (hr : Reach live_calls s live) (e : Entity) (he : e ∈ live) :
    ∃ s', s.remove_entity e = .ok s' ∧ s'.get_entity_signature e = .ok 0 ∧
      s'.entity_available_ids = s.entity_available_ids ++ [e] ∧
      ∃ s2, s'.create_entities (s.entity_available_ids.length + 1) =
        .ok (s.entity_available_ids ++ [e], s2) := by
  have hp := hr.has_pool
  have hlt := hp.live_lt he
  obtain ⟨s', hs'⟩ := hr.remove_entity_returns hlt
  obtain ⟨_, arrays, _, heq⟩ := ECS.remove_entity_eq hs'
  have hq : s'.entity_available_ids = (s.entity_available_ids ++ [e]) ++ [] := by
    rw [heq, List.append_nil]
  have hcount : s'.entity_array_count + (s.entity_available_ids ++ [e]).length ≤
      MAX_ENTITIES := by
    have h1 := hp.length_eq
    have h2 := hp.count
    have h3 : 0 < live.length := List.length_pos_of_mem he
    have h4 : s'.entity_array_count = (s.entity_array_count + UINT32_MOD - 1) % UINT32_MOD := by
      rw [heq]
    rw [h4, List.length_append, List.length_singleton]
    unfold MAX_ENTITIES at h1 ⊢
    unfold UINT32_MOD
    omega
  have hcreate := ECS.create_entities_prefix (s.entity_available_ids ++ [e]) s' [] hq hcount
  rw [List.length_append, List.length_singleton] at hcreate
  refine ⟨s', hs', ?_, ?_, _, hcreate⟩
  · rw [heq]
    simp [ECS.get_entity_signature, hlt]
  · rw [heq]

/-- C8: in every reachable state, for types `A`, `B`, `C` and an entity `e` such that
`get_component<A>(e)` and `get_component<C>(e)` return and `get_component<B>(e)` fails its
assertion (the three types are registered and `e` has an `A` and a `C` but no `B`
component), `remove_entity(e)` returns, after it `get_component<A>(e)` and
`get_component<C>(e)` fail their assertion, and the store of `B` is the one it was. -/
theorem remove_entity_touches_own_stores {V : Type} [Inhabited V]
    {p : ECS V → List Entity → Op V → Bool} {s : ECS V} {live : List Entity}
    (hr : Reach p s live) (a b c : TypeName) (e : Entity) (va vc : V)
    (ha : s.get_component a e = .ok va) (hc : s.get_component c e = .ok vc)
    (hb : s.get_component b e = .error .component_absent_on_get) :
    ∃ s' store_b, s.remove_entity e = .ok s' ∧
      s'.get_component a e = .error .component_absent_on_get ∧
      s'.get_component c e = .error .component_absent_on_get ∧
      s.get_component_array b = .ok store_b ∧ s'.get_component_array b = .ok store_b := by
  have hst := hr.has_stores
  obtain ⟨ka, ca, ia, hka, hca, hia, _, _⟩ := ECS.get_component_present ha
  have he : e < MAX_ENTITIES := (hst.packed a ca (ArrayMap.mem_of_find hca)).2 e ia hia
  obtain ⟨s', hs'⟩ := hr.remove_entity_returns he
  obtain ⟨_, arrays, harr, heq⟩ := ECS.remove_entity_eq hs'
  have htypes : s'.component_types = s.component_types := by rw [heq]
  have harrays : s'.component_arrays = arrays := by rw [heq]
  -- a store that held `e` no longer holds it
  have hgone : ∀ (t : TypeName) (v : V), s.get_component t e = .ok v →
      s'.get_component t e = .error .component_absent_on_get := by
    intro t v hget
    obtain ⟨k, d, i, hk, hd, _, _, _⟩ := ECS.get_component_present hget
    rcases ArrayMap.find_handle_entity_removed harr t with ⟨h1, _⟩ | ⟨d1, d', h1, h2, h3⟩
    · rw [h1] at hd
      cases hd
    · rw [h1] at hd
      cases hd
      apply ECS.get_component_of_absent (k := k) (c := d')
      · rw [htypes]
        exact hk
      · rw [harrays]
        exact h2
      · rw [(hst.packed t d (ArrayMap.mem_of_find h1)).1.handle_entity_removed_has h3 e]
        simp
  obtain ⟨kb, cb, hkb, hcb, hnone⟩ := ECS.get_component_absent hb
  refine ⟨s', cb, hs', hgone a va ha, hgone c vc hc, ECS.get_component_array_ok hkb hcb, ?_⟩
  rcases ArrayMap.find_handle_entity_removed harr b with ⟨h1, _⟩ | ⟨d1, d', h1, h2, h3⟩
  · rw [h1] at hcb
    cases hcb
  · rw [h1] at hcb
    cases hcb
    rw [cb.handle_entity_removed_absent hnone] at h3
    cases h3
    apply ECS.get_component_array_ok (k := kb)
    · rw [htypes]
      exact hkb
    · rw [harrays]
      exact h2

/-! ## Claims about free entities and signatures -/

/-- The ids the loop of `view` returns are below the bound of the loop and their signatures
contain the system signature. -/
theorem ECS.mem_view_scan {V : Type} {s : ECS V} {system_signature : Signature} {n : Nat}
    {l : List Entity} (h : s.view_scan system_signature n = .ok l) {x : Entity}
    (hx : x ∈ l) :
    x < n ∧ (s.entity_signatures x &&& system_signature) = system_signature := by
  induction n generalizing l with
  | zero =>
    simp only [ECS.view_scan, Except.ok.injEq] at h
    subst h
    cases hx
  | succ n ih =>
    simp only [ECS.view_scan] at h
    cases h1 : s.view_scan system_signature n with
    | error f => simp [h1] at h
    | ok l1 =>
      simp only [h1] at h
      by_cases h2 : n < MAX_ENTITIES
      · simp only [h2, if_true] at h
        by_cases h3 : (s.entity_signatures n &&& system_signature) = system_signature
        · simp only [h3, if_true, Except.ok.injEq] at h
          subst h
          rcases List.mem_append.1 hx with h4 | h4
          · exact ⟨Nat.lt_succ_of_lt (ih h1 h4).1, (ih h1 h4).2⟩
          · rw [List.mem_singleton.1 h4]
            exact ⟨Nat.lt_succ_self n, h3⟩
        · simp only [h3, if_false, Except.ok.injEq] at h
          subst h
          exact ⟨Nat.lt_succ_of_lt (ih h1 hx).1, (ih h1 hx).2⟩
      · simp [h2] at h

/-- The signature `get_system_signature<T>` returns has the bit of the slot of `T` and
every bit it had before. -/
theorem ECS.get_system_signature_single_eq {V : Type} {s : ECS V} {sig sig' : Signature}
    {t : TypeName} (h : s.get_system_signature_single sig t = .ok sig') :
    ∃ k, s.component_types t = some k ∧ k < MAX_COMPONENTS ∧ sig' = sig ||| (1 <<< k) := by
  unfold ECS.get_system_signature_single ECS.get_component_type at h
  cases h1 : s.component_types t with
  | none => simp [h1] at h
  | some k =>
    simp only [h1, Signature.set] at h
    by_cases h2 : k < MAX_COMPONENTS
    · simp only [h2, if_true, Except.ok.injEq] at h
      exact ⟨k, rfl, h2, h.symm⟩
    · simp [h2] at h

/-- The system signature of a view keeps the bits it starts from and has one more bit. -/
theorem ECS.get_system_signature_bits {V : Type} {s : ECS V} (rest : List TypeName) :
    ∀ (sig req : Signature) (t : TypeName), s.get_system_signature sig t rest = .ok req →
      (∀ j, Signature.test sig j = true → Signature.test req j = true) ∧
      ∃ k, Signature.test req k = true := by
  induction rest with
  | nil =>
    intro sig req t h
    simp only [ECS.get_system_signature] at h
    obtain ⟨k, _, _, rfl⟩ := ECS.get_system_signature_single_eq h
    constructor
    · intro j hj
      simp [Signature.test_set, hj]
    · exact ⟨k, by simp [Signature.test_set]⟩
  | cons u rest ih =>
    intro sig req t h
    simp only [ECS.get_system_signature] at h
    cases h1 : s.get_system_signature_single sig t with
    | error f => simp [h1] at h
    | ok sig1 =>
      simp only [h1] at h
      obtain ⟨k, _, _, rfl⟩ := ECS.get_system_signature_single_eq h1
      obtain ⟨h2, h3⟩ := ih _ req u h
      constructor
      · intro j hj
        apply h2
        simp [Signature.test_set, hj]
      · exact h3

/-- An entity with an empty signature is in no view. -/
theorem ECS.not_mem_view_of_empty {V : Type} {s : ECS V} {t : TypeName}
    {rest : List TypeName} {l : List Entity} (h : s.view t rest = .ok l) {e : Entity}
    (he : s.entity_signatures e = 0) : e ∉ l := by
  intro hmem
  unfold ECS.view at h
  cases h1 : s.get_system_signature 0 t rest with
  | error f => simp [h1] at h
  | ok req =>
    simp only [h1] at h
    obtain ⟨_, k, hk⟩ := ECS.get_system_signature_bits rest 0 req t h1
    have h2 := (ECS.mem_view_scan h hmem).2
    rw [he, Nat.zero_and] at h2
    rw [← h2, Signature.test_zero] at hk
    cases hk

/-- C9: in every state reachable from a fresh `ECS` by `create_entity` and by calls on live
entities, every id a view returns is the id of a live entity; and after `remove_entity(e)`
on a live entity `e` no view returns `e`. -/
theorem view_returns_live_only {V : Type} [Inhabited V] {s : ECS V} {live : List Entity}
    (hr : Reach live_calls s live) :
    (∀ (t : TypeName) (rest : List TypeName) (l : List Entity), s.view t rest = .ok l →
      ∀ e, e ∈ l → e ∈ live) ∧
    (∀ (e : Entity) (s' : ECS V), e ∈ live → s.remove_entity e = .ok s' →
      ∀ (t : TypeName) (rest : List TypeName) (l : List Entity), s'.view t rest = .ok l →
        e ∉ l) := by
  have hlive : ∀ {s1 : ECS V} {live1 : List Entity}, Reach live_calls s1 live1 →
      ∀ (t : TypeName) (rest : List TypeName) (l : List Entity), s1.view t rest = .ok l →
        ∀ e, e ∈ l → e ∈ live1 := by
    intro s1 live1 hr1 t rest l hv e he
    by_contra hfree
    exact ECS.not_mem_view_of_empty hv (hr1.has_pool.free_sig e hfree) he
  refine ⟨hlive hr, ?_⟩
  intro e s' he hrem t rest l hv hmem
  have hop : live_calls s live (Op.remove_entity e) = true := decide_eq_true he
  have hr' : Reach live_calls s' (live.erase e) := Reach.call hr hop hrem
  have h1 := hlive hr' t rest l hv e hmem
  have hnodup : live.Nodup := (List.nodup_append.1 hr.has_pool.nodup).2.1
  exact ((hnodup.mem_erase_iff).1 h1).1 rfl

/-- C10: in every state reachable from a fresh `ECS` by calls with an entity in range and
with at most `MAX_COMPONENTS` registered types, for every entity `e < MAX_ENTITIES` and
every registered type with slot `k`, bit `k` of the signature of `e` is set exactly when the
store of the type holds `e`. -/
theorem signature_matches_stores {V : Type} [Inhabited V] {s : ECS V} {live : List Entity}
    (hr : Reach in_range_calls s live) (e : Entity) (he : e < MAX_ENTITIES) (t : TypeName)
    (k : ComponentType) (hk : s.get_component_type t = .ok k) :
    ∃ c sig, s.get_component_array t = .ok c ∧ s.get_entity_signature e = .ok sig ∧
      Signature.test sig k = c.has e := by
  have hinv := hr.has_inv
  have hk2 := ECS.get_component_type_eq hk
  obtain ⟨c, hc⟩ := ECS.find_of_registered hinv.stores hk2
  exact ⟨c, _, ECS.get_component_array_ok hk2 hc, s.get_entity_signature_ok he,
    hinv.sig_store e t k c hk2 hc⟩

/-! ## Witnesses -/

set_option maxRecDepth 100000 in
theorem reach_one_component :
    Reach any_calls (ECS.after calls_one_component).1 (ECS.after calls_one_component).2 :=
  Reach.of_run calls_one_component Reach.new rfl

set_option maxRecDepth 100000 in
/-- C6, witness: one entity with one component. -/
theorem remove_component_clears_witness :
    Reach any_calls (ECS.after calls_one_component).1 (ECS.after calls_one_component).2 ∧
    (ECS.after calls_one_component).1.get_component 0 0 = .ok 5 ∧
    ∃ k s', (ECS.after calls_one_component).1.get_component_type 0 = .ok k ∧
      (ECS.after calls_one_component).1.remove_component 0 0 = .ok s' ∧
      s'.get_component 0 0 = .error .component_absent_on_get ∧
      ∃ sig sig', (ECS.after calls_one_component).1.get_entity_signature 0 = .ok sig ∧
        s'.get_entity_signature 0 = .ok sig' ∧ Signature.test sig' k = false ∧
        ∀ j, j ≠ k → Signature.test sig' j = Signature.test sig j :=
  ⟨reach_one_component, rfl, remove_component_clears reach_one_component 0 0 5 rfl⟩

set_option maxRecDepth 100000 in
/-- C7, witness: three live entities, the first of which is removed. -/
theorem remove_entity_frees_id_witness :
    Reach live_calls (ECS.after calls_three_entities).1 (ECS.after calls_three_entities).2 ∧
    0 ∈ (ECS.after calls_three_entities).2 ∧
    ∃ s', (ECS.after calls_three_entities).1.remove_entity 0 = .ok s' ∧
      s'.get_entity_signature 0 = .ok 0 ∧
      s'.entity_available_ids =
        (ECS.after calls_three_entities).1.entity_available_ids ++ [0] ∧
      ∃ s2, s'.create_entities
          ((ECS.after calls_three_entities).1.entity_available_ids.length + 1) =
        .ok ((ECS.after calls_three_entities).1.entity_available_ids ++ [0], s2) :=
  ⟨reach_three_entities, by decide,
    remove_entity_frees_id reach_three_entities 0 (by decide)⟩

set_option maxRecDepth 100000 in
theorem reach_two_of_three :
    Reach any_calls (ECS.after calls_two_of_three).1 (ECS.after calls_two_of_three).2 :=
  Reach.of_run calls_two_of_three Reach.new rfl

set_option maxRecDepth 100000 in
/-- C8, witness: three registered types, one entity with a component of the first and of
the third type. -/
theorem remove_entity_touches_own_stores_witness :
    Reach any_calls (ECS.after calls_two_of_three).1 (ECS.after calls_two_of_three).2 ∧
    (ECS.after calls_two_of_three).1.get_component 0 0 = .ok 5 ∧
    (ECS.after calls_two_of_three).1.get_component 2 0 = .ok 6 ∧
    (ECS.after calls_two_of_three).1.get_component 1 0 = .error .component_absent_on_get ∧
    ∃ s' store_b, (ECS.after calls_two_of_three).1.remove_entity 0 = .ok s' ∧
      s'.get_component 0 0 = .error .component_absent_on_get ∧
      s'.get_component 2 0 = .error .component_absent_on_get ∧
      (ECS.after calls_two_of_three).1.get_component_array 1 = .ok store_b ∧
      s'.get_component_array 1 = .ok store_b :=
  ⟨reach_two_of_three, rfl, rfl, rfl,
    remove_entity_touches_own_stores reach_two_of_three 0 1 2 0 5 6 rfl rfl rfl⟩

set_option maxRecDepth 100000 in
theorem reach_remove_second :
    Reach live_calls (ECS.after calls_remove_second).1 (ECS.after calls_remove_second).2 :=
  Reach.of_run calls_remove_second Reach.new rfl

set_option maxRecDepth 100000 in
/-- C9, witness: two entities with a component each, the second of which was removed; the
view of the type returns the first entity only. -/
theorem view_returns_live_only_witness :
    Reach live_calls (ECS.after calls_remove_second).1 (ECS.after calls_remove_second).2 ∧
    (ECS.after calls_remove_second).2 = [0] ∧
    (ECS.after calls_remove_second).1.view 0 [] = .ok [0] ∧
    ((∀ (t : TypeName) (rest : List TypeName) (l : List Entity),
        (ECS.after calls_remove_second).1.view t rest = .ok l →
        ∀ e, e ∈ l → e ∈ (ECS.after calls_remove_second).2) ∧
      (∀ (e : Entity) (s' : ECS Nat), e ∈ (ECS.after calls_remove_second).2 →
        (ECS.after calls_remove_second).1.remove_entity e = .ok s' →
        ∀ (t : TypeName) (rest : List TypeName) (l : List Entity), s'.view t rest = .ok l →
          e ∉ l)) :=
  ⟨reach_remove_second, rfl, rfl, view_returns_live_only reach_remove_second⟩

set_option maxRecDepth 100000 in
theorem reach_one_component_in_range :
    Reach in_range_calls (ECS.after calls_one_component).1 (ECS.after calls_one_component).2 :=
  Reach.of_run calls_one_component Reach.new rfl

set_option maxRecDepth 100000 in
/-- C10, witness: one entity with one component; bit `0` of its signature is set and the
store holds it. -/
theorem signature_matches_stores_witness :
    Reach in_range_calls (ECS.after calls_one_component).1 (ECS.after calls_one_component).2 ∧
    0 < MAX_ENTITIES ∧
    (ECS.after calls_one_component).1.get_component_type 0 = .ok 0 ∧
    ∃ c sig, (ECS.after calls_one_component).1.get_component_array 0 = .ok c ∧
      (ECS.after calls_one_component).1.get_entity_signature 0 = .ok sig ∧
      Signature.test sig 0 = c.has 0 :=
  ⟨reach_one_component_in_range, by decide, rfl,
    signature_matches_stores reach_one_component_in_range 0 (by decide) 0 0 rfl⟩


/-! ## Claims about a single store -/

theorem ComponentArray.holds_empty {T : Type} [Inhabited T] :
    (ComponentArray.empty : ComponentArray T).Holds [] := by
  refine ⟨ComponentArray.packed_empty, List.nodup_nil, ?_, rfl⟩
  intro e
  simp [ComponentArray.has_empty]

theorem ComponentArray.Holds.holds_insert {T : Type} {c c' : ComponentArray T}
    {holders : List Entity} {e : Entity} {v : T} (hc : c.Holds holders)
    (h : c.insert_component e v = .ok c') : c'.Holds (holders ++ [e]) := by
  have hhas := ComponentArray.insert_component_has h
  obtain ⟨hnone, _, heq⟩ := ComponentArray.insert_component_eq h
  have hnot : e ∉ holders := by
    intro hmem
    have := (hc.mem_iff e).1 hmem
    simp [ComponentArray.has, UMap.contains, hnone] at this
  refine ⟨hc.packed.packed_insert h, ?_, ?_, ?_⟩
  · rw [List.nodup_append]
    refine ⟨hc.nodup, List.nodup_singleton e, ?_⟩
    intro x hx hx2
    rw [List.mem_singleton] at hx2
    exact hnot (hx2 ▸ hx)
  · intro x
    rw [hhas x, List.mem_append, List.mem_singleton, hc.mem_iff x]
    by_cases hx : x = e <;> simp [hx]
  · rw [heq, List.length_append, List.length_singleton, ← hc.size_eq]

theorem ComponentArray.Holds.holds_remove {T : Type} {c c' : ComponentArray T}
    {holders : List Entity} {e : Entity} (hc : c.Holds holders)
    (h : c.remove_component e = .ok c') : c'.Holds (holders.erase e) := by
  have hhas := hc.packed.remove_component_has_eq h
  obtain ⟨idx, hidx, -, -, -⟩ := ComponentArray.store_remove_eq h
  obtain ⟨el, -, -, heq⟩ := hc.packed.store_remove_ok hidx
  have hmem : e ∈ holders := by
    rw [hc.mem_iff e]
    simp [ComponentArray.has, UMap.contains, hidx]
  have hsize : c'.size = c.size - 1 := by
    rw [heq] at h
    cases h
    rfl
  refine ⟨hc.packed.packed_remove h, hc.nodup.erase e, ?_, ?_⟩
  · intro x
    rw [hhas x, hc.nodup.mem_erase_iff, hc.mem_iff x]
    simp
  · rw [hsize, List.length_erase_of_mem hmem, hc.size_eq]

theorem ComponentArray.Holds.holds_handle {T : Type} {c c' : ComponentArray T}
    {holders : List Entity} {e : Entity} (hc : c.Holds holders)
    (h : c.handle_entity_removed e = .ok c') : c'.Holds (holders.erase e) := by
  cases h1 : c.entity_to_index_map e with
  | none =>
    rw [c.handle_entity_removed_absent h1] at h
    cases h
    have hnot : e ∉ holders := by
      intro hmem
      have := (hc.mem_iff e).1 hmem
      simp [ComponentArray.has, UMap.contains, h1] at this
    rw [List.erase_of_not_mem hnot]
    exact hc
  | some idx =>
    rw [c.handle_entity_removed_present h1] at h
    exact hc.holds_remove h

theorem StoreReach.holds {T : Type} [Inhabited T] {c : ComponentArray T}
    {holders : List Entity} (h : StoreReach c holders) : c.Holds holders := by
  induction h with
  | empty => exact ComponentArray.holds_empty
  | @call c c' holders op _ hcall ih =>
    cases op with
    | insert_component e v => exact ih.holds_insert hcall
    | remove_component e => exact ih.holds_remove hcall
    | handle_entity_removed e => exact ih.holds_handle hcall

/-- The store after a run of calls from a reachable store is reachable. -/
theorem StoreReach.of_store_run {T : Type} [Inhabited T] (ops : List (StoreOp T))
    {c c' : ComponentArray T} {holders holders' : List Entity} (h : StoreReach c holders)
    (hrun : ComponentArray.run c holders ops = some (c', holders')) :
    StoreReach c' holders' := by
  induction ops generalizing c holders with
  | nil =>
    simp only [ComponentArray.run, Option.some.injEq, Prod.mk.injEq] at hrun
    rw [← hrun.1, ← hrun.2]
    exact h
  | cons op ops ih =>
    simp only [ComponentArray.run] at hrun
    cases hcall : c.call op with
    | error f => simp [hcall] at hrun
    | ok c1 =>
      simp only [hcall] at hrun
      exact ih (StoreReach.call h hcall) hrun

/-- The entities at the positions of a packed store are the entities the store holds. -/
theorem ComponentArray.Packed.mem_entities {T : Type} {c : ComponentArray T} (hc : c.Packed)
    (e : Entity) : e ∈ c.entities ↔ c.has e = true := by
  simp only [ComponentArray.entities, List.mem_filterMap, List.mem_range, ComponentArray.has,
    UMap.contains]
  constructor
  · rintro ⟨i, _, hi⟩
    rw [(hc.inverse e i).2 hi]
    rfl
  · intro h
    cases h1 : c.entity_to_index_map e with
    | none => simp [h1] at h
    | some i => exact ⟨i, hc.index_lt e i h1, (hc.inverse e i).1 h1⟩

/-- C11: after any interleaving of `insert_component`, `remove_component` and
`handle_entity_removed` calls that returned, on an initially empty `ComponentArray`, no
entity holds the component twice, `size` is the number of entities that hold it, the keys
of `index_to_entity_map` are exactly the positions below `size`, the two index maps are
inverse to each other, and the entities found at the positions below `size` are exactly
the entities that hold the component, which are the keys of `entity_to_index_map`. -/
theorem packed_store_invariant {T : Type} [Inhabited T] {c : ComponentArray T}
    {holders : List Entity} (h : StoreReach c holders) :
    holders.Nodup ∧ c.size = holders.length ∧
    (∀ i, (c.index_to_entity_map i).isSome = true ↔ i < c.size) ∧
    (∀ e i, c.entity_to_index_map e = some i ↔ c.index_to_entity_map i = some e) ∧
    (∀ e, e ∈ c.entities ↔ e ∈ holders) ∧
    (∀ e, (c.entity_to_index_map e).isSome = true ↔ e ∈ holders) := by
  have hh := h.holds
  refine ⟨hh.nodup, hh.size_eq, ?_, hh.packed.inverse, ?_, ?_⟩
  · intro i
    constructor
    · intro hi
      cases h1 : c.index_to_entity_map i with
      | none => simp [h1] at hi
      | some e => exact hh.packed.index_lt e i ((hh.packed.inverse e i).2 h1)
    · intro hi
      obtain ⟨e, he⟩ := hh.packed.index_present i hi
      simp [he]
  · intro e
    rw [hh.packed.mem_entities e, hh.mem_iff e]
  · intro e
    exact (hh.mem_iff e).symm

theorem reach_store_calls :
    StoreReach (ComponentArray.after store_calls).1 (ComponentArray.after store_calls).2 :=
  StoreReach.of_store_run store_calls StoreReach.empty rfl

/-- C11, witness: the store after inserting `5`, `7`, `9`, removing `5` and reporting the
removal of `3`; it holds `7` and `9`, and `9` was moved to position `0`. -/
theorem packed_store_invariant_witness :
    StoreReach (ComponentArray.after store_calls).1 (ComponentArray.after store_calls).2 ∧
    (ComponentArray.after store_calls).2 = [7, 9] ∧
    (ComponentArray.after store_calls).1.entities = [9, 7] ∧
    ((ComponentArray.after store_calls).2.Nodup ∧
    (ComponentArray.after store_calls).1.size = (ComponentArray.after store_calls).2.length ∧
    (∀ i, ((ComponentArray.after store_calls).1.index_to_entity_map i).isSome = true ↔
      i < (ComponentArray.after store_calls).1.size) ∧
    (∀ e i, (ComponentArray.after store_calls).1.entity_to_index_map e = some i ↔
      (ComponentArray.after store_calls).1.index_to_entity_map i = some e) ∧
    (∀ e, e ∈ (ComponentArray.after store_calls).1.entities ↔
      e ∈ (ComponentArray.after store_calls).2) ∧
    (∀ e, ((ComponentArray.after store_calls).1.entity_to_index_map e).isSome = true ↔
      e ∈ (ComponentArray.after store_calls).2)) :=
  ⟨reach_store_calls, rfl, rfl, packed_store_invariant reach_store_calls⟩


/-! ## Claims about the free queue -/

/-- C12: in every state reachable from a fresh `ECS` by `create_entity` and by calls on live
entities, an id below `MAX_ENTITIES` is in the free queue exactly when it is not the id of a
live entity, no id occurs in the queue more than once, and the queue holds ids below
`MAX_ENTITIES` only. -/
theorem id_pool_invariant {V : Type} [Inhabited V] {s : ECS V} {live : List Entity}
    (hr : Reach live_calls s live) :
    (∀ e, e < MAX_ENTITIES → (e ∈ s.entity_available_ids ↔ e ∉ live)) ∧
    s.entity_available_ids.Nodup ∧
    (∀ e, e ∈ s.entity_available_ids → e < MAX_ENTITIES) := by
  have hp := hr.has_pool
  have hnd := List.nodup_append.1 hp.nodup
  refine ⟨?_, hnd.1, ?_⟩
  · intro e he
    have hmem : e ∈ s.entity_available_ids ++ live := hp.perm.mem_iff.2 (List.mem_range.2 he)
    constructor
    · intro h1 h2
      exact hnd.2.2 h1 h2
    · intro h1
      rcases List.mem_append.1 hmem with h2 | h2
      · exact h2
      · exact absurd h2 h1
  · intro e he
    exact List.mem_range.1 (hp.perm.mem_iff.1 (List.mem_append_left _ he))

/-- C12, witness: after creating `0`, `1`, `2` and removing `0`. -/
theorem id_pool_invariant_witness :
    Reach live_calls (ECS.after calls_recycle).1 (ECS.after calls_recycle).2 ∧
    ((∀ e, e < MAX_ENTITIES →
      (e ∈ (ECS.after calls_recycle).1.entity_available_ids ↔
        e ∉ (ECS.after calls_recycle).2)) ∧
    (ECS.after calls_recycle).1.entity_available_ids.Nodup ∧
    (∀ e, e ∈ (ECS.after calls_recycle).1.entity_available_ids → e < MAX_ENTITIES)) :=
  ⟨reach_recycle, id_pool_invariant reach_recycle⟩

/-! ## Claims about the registry -/

theorem ECS.register_component_ok {V : Type} [Inhabited V] {s : ECS V} {t : TypeName}
    (h : s.component_types t = none) :
    s.register_component t =
      .ok { s with
            component_types := UMap.assign s.component_types t s.component_arrays_count
            component_arrays := ArrayMap.insert s.component_arrays t ComponentArray.empty
            component_arrays_count := (s.component_arrays_count + 1) % UINT8_MOD } := by
  simp [ECS.register_component, UMap.contains, UMap.insert, h]

set_option maxRecDepth 100000 in
/-- C13, the code at the failing input: `register_component` never looks at
`MAX_COMPONENTS`, it returns for every type that is not registered; with the 32 types
`0, ..., 31` registered, registering the type `32` returns, and the type has the slot 32,
which is not below `MAX_COMPONENTS`. -/
theorem register_component_past_ceiling :
    (∀ (s : ECS Nat) (t : TypeName), s.component_types t = none →
      ∃ s', s.register_component t = .ok s') ∧
    ECS.run any_calls ECS.new [] (calls_register 32) = some (ECS.after (calls_register 32)) ∧
    (ECS.after (calls_register 32)).1.component_arrays_count = MAX_COMPONENTS ∧
    (ECS.after (calls_register 32)).1.register_component 32 =
      .ok (ECS.after (calls_register 33)).1 ∧
    (ECS.after (calls_register 33)).1.get_component_type 32 = .ok 32 ∧
    ¬ 32 < MAX_COMPONENTS :=
  ⟨fun _ _ h => ⟨_, ECS.register_component_ok h⟩, rfl, rfl, rfl, rfl, by decide⟩

/-- C14: `register_component<T>()` fails exactly when `T` is registered, and then it fails
its assertion and returns no state (no slot is assigned and no store is created); for a
type that is not registered it returns, and in the state it returns the type has the next
slot and, when it had no store, an empty store. -/
theorem register_component_fails_iff_registered {V : Type} [Inhabited V] (s : ECS V)
    (t : TypeName) :
    ((∃ f, s.register_component t = .error f) ↔ UMap.contains s.component_types t = true) ∧
    (∀ f, s.register_component t = .error f → f = .type_already_registered) ∧
    ((∃ s', s.register_component t = .ok s') ↔ UMap.contains s.component_types t = false) ∧
    (∀ s', s.register_component t = .ok s' →
      s'.get_component_type t = .ok s.component_arrays_count ∧
      (ArrayMap.find s.component_arrays t = none →
        s'.get_component_array t = .ok ComponentArray.empty)) := by
  by_cases h : UMap.contains s.component_types t = true
  · have herr : s.register_component t = .error .type_already_registered := by
      simp [ECS.register_component, h]
    refine ⟨⟨fun _ => h, fun _ => ⟨_, herr⟩⟩, ?_, ⟨?_, ?_⟩, ?_⟩
    · intro f hf
      rw [herr] at hf
      cases hf
      rfl
    · rintro ⟨s', hs'⟩
      rw [herr] at hs'
      cases hs'
    · intro h2
      rw [h] at h2
      cases h2
    · intro s' hs'
      rw [herr] at hs'
      cases hs'
  · have hnone : s.component_types t = none := by simpa [UMap.contains] using h
    have hok := ECS.register_component_ok (s := s) hnone
    refine ⟨⟨?_, fun h2 => absurd h2 h⟩, ?_, ⟨fun _ => by simpa using h, fun _ => ⟨_, hok⟩⟩, ?_⟩
    · rintro ⟨f, hf⟩
      rw [hok] at hf
      cases hf
    · intro f hf
      rw [hok] at hf
      cases hf
    · intro s' hs'
      rw [hok] at hs'
      cases hs'
      constructor
      · simp [ECS.get_component_type, UMap.assign]
      · intro hfind
        simp [ECS.get_component_array, UMap.contains, UMap.assign, ArrayMap.find_insert, hfind]


/-! ## Claims about failures -/

/-- The only fault of `handle_entity_removed` is an index outside the dense array. -/
theorem ComponentArray.handle_entity_removed_fault {T : Type} {c : ComponentArray T}
    {e : Entity} {f : Fault} (h : c.handle_entity_removed e = .error f) :
    f = .array_out_of_bounds := by
  cases h1 : c.entity_to_index_map e with
  | none =>
    rw [c.handle_entity_removed_absent h1] at h
    cases h
  | some idx =>
    rw [c.handle_entity_removed_present h1] at h
    simp only [ComponentArray.remove_component, h1] at h
    by_cases h2 : idx < MAX_ENTITIES ∧ (c.size + SIZE_MOD - 1) % SIZE_MOD < MAX_ENTITIES
    · simp [h2] at h
    · simp only [h2, if_false, Except.error.injEq] at h
      exact h.symm

theorem ArrayMap.handle_all_fault {V : Type} {m : ArrayMap V} {e : Entity}
    {f : Fault} (h : ArrayMap.handle_entity_removed m e = .error f) :
    f = .array_out_of_bounds := by
  induction m with
  | nil => simp [ArrayMap.handle_entity_removed] at h
  | cons p rest ih =>
    obtain ⟨t, c⟩ := p
    simp only [ArrayMap.handle_entity_removed] at h
    cases h1 : c.handle_entity_removed e with
    | error g =>
      simp only [h1, Except.error.injEq] at h
      rw [← h]
      exact ComponentArray.handle_entity_removed_fault h1
    | ok c' =>
      cases h2 : ArrayMap.handle_entity_removed rest e with
      | error g =>
        simp only [h1, h2, Except.error.injEq] at h
        rw [h] at h2
        exact ih h2
      | ok rest' => simp [h1, h2] at h

/-- C19: `remove_entity(e)` fails its range assertion exactly when `e ≥ MAX_ENTITIES`; the
call then returns no state: no signature is cleared, no id is queued, no store is notified
and the count is not decremented. A call that returns has an argument below
`MAX_ENTITIES`. -/
theorem remove_entity_out_of_range {V : Type} (s : ECS V) (e : Entity) :
    (s.remove_entity e = .error .remove_entity_out_of_range ↔ MAX_ENTITIES ≤ e) ∧
    (∀ s', s.remove_entity e = .ok s' → e < MAX_ENTITIES) := by
  constructor
  · constructor
    · intro h
      by_contra hlt
      have hlt2 : e < MAX_ENTITIES := Nat.lt_of_not_le hlt
      simp only [ECS.remove_entity, hlt2, if_true] at h
      cases h1 : ArrayMap.handle_entity_removed s.component_arrays e with
      | error g =>
        have h2 := ArrayMap.handle_all_fault h1
        simp only [h1, Except.error.injEq] at h
        rw [h2] at h
        cases h
      | ok arrays => simp [h1] at h
    · intro h
      have : ¬ e < MAX_ENTITIES := Nat.not_lt.2 h
      simp [ECS.remove_entity, this]
  · intro s' h
    exact (ECS.remove_entity_eq h).1

set_option maxRecDepth 100000 in
/-- C20, the code at the failing input: `add_component` has no range assertion. With one
registered type and the entity id `MAX_ENTITIES`, `insert_component` returns a store that
holds the id, and the call then indexes `entity_signatures` outside its bounds, which is
no failed assertion; and whenever `add_component` ends in an assertion, it is not an
assertion about the range of the entity. -/
theorem add_component_out_of_range_undetected :
    (ECS.after calls_one_type).1.get_component_array 0 = .ok ComponentArray.empty ∧
    (∃ c', (ComponentArray.empty : ComponentArray Nat).insert_component MAX_ENTITIES 5 =
        .ok c' ∧ c'.has MAX_ENTITIES = true) ∧
    (ECS.after calls_one_type).1.add_component 0 MAX_ENTITIES 5 =
      .error .array_out_of_bounds ∧
    Fault.is_assertion .array_out_of_bounds = false ∧
    (∀ (s : ECS Nat) (t : TypeName) (e : Entity) (v : Nat) (f : Fault),
      s.add_component t e v = .error f → f.is_assertion = true →
      f = .array_not_registered ∨ f = .component_already_present) := by
  refine ⟨rfl, ⟨_, rfl, rfl⟩, rfl, rfl, ?_⟩
  intro s t e v f h hf
  unfold ECS.add_component at h
  cases h1 : s.get_component_array t with
  | error g =>
    simp only [h1, Except.error.injEq] at h
    subst h
    unfold ECS.get_component_array at h1
    by_cases h2 : UMap.contains s.component_types t = true
    · simp only [h2, if_true] at h1
      cases h3 : ArrayMap.find s.component_arrays t with
      | none =>
        simp only [h3, Except.error.injEq] at h1
        subst h1
        cases hf
      | some c => simp [h3] at h1
    · simp only [h2, Bool.false_eq_true, if_false, Except.error.injEq] at h1
      exact Or.inl h1.symm
  | ok c =>
    obtain ⟨⟨k, hk⟩, _⟩ := ECS.get_component_array_eq h1
    simp only [h1] at h
    cases h2 : c.insert_component e v with
    | error g =>
      simp only [h2, Except.error.injEq] at h
      subst h
      unfold ComponentArray.insert_component at h2
      by_cases h3 : UMap.contains c.entity_to_index_map e = true
      · simp only [h3, if_true, Except.error.injEq] at h2
        exact Or.inr h2.symm
      · by_cases h4 : c.size < MAX_ENTITIES
        · simp [h3, h4] at h2
        · simp only [h3, h4, Bool.false_eq_true, if_false, Except.error.injEq] at h2
          subst h2
          cases hf
    | ok c' =>
      simp only [h2, ECS.get_component_type, hk] at h
      by_cases h3 : e < MAX_ENTITIES
      · by_cases h4 : k < MAX_COMPONENTS
        · simp [h3, Signature.set, h4] at h
        · simp only [h3, if_true, Signature.set, h4, if_false, Except.error.injEq] at h
          subst h
          cases hf
      · simp only [h3, if_false, Except.error.injEq] at h
        subst h
        cases hf


/-! ## Claims about the failures of a store -/

/-- C16: for every state of a `ComponentArray` and every entity `e`, `insert_component(e, v)`
fails its assertion exactly when `e` has a value in the store, and `remove_component(e)` and
`get_component(e)` each fail their assertion exactly when `e` has no value in it. No other
assertion can fail: the only other fault is an index outside the dense array, which does
not arise in `remove_component` and `get_component` on a packed store, nor in
`insert_component` on a store with fewer than `MAX_ENTITIES` values. -/
theorem store_failure_conditions {T : Type} (c : ComponentArray T) (e : Entity) (v : T) :
    (c.insert_component e v = .error .component_already_present ↔ c.has e = true) ∧
    (c.remove_component e = .error .component_absent_on_remove ↔ c.has e = false) ∧
    (c.get_component e = .error .component_absent_on_get ↔ c.has e = false) ∧
    (∀ f, c.insert_component e v = .error f →
      f = .component_already_present ∨ f = .array_out_of_bounds) ∧
    (∀ f, c.remove_component e = .error f →
      f = .component_absent_on_remove ∨ f = .array_out_of_bounds) ∧
    (∀ f, c.get_component e = .error f →
      f = .component_absent_on_get ∨ f = .array_out_of_bounds) ∧
    (c.has e = false → c.size < MAX_ENTITIES → ∃ c', c.insert_component e v = .ok c') ∧
    (c.Packed → c.has e = true →
      (∃ c', c.remove_component e = .ok c') ∧ ∃ w, c.get_component e = .ok w) := by
  cases h : c.entity_to_index_map e with
  | none =>
    have hhas : c.has e = false := by simp [ComponentArray.has, UMap.contains, h]
    have hrem : c.remove_component e = .error .component_absent_on_remove := by
      simp [ComponentArray.remove_component, h]
    have hget : c.get_component e = .error .component_absent_on_get := by
      simp [ComponentArray.get_component, h]
    rw [hrem, hget, hhas]
    refine ⟨?_, by simp, by simp, ?_, by simp, by simp, ?_, ?_⟩
    · by_cases hs : c.size < MAX_ENTITIES
      · rw [c.insert_component_ok e v h hs]
        simp
      · simp [ComponentArray.insert_component, UMap.contains, h, hs]
    · intro f hf
      by_cases hs : c.size < MAX_ENTITIES
      · rw [c.insert_component_ok e v h hs] at hf
        cases hf
      · simp only [ComponentArray.insert_component, UMap.contains, h, Option.isSome_none,
          Bool.false_eq_true, if_false, hs, Except.error.injEq] at hf
        exact Or.inr hf.symm
    · intro _ hs
      exact ⟨_, c.insert_component_ok e v h hs⟩
    · intro _ h2
      cases h2
  | some idx =>
    have hhas : c.has e = true := by simp [ComponentArray.has, UMap.contains, h]
    have hins : c.insert_component e v = .error .component_already_present := by
      simp [ComponentArray.insert_component, UMap.contains, h]
    rw [hins, hhas]
    refine ⟨by simp, ?_, ?_, by simp, ?_, ?_, ?_, ?_⟩
    · simp only [ComponentArray.remove_component, h]
      by_cases hb : idx < MAX_ENTITIES ∧ (c.size + SIZE_MOD - 1) % SIZE_MOD < MAX_ENTITIES
      · simp [hb]
      · simp [hb]
    · simp only [ComponentArray.get_component, h]
      by_cases hb : idx < MAX_ENTITIES
      · simp [hb]
      · simp [hb]
    · intro f hf
      simp only [ComponentArray.remove_component, h] at hf
      by_cases hb : idx < MAX_ENTITIES ∧ (c.size + SIZE_MOD - 1) % SIZE_MOD < MAX_ENTITIES
      · simp [hb] at hf
      · simp only [hb, if_false, Except.error.injEq] at hf
        exact Or.inr hf.symm
    · intro f hf
      simp only [ComponentArray.get_component, h] at hf
      by_cases hb : idx < MAX_ENTITIES
      · simp [hb] at hf
      · simp only [hb, if_false, Except.error.injEq] at hf
        exact Or.inr hf.symm
    · intro h2
      cases h2
    · intro hp _
      obtain ⟨el, _, _, hrem⟩ := hp.store_remove_ok h
      refine ⟨⟨_, hrem⟩, c.values idx, ?_⟩
      have h1 := hp.index_lt e idx h
      have h2 := hp.size_le
      have h3 : idx < MAX_ENTITIES := by omega
      simp [ComponentArray.get_component, h, h3]

/-! ## Claims about the result of a view -/

/-- The loop of `view` returns exactly when its bound is at most `MAX_ENTITIES`, and then
it returns the ids below the bound whose signature contains the system signature, in
ascending order. -/
theorem ECS.view_scan_eq {V : Type} (s : ECS V) (system_signature : Signature) (n : Nat)
    (hn : n ≤ MAX_ENTITIES) :
    s.view_scan system_signature n =
      .ok ((List.range n).filter
        (fun i => decide ((s.entity_signatures i &&& system_signature) = system_signature))) := by
  induction n with
  | zero => simp [ECS.view_scan]
  | succ n ih =>
    have h1 : n < MAX_ENTITIES := by omega
    rw [ECS.view_scan, ih (by omega)]
    simp only [h1, if_true, List.range_succ, List.filter_append]
    by_cases h2 : (s.entity_signatures n &&& system_signature) = system_signature
    · simp [h2, List.filter]
    · simp [h2, List.filter]

theorem ECS.view_scan_bound {V : Type} {s : ECS V} {system_signature : Signature} {n : Nat}
    {l : List Entity} (h : s.view_scan system_signature n = .ok l) : n ≤ MAX_ENTITIES := by
  cases n with
  | zero => exact Nat.zero_le _
  | succ n =>
    simp only [ECS.view_scan] at h
    cases h1 : s.view_scan system_signature n with
    | error f => simp [h1] at h
    | ok l1 =>
      simp only [h1] at h
      by_cases h2 : n < MAX_ENTITIES
      · omega
      · simp [h2] at h

/-- The bits of the system signature of a view: the bits it starts from and the slot bits
of the types of the view. -/
theorem ECS.get_system_signature_test {V : Type} {s : ECS V} (rest : List TypeName) :
    ∀ (sig req : Signature) (t : TypeName), s.get_system_signature sig t rest = .ok req →
      ∀ j, Signature.test req j = true ↔
        (Signature.test sig j = true ∨ ∃ u, u ∈ t :: rest ∧ s.get_component_type u = .ok j) := by
  induction rest with
  | nil =>
    intro sig req t h j
    simp only [ECS.get_system_signature] at h
    obtain ⟨k, hk, _, rfl⟩ := ECS.get_system_signature_single_eq h
    simp only [Signature.test_set, Bool.or_eq_true, decide_eq_true_eq, List.mem_singleton,
      ECS.get_component_type]
    constructor
    · rintro (h1 | h1)
      · exact Or.inl h1
      · exact Or.inr ⟨t, rfl, by simp [hk, h1]⟩
    · rintro (h1 | ⟨u, rfl, h1⟩)
      · exact Or.inl h1
      · simp only [hk, Except.ok.injEq] at h1
        exact Or.inr h1
  | cons u rest ih =>
    intro sig req t h j
    simp only [ECS.get_system_signature] at h
    cases h1 : s.get_system_signature_single sig t with
    | error f => simp [h1] at h
    | ok sig1 =>
      simp only [h1] at h
      obtain ⟨k, hk, _, rfl⟩ := ECS.get_system_signature_single_eq h1
      rw [ih _ req u h j]
      simp only [Signature.test_set, Bool.or_eq_true, decide_eq_true_eq, List.mem_cons,
        ECS.get_component_type]
      constructor
      · rintro ((h2 | h2) | ⟨w, hw, h2⟩)
        · exact Or.inl h2
        · exact Or.inr ⟨t, Or.inl rfl, by simp [hk, h2]⟩
        · exact Or.inr ⟨w, Or.inr hw, h2⟩
      · rintro (h2 | ⟨w, hw | hw, h2⟩)
        · exact Or.inl (Or.inl h2)
        · subst hw
          simp only [hk, Except.ok.injEq] at h2
          exact Or.inl (Or.inr h2)
        · exact Or.inr ⟨w, hw, h2⟩

/-- The system signature of a view is computed when every type of the view is registered
with a slot below `MAX_COMPONENTS`. -/
theorem ECS.get_system_signature_ok {V : Type} {s : ECS V} (rest : List TypeName) :
    ∀ (sig : Signature) (t : TypeName),
      (∀ u, u ∈ t :: rest → ∃ k, s.get_component_type u = .ok k ∧ k < MAX_COMPONENTS) →
      ∃ req, s.get_system_signature sig t rest = .ok req := by
  induction rest with
  | nil =>
    intro sig t h
    obtain ⟨k, hk, hk2⟩ := h t (List.mem_singleton.2 rfl)
    exact ⟨sig ||| (1 <<< k), by
      simp [ECS.get_system_signature, ECS.get_system_signature_single, hk, Signature.set,
        hk2]⟩
  | cons u rest ih =>
    intro sig t h
    obtain ⟨k, hk, hk2⟩ := h t (List.mem_cons_self _ _)
    obtain ⟨req, hreq⟩ := ih (sig ||| (1 <<< k)) u
      (fun w hw => h w (List.mem_cons_of_mem _ hw))
    exact ⟨req, by simp [ECS.get_system_signature, ECS.get_system_signature_single, hk,
      Signature.set, hk2, hreq]⟩

/-- C17: in every state, `view<T1, ..., Tn>()` returns when every `Ti` is registered with a
slot below `MAX_COMPONENTS` and `entity_array_count` is at most `MAX_ENTITIES`; the list it
returns is in strictly ascending order and holds exactly the ids `i < entity_array_count`
whose signature `sig` satisfies `(sig & required) == required`, where the bits of `required`
are the slot bits of `T1, ..., Tn`. -/
theorem view_lists_matching_ids_below_count {V : Type} (s : ECS V) (t : TypeName)
    (rest : List TypeName) :
    ((∀ u, u ∈ t :: rest → ∃ k, s.get_component_type u = .ok k ∧ k < MAX_COMPONENTS) →
      s.entity_array_count ≤ MAX_ENTITIES → ∃ l, s.view t rest = .ok l) ∧
    (∀ l, s.view t rest = .ok l →
      ∃ required, s.get_system_signature 0 t rest = .ok required ∧
        (∀ j, Signature.test required j = true ↔
          ∃ u, u ∈ t :: rest ∧ s.get_component_type u = .ok j) ∧
        l = (List.range s.entity_array_count).filter
          (fun i => decide ((s.entity_signatures i &&& required) = required)) ∧
        l.Pairwise (fun i j => i < j) ∧
        (∀ i, i ∈ l ↔
          (i < s.entity_array_count ∧ (s.entity_signatures i &&& required) = required))) := by
  constructor
  · intro hreg hcount
    obtain ⟨req, hreq⟩ := ECS.get_system_signature_ok rest 0 t hreg
    refine ⟨(List.range s.entity_array_count).filter
      (fun i => decide ((s.entity_signatures i &&& req) = req)), ?_⟩
    simp only [ECS.view, hreq, s.view_scan_eq req _ hcount]
  · intro l hv
    unfold ECS.view at hv
    cases h1 : s.get_system_signature 0 t rest with
    | error f => simp [h1] at hv
    | ok req =>
      simp only [h1] at hv
      have hbound := ECS.view_scan_bound hv
      rw [s.view_scan_eq req _ hbound] at hv
      simp only [Except.ok.injEq] at hv
      refine ⟨req, rfl, ?_, hv.symm, ?_, ?_⟩
      · intro j
        rw [ECS.get_system_signature_test rest 0 req t h1 j]
        simp [Signature.test_zero]
      · rw [← hv]
        exact (List.pairwise_lt_range _).filter _
      · intro i
        rw [← hv]
        simp [List.mem_filter, List.mem_range]

set_option maxRecDepth 100000 in
/-- C17, witness: in the state after registering `A`, creating two entities with an `A`
component each and removing the second one, the count of live entities is 1 and `view<A>()`
is the list of the matching ids below 1. -/
theorem view_lists_matching_ids_below_count_witness :
    (ECS.after calls_remove_second).1.view 0 [] = .ok [0] ∧
    ∃ required, (ECS.after calls_remove_second).1.get_system_signature 0 0 [] = .ok required ∧
      (∀ j, Signature.test required j = true ↔
        ∃ u, u ∈ [0] ∧ (ECS.after calls_remove_second).1.get_component_type u = .ok j) ∧
      [0] = (List.range (ECS.after calls_remove_second).1.entity_array_count).filter
        (fun i => decide
          (((ECS.after calls_remove_second).1.entity_signatures i &&& required) = required)) ∧
      ([0] : List Entity).Pairwise (fun i j => i < j) ∧
      (∀ i, i ∈ ([0] : List Entity) ↔
        (i < (ECS.after calls_remove_second).1.entity_array_count ∧
          ((ECS.after calls_remove_second).1.entity_signatures i &&& required) = required)) :=
  ⟨rfl, (view_lists_matching_ids_below_count (ECS.after calls_remove_second).1 0 []).2 [0] rfl⟩


/-! ## Claims about the order of slots and ids -/

theorem ECS.registry_new {V : Type} : (ECS.new : ECS V).Registry [] := by
  refine ⟨List.nodup_nil, rfl, ?_, fun t _ => rfl⟩
  intro i t h
  simp at h

theorem ECS.Registry.registry_register {V : Type} [Inhabited V] {s s' : ECS V}
    {ts : List TypeName} {t : TypeName} (hs : s.Registry ts)
    (h : s.register_component t = .ok s') : s'.Registry (ts ++ [t]) := by
  obtain ⟨hnone, rfl⟩ := ECS.register_component_eq h
  have hnot : t ∉ ts := by
    intro hmem
    obtain ⟨i, hi, hget⟩ := List.getElem_of_mem hmem
    have h1 := hs.slot i t (List.getElem?_eq_some.2 ⟨hi, hget⟩)
    rw [hnone] at h1
    cases h1
  refine ⟨?_, ?_, ?_, ?_⟩
  · rw [List.nodup_append]
    refine ⟨hs.nodup, List.nodup_singleton t, ?_⟩
    intro x hx hx2
    rw [List.mem_singleton] at hx2
    exact hnot (hx2 ▸ hx)
  · show (s.component_arrays_count + 1) % UINT8_MOD = (ts ++ [t]).length % UINT8_MOD
    rw [hs.count, List.length_append, List.length_singleton]
    unfold UINT8_MOD
    omega
  · intro i u hi
    show UMap.assign s.component_types t s.component_arrays_count u = some (i % UINT8_MOD)
    by_cases hlt : i < ts.length
    · rw [List.getElem?_append_left hlt] at hi
      have hu : u ∈ ts := List.getElem?_mem hi
      have hne : ¬ u = t := fun h1 => hnot (h1 ▸ hu)
      simp only [UMap.assign, hne, if_false]
      exact hs.slot i u hi
    · rw [List.getElem?_append_right (Nat.le_of_not_lt hlt)] at hi
      have h0 : i - ts.length = 0 := by
        by_contra h1
        rw [List.getElem?_eq_none (by simp; omega)] at hi
        cases hi
      rw [h0] at hi
      simp only [List.getElem?_cons_zero, Option.some.injEq] at hi
      have hi2 : i = ts.length := by omega
      simp only [UMap.assign, ← hi, if_true, hs.count, hi2]
  · intro u hu
    show UMap.assign s.component_types t s.component_arrays_count u = none
    rw [List.mem_append, List.mem_singleton] at hu
    have hne : ¬ u = t := fun h1 => hu (Or.inr h1)
    simp only [UMap.assign, hne, if_false]
    exact hs.unregistered u (fun h1 => hu (Or.inl h1))

/-- A call other than `register_component` leaves the registry as it is. -/
theorem ECS.call_registry {V : Type} [Inhabited V] {s s' : ECS V} {op : Op V}
    (hop : ∀ t, op ≠ .register_component t) (h : s.call op = .ok s') :
    s'.component_types = s.component_types ∧
    s'.component_arrays_count = s.component_arrays_count := by
  cases op with
  | register_component t => exact absurd rfl (hop t)
  | create_entity =>
    simp only [ECS.call] at h
    cases h1 : s.create_entity with
    | error f => simp [h1] at h
    | ok r =>
      obtain ⟨e, s1⟩ := r
      simp only [h1, Except.ok.injEq] at h
      subst h
      obtain ⟨_, rest, _, rfl⟩ := ECS.create_entity_eq h1
      exact ⟨rfl, rfl⟩
  | remove_entity e =>
    obtain ⟨_, arrays, _, rfl⟩ := ECS.remove_entity_eq h
    exact ⟨rfl, rfl⟩
  | add_component t e v =>
    obtain ⟨c, c', k, _, _, _, _, _, rfl⟩ := ECS.add_component_eq h
    exact ⟨rfl, rfl⟩
  | remove_component t e =>
    obtain ⟨c, c', k, _, _, _, _, _, rfl⟩ := ECS.remove_component_eq h
    exact ⟨rfl, rfl⟩

theorem ECS.Registry.registry_call {V : Type} [Inhabited V] {s s' : ECS V}
    {ts : List TypeName} {op : Op V} (hs : s.Registry ts) (h : s.call op = .ok s') :
    s'.Registry (ts ++ registrations [op]) := by
  cases op with
  | register_component t => exact hs.registry_register h
  | create_entity =>
    obtain ⟨h1, h2⟩ := ECS.call_registry (fun t => by simp) h
    simp only [registrations, List.append_nil]
    exact ⟨hs.nodup, h2 ▸ hs.count, h1 ▸ hs.slot, h1 ▸ hs.unregistered⟩
  | remove_entity e =>
    obtain ⟨h1, h2⟩ := ECS.call_registry (fun t => by simp) h
    simp only [registrations, List.append_nil]
    exact ⟨hs.nodup, h2 ▸ hs.count, h1 ▸ hs.slot, h1 ▸ hs.unregistered⟩
  | add_component t e v =>
    obtain ⟨h1, h2⟩ := ECS.call_registry (fun t => by simp) h
    simp only [registrations, List.append_nil]
    exact ⟨hs.nodup, h2 ▸ hs.count, h1 ▸ hs.slot, h1 ▸ hs.unregistered⟩
  | remove_component t e =>
    obtain ⟨h1, h2⟩ := ECS.call_registry (fun t => by simp) h
    simp only [registrations, List.append_nil]
    exact ⟨hs.nodup, h2 ▸ hs.count, h1 ▸ hs.slot, h1 ▸ hs.unregistered⟩

theorem registrations_cons {V : Type} (op : Op V) (ops : List (Op V)) :
    registrations (op :: ops) = registrations [op] ++ registrations ops := by
  cases op <;> simp [registrations]

theorem ECS.Registry.registry_run {V : Type} [Inhabited V]
    {p : ECS V → List Entity → Op V → Bool} (ops : List (Op V)) {s s' : ECS V}
    {live live' : List Entity} {ts : List TypeName} (hs : s.Registry ts)
    (hrun : ECS.run p s live ops = some (s', live')) :
    s'.Registry (ts ++ registrations ops) := by
  induction ops generalizing s live ts with
  | nil =>
    simp only [ECS.run, Option.some.injEq, Prod.mk.injEq] at hrun
    rw [← hrun.1]
    simpa [registrations] using hs
  | cons op ops ih =>
    simp only [ECS.run] at hrun
    by_cases hop : p s live op = true
    · cases hcall : s.call op with
      | error f => simp [hop, hcall] at hrun
      | ok s1 =>
        simp only [hop, hcall, if_true] at hrun
        have := ih (hs.registry_call hcall) hrun
        rw [registrations_cons, ← List.append_assoc]
        exact this
    · simp [hop] at hrun

set_option maxRecDepth 100000 in
/-- C15, the code on every run and at the failing input: after any calls on a fresh `ECS`
that all returned, no type is registered twice, the type registered by the `i`-th
`register_component` call (counting from 0) has the slot `i mod 256`, whatever was
registered after it, and `get_component_type` fails its assertion for a type that was never
registered. So the `i`-th type has slot `i` for `i < 256`, and the first 256 types have
distinct slots; but the counter of the slots is a `std::uint8_t` with no ceiling, and once
257 types are registered the types `0` and `256` both have slot 0. -/
theorem type_slots_follow_registration_order {V : Type} [Inhabited V] :
    (∀ (ops : List (Op V)) (s : ECS V) (live : List Entity),
      ECS.run any_calls ECS.new [] ops = some (s, live) →
      (registrations ops).Nodup ∧
      (∀ i t, (registrations ops)[i]? = some t →
        s.get_component_type t = .ok (i % UINT8_MOD)) ∧
      (∀ t, t ∉ registrations ops → s.get_component_type t = .error .type_not_registered)) ∧
    (ECS.run any_calls ECS.new [] (calls_register 257) = some (ECS.after (calls_register 257)) ∧
      (registrations (calls_register 257))[0]? = some 0 ∧
      (registrations (calls_register 257))[256]? = some 256 ∧
      (ECS.after (calls_register 257)).1.get_component_type 0 = .ok 0 ∧
      (ECS.after (calls_register 257)).1.get_component_type 256 = .ok 0) := by
  refine ⟨?_, rfl, rfl, rfl, rfl, rfl⟩
  intro ops s live hrun
  have h := ECS.registry_new.registry_run ops hrun
  rw [List.nil_append] at h
  refine ⟨h.nodup, ?_, ?_⟩
  · intro i t hi
    simp [ECS.get_component_type, h.slot i t hi]
  · intro t ht
    simp [ECS.get_component_type, h.unregistered t ht]

/-- The ids issued during a run, followed by the free queue after it, are the free queue
before it followed by the ids freed during the run. -/
theorem ECS.issued_run {V : Type} [Inhabited V] {p : ECS V → List Entity → Op V → Bool}
    (ops : List (Op V)) {s s' : ECS V} {live live' : List Entity}
    (hrun : ECS.run p s live ops = some (s', live')) :
    s.issued ops ++ s'.entity_available_ids = s.entity_available_ids ++ freed ops := by
  induction ops generalizing s live with
  | nil =>
    simp only [ECS.run, Option.some.injEq, Prod.mk.injEq] at hrun
    rw [← hrun.1]
    simp [ECS.issued, freed]
  | cons op ops ih =>
    simp only [ECS.run] at hrun
    by_cases hop : p s live op = true
    · cases hcall : s.call op with
      | error f => simp [hop, hcall] at hrun
      | ok s1 =>
        simp only [hop, hcall, if_true] at hrun
        have h1 := ih hrun
        cases op with
        | register_component t =>
          obtain ⟨_, heq⟩ := ECS.register_component_eq hcall
          have hq : s1.entity_available_ids = s.entity_available_ids := by rw [heq]
          simp only [ECS.issued, hcall, freed]
          rw [h1, hq]
        | create_entity =>
          simp only [ECS.call] at hcall
          cases h2 : s.create_entity with
          | error f => simp [h2] at hcall
          | ok r =>
            obtain ⟨e, s2⟩ := r
            simp only [h2, Except.ok.injEq] at hcall
            subst hcall
            obtain ⟨_, rest, hq, heq⟩ := ECS.create_entity_eq h2
            have hq2 : s2.entity_available_ids = rest := by rw [heq]
            simp only [ECS.issued, h2, freed, List.cons_append]
            rw [h1, hq, hq2, List.cons_append]
        | remove_entity e =>
          obtain ⟨_, arrays, _, heq⟩ := ECS.remove_entity_eq hcall
          have hq : s1.entity_available_ids = s.entity_available_ids ++ [e] := by rw [heq]
          simp only [ECS.issued, hcall, freed]
          rw [h1, hq, List.append_assoc, List.singleton_append]
        | add_component t e v =>
          obtain ⟨c, c', k, _, _, _, _, _, heq⟩ := ECS.add_component_eq hcall
          have hq : s1.entity_available_ids = s.entity_available_ids := by rw [heq]
          simp only [ECS.issued, hcall, freed]
          rw [h1, hq]
        | remove_component t e =>
          obtain ⟨c, c', k, _, _, _, _, _, heq⟩ := ECS.remove_component_eq hcall
          have hq : s1.entity_available_ids = s.entity_available_ids := by rw [heq]
          simp only [ECS.issued, hcall, freed]
          rw [h1, hq]
    · simp [hop] at hrun

/-- C18: `create_entity` returns the id at the front of the free queue and removes it from
the queue, `remove_entity` puts its argument at the back of the queue. So, after any calls
on a fresh `ECS` that all returned, the ids issued so far followed by the free queue are the
ids `0, ..., MAX_ENTITIES - 1` followed by the ids freed so far, in the order in which they
were freed: the `k`-th id issued (counting from 0, `k < MAX_ENTITIES`) is `k`, whatever was
removed in between, and the ids issued after those are the ids freed first, in the order in
which they were freed. -/
theorem ids_are_recycled_fifo {V : Type} [Inhabited V] (ops : List (Op V)) (s : ECS V)
    (live : List Entity) (hrun : ECS.run any_calls ECS.new [] ops = some (s, live)) :
    (∀ (s1 s2 : ECS V) (e : Entity), s1.create_entity = .ok (e, s2) →
      s1.entity_available_ids = e :: s2.entity_available_ids) ∧
    (∀ (s1 s2 : ECS V) (e : Entity), s1.remove_entity e = .ok s2 →
      s2.entity_available_ids = s1.entity_available_ids ++ [e]) ∧
    (ECS.new : ECS V).issued ops ++ s.entity_available_ids =
      List.range MAX_ENTITIES ++ freed ops ∧
    (∀ k, k < ((ECS.new : ECS V).issued ops).length → k < MAX_ENTITIES →
      ((ECS.new : ECS V).issued ops)[k]? = some k) ∧
    ((ECS.new : ECS V).issued ops).drop MAX_ENTITIES <+: freed ops := by
  have hfifo := ECS.issued_run ops hrun
  rw [ECS.new_queue] at hfifo
  refine ⟨?_, ?_, hfifo, ?_, ?_⟩
  · intro s1 s2 e h
    obtain ⟨_, rest, hq, heq⟩ := ECS.create_entity_eq h
    rw [hq, heq]
  · intro s1 s2 e h
    obtain ⟨_, arrays, _, heq⟩ := ECS.remove_entity_eq h
    rw [heq]
  · intro k hk hk2
    have h1 : ((ECS.new : ECS V).issued ops ++ s.entity_available_ids)[k]? =
        (List.range MAX_ENTITIES ++ freed ops)[k]? := by rw [hfifo]
    rw [List.getElem?_append_left hk,
      List.getElem?_append_left (by rw [List.length_range]; exact hk2),
      List.getElem?_range hk2] at h1
    exact h1
  · rcases List.append_eq_append_iff.1 hfifo with ⟨a, h1, _⟩ | ⟨a, h1, h2⟩
    · have hlen : ((ECS.new : ECS V).issued ops).length ≤ MAX_ENTITIES := by
        have := congrArg List.length h1
        rw [List.length_range, List.length_append] at this
        omega
      rw [List.drop_eq_nil_of_le hlen]
      exact List.nil_prefix
    · rw [h1, List.drop_left' (List.length_range _), h2]
      exact List.prefix_append _ _

set_option maxRecDepth 100000 in
/-- C18, witness: create `0`, `1`, `2`, remove `0`, create again: the fourth id is `3`, and
`0` waits at the back of the queue. -/
theorem ids_are_recycled_fifo_witness :
    ECS.run any_calls ECS.new [] calls_recycle_create = some (ECS.after calls_recycle_create) ∧
    (ECS.new : ECS Nat).issued calls_recycle_create = [0, 1, 2, 3] ∧
    freed calls_recycle_create = [0] ∧
    ((∀ (s1 s2 : ECS Nat) (e : Entity), s1.create_entity = .ok (e, s2) →
      s1.entity_available_ids = e :: s2.entity_available_ids) ∧
    (∀ (s1 s2 : ECS Nat) (e : Entity), s1.remove_entity e = .ok s2 →
      s2.entity_available_ids = s1.entity_available_ids ++ [e]) ∧
    (ECS.new : ECS Nat).issued calls_recycle_create ++
        (ECS.after calls_recycle_create).1.entity_available_ids =
      List.range MAX_ENTITIES ++ freed calls_recycle_create ∧
    (∀ k, k < ((ECS.new : ECS Nat).issued calls_recycle_create).length → k < MAX_ENTITIES →
      ((ECS.new : ECS Nat).issued calls_recycle_create)[k]? = some k) ∧
    ((ECS.new : ECS Nat).issued calls_recycle_create).drop MAX_ENTITIES <+:
      freed calls_recycle_create) :=
  ⟨rfl, rfl, rfl,
    ids_are_recycled_fifo calls_recycle_create (ECS.after calls_recycle_create).1
      (ECS.after calls_recycle_create).2 rfl⟩


/-! ## Claims about swap-removal (C21) -/

/-- The method `get_component` of a packed store reads the value at the position of the
entity. -/
theorem ComponentArray.Packed.get_component_eq {T : Type} {c : ComponentArray T}
    (hc : c.Packed) {e : Entity} {i : Nat} (h : c.entity_to_index_map e = some i) :
    c.get_component e = .ok (c.values i) := by
  have h1 := hc.index_lt e i h
  have h2 := hc.size_le
  have h3 : i < MAX_ENTITIES := by omega
  simp [ComponentArray.get_component, h, h3]

/-- The result of `remove_component` on a packed store, read through `get_component`: an
entity other than the removed one keeps its presence and its value. -/
theorem ComponentArray.Packed.get_component_remove {T : Type} {c c' : ComponentArray T}
    (hc : c.Packed) {e : Entity} (h : c.remove_component e = .ok c') (x : Entity)
    (hx : x ≠ e) : c'.get_component x = c.get_component x := by
  obtain ⟨idx, he, -, -, -⟩ := ComponentArray.store_remove_eq h
  obtain ⟨el, hel, hel2, heq⟩ := hc.store_remove_ok he
  rw [heq] at h
  cases h
  by_cases hxl : x = el
  · subst hxl
    rw [hc.get_component_eq hel2]
    have h1 := hc.index_lt e idx he
    have h2 := hc.size_le
    have h3 : idx < MAX_ENTITIES := by omega
    simp [ComponentArray.get_component, UMap.erase, UMap.assign, hx, h3]
  · cases hxi : c.entity_to_index_map x with
    | none => simp [ComponentArray.get_component, UMap.erase, UMap.assign, hx, hxl, hxi]
    | some i =>
      have hne : i ≠ idx := by
        intro hi
        subst hi
        have h1 := (hc.inverse x i).1 hxi
        have h2 := (hc.inverse e i).1 he
        rw [h1] at h2
        exact hx (Option.some.inj h2)
      simp [ComponentArray.get_component, UMap.erase, UMap.assign, hx, hxl, hxi, hne]

/-- C21: on a packed store that holds `e` at position `idx`, `remove_component e` returns
a store whose size is smaller by exactly one and which no longer holds `e`; the entity
`el` of the last packed position, when it is not `e`, now sits at position `idx` with the
value it had; every entity other than `e` is present exactly when it was and
`get_component` returns for it what it returned before; and when `e` itself occupied the
last position, no position of another entity and no value of the store has changed. -/
theorem swap_removal_keeps_the_others {T : Type} (c : ComponentArray T) (e : Entity)
    (idx : Nat) (hc : c.Packed) (he : c.entity_to_index_map e = some idx) :
    ∃ c' el, c.remove_component e = .ok c' ∧
      c'.size + 1 = c.size ∧
      c'.has e = false ∧
      c.index_to_entity_map (c.size - 1) = some el ∧
      c.get_component el = .ok (c.values (c.size - 1)) ∧
      (el ≠ e → c'.entity_to_index_map el = some idx ∧
        c'.index_to_entity_map idx = some el ∧
        c'.values idx = c.values (c.size - 1) ∧
        c'.get_component el = .ok (c.values (c.size - 1))) ∧
      (∀ x, x ≠ e → c'.has x = c.has x ∧ c'.get_component x = c.get_component x) ∧
      (idx = c.size - 1 → el = e ∧
        (∀ x, x ≠ e → c'.entity_to_index_map x = c.entity_to_index_map x) ∧
        ∀ i, c'.values i = c.values i) := by
  obtain ⟨el, hel, hel2, heq⟩ := hc.store_remove_ok he
  have hp := hc.packed_remove heq
  have h1 := hc.index_lt e idx he
  refine ⟨_, el, heq, ?_, ?_, hel, hc.get_component_eq hel2, ?_, ?_, ?_⟩
  · show c.size - 1 + 1 = c.size
    omega
  · simp [ComponentArray.has, UMap.contains, UMap.erase]
  · intro hne
    have h2 : c.size - 1 ≠ idx := by
      intro hi
      rw [hi] at hel2
      have h3 := (hc.inverse el idx).1 hel2
      have h4 := (hc.inverse e idx).1 he
      rw [h3] at h4
      exact hne (Option.some.inj h4)
    have h5 : (UMap.erase (UMap.assign c.entity_to_index_map el idx) e) el = some idx := by
      simp [UMap.erase, UMap.assign, hne]
    refine ⟨h5, ?_, ?_, ?_⟩
    · simp [UMap.erase, UMap.assign, Ne.symm h2]
    · simp
    · rw [hp.get_component_eq h5]
      simp
  · intro x hx
    refine ⟨?_, hc.get_component_remove heq x hx⟩
    rw [hc.remove_component_has_eq heq]
    simp [hx]
  · intro hi
    subst hi
    have h3 := (hc.inverse el (c.size - 1)).1 hel2
    have h4 := (hc.inverse e (c.size - 1)).1 he
    rw [h3] at h4
    have h6 : el = e := Option.some.inj h4
    subst h6
    refine ⟨rfl, ?_, ?_⟩
    · intro x hx
      simp [UMap.erase, UMap.assign, hx]
    · intro i
      by_cases hi : i = c.size - 1
      · simp [hi]
      · simp [hi]

theorem packed_store_calls_three : (ComponentArray.after store_calls_three).1.Packed :=
  (StoreReach.holds
    (StoreReach.of_store_run store_calls_three StoreReach.empty rfl :
      StoreReach (ComponentArray.after store_calls_three).1
        (ComponentArray.after store_calls_three).2)).packed

/-- C21, witness: the store that holds `5`, `7`, `9` at the positions `0`, `1`, `2`, from
which `5` is removed. -/
theorem swap_removal_keeps_the_others_witness :
    (ComponentArray.after store_calls_three).1.Packed ∧
    (ComponentArray.after store_calls_three).1.entity_to_index_map 5 = some 0 ∧
    ∃ c' el, (ComponentArray.after store_calls_three).1.remove_component 5 = .ok c' ∧
      c'.size + 1 = (ComponentArray.after store_calls_three).1.size ∧
      c'.has 5 = false ∧
      (ComponentArray.after store_calls_three).1.index_to_entity_map
        ((ComponentArray.after store_calls_three).1.size - 1) = some el ∧
      (ComponentArray.after store_calls_three).1.get_component el =
        .ok ((ComponentArray.after store_calls_three).1.values
          ((ComponentArray.after store_calls_three).1.size - 1)) ∧
      (el ≠ 5 → c'.entity_to_index_map el = some 0 ∧
        c'.index_to_entity_map 0 = some el ∧
        c'.values 0 = (ComponentArray.after store_calls_three).1.values
          ((ComponentArray.after store_calls_three).1.size - 1) ∧
        c'.get_component el = .ok ((ComponentArray.after store_calls_three).1.values
          ((ComponentArray.after store_calls_three).1.size - 1))) ∧
      (∀ x, x ≠ 5 → c'.has x = (ComponentArray.after store_calls_three).1.has x ∧
        c'.get_component x = (ComponentArray.after store_calls_three).1.get_component x) ∧
      (0 = (ComponentArray.after store_calls_three).1.size - 1 → el = 5 ∧
        (∀ x, x ≠ 5 → c'.entity_to_index_map x =
          (ComponentArray.after store_calls_three).1.entity_to_index_map x) ∧
        ∀ i, c'.values i = (ComponentArray.after store_calls_three).1.values i) :=
  ⟨packed_store_calls_three, rfl,
    swap_removal_keeps_the_others (ComponentArray.after store_calls_three).1 5 0
      packed_store_calls_three rfl⟩


/-! ## Claims about entities a view omits (C22) -/

set_option maxRecDepth 100000 in
theorem reach_live_omitted :
    Reach live_calls (ECS.after calls_live_omitted).1 (ECS.after calls_live_omitted).2 :=
  Reach.of_run calls_live_omitted Reach.new rfl

set_option maxRecDepth 100000 in
/-- C22: there is a state reachable by registering `A`, creating `e0`, `e1`, `e2`, adding
an `A` component to `e2` and `remove_entity(e0)` on the live entity `e0`, in which `e2` is
live, holds an `A` component and has the bit of `A` in its signature, and in which
`view<A>()` returns a list without `e2`, the id of `e2` being not smaller than
`entity_array_count`. -/
theorem live_entity_with_component_not_in_view :
    ∃ (s : ECS Nat) (live : List Entity) (e : Entity) (l : List Entity),
      Reach live_calls s live ∧
      ECS.run live_calls ECS.new [] calls_live_omitted = some (s, live) ∧
      e ∈ live ∧ s.get_component 0 e = .ok 7 ∧ s.get_component_type 0 = .ok 0 ∧
      s.get_entity_signature e = .ok 1 ∧ Signature.test 1 0 = true ∧
      s.view 0 [] = .ok l ∧ e ∉ l ∧ ¬ e < s.entity_array_count :=
  ⟨(ECS.after calls_live_omitted).1, (ECS.after calls_live_omitted).2, 2, [],
    reach_live_omitted, rfl, by decide, rfl, rfl, rfl, rfl, rfl, by simp, by decide⟩

/-! ## Claims about `remove_entity` on an entity that is not live (C26) -/

/-- C26: on a fresh `ECS`, where `entity_array_count` is `0` and no entity is live,
`remove_entity(e)` returns for every id `e` in range; after it `entity_array_count` is
`2^32 - 1`, the free-id queue is `0, ..., MAX_ENTITIES - 1` followed by `e`, so it holds
`e` twice, still no entity is live, and `create_entity` fails its capacity assertion. -/
theorem remove_entity_of_free_id_wraps_count {V : Type} [Inhabited V] (e : Entity)
    (he : e < MAX_ENTITIES) :
    ∃ s1 : ECS V, (ECS.new : ECS V).remove_entity e = .ok s1 ∧
      (ECS.new : ECS V).entity_array_count = 0 ∧
      s1.entity_array_count = 2 ^ 32 - 1 ∧
      s1.entity_available_ids = List.range MAX_ENTITIES ++ [e] ∧
      List.count e s1.entity_available_ids = 2 ∧
      Reach in_range_calls s1 (live_after [] (ECS.new : ECS V) (Op.remove_entity e)) ∧
      live_after [] (ECS.new : ECS V) (Op.remove_entity e) = [] ∧
      s1.create_entity = .error .entity_array_full := by
  have harr : ArrayMap.handle_entity_removed (ECS.new : ECS V).component_arrays e = .ok [] := by
    simp only [ECS.new]
    rfl
  have hcall := ECS.remove_entity_ok he harr
  have hcount : ((ECS.new : ECS V).entity_array_count + UINT32_MOD - 1) % UINT32_MOD
      = 2 ^ 32 - 1 := by
    simp only [ECS.new, UINT32_MOD]
    norm_num
  refine ⟨_, hcall, by simp only [ECS.new], hcount, ?_, ?_, ?_, rfl, ?_⟩
  · show (ECS.new : ECS V).entity_available_ids ++ [e] = _
    rw [ECS.new_queue]
  · show List.count e ((ECS.new : ECS V).entity_available_ids ++ [e]) = 2
    rw [ECS.new_queue, List.count_append,
      List.count_eq_one_of_mem (List.nodup_range _) (List.mem_range.2 he)]
    simp
  · exact Reach.call Reach.new (by simp [in_range_calls, he]) hcall
  · have h : ¬ (2 ^ 32 - 1 < MAX_ENTITIES) := by
      unfold MAX_ENTITIES
      norm_num
    unfold ECS.create_entity
    rw [if_neg]
    show ¬ ((ECS.new : ECS V).entity_array_count + UINT32_MOD - 1) % UINT32_MOD < MAX_ENTITIES
    rw [hcount]
    exact h

set_option maxRecDepth 100000 in
/-- C26, witness: `remove_entity(5)` on a fresh `ECS`. -/
theorem remove_entity_of_free_id_wraps_count_witness :
    5 < MAX_ENTITIES ∧
    ∃ s1 : ECS Nat, (ECS.new : ECS Nat).remove_entity 5 = .ok s1 ∧
      (ECS.new : ECS Nat).entity_array_count = 0 ∧
      s1.entity_array_count = 2 ^ 32 - 1 ∧
      s1.entity_available_ids = List.range MAX_ENTITIES ++ [5] ∧
      List.count 5 s1.entity_available_ids = 2 ∧
      Reach in_range_calls s1 (live_after [] (ECS.new : ECS Nat) (Op.remove_entity 5)) ∧
      live_after [] (ECS.new : ECS Nat) (Op.remove_entity 5) = [] ∧
      s1.create_entity = .error .entity_array_full :=
  ⟨by decide, remove_entity_of_free_id_wraps_count 5 (by decide)⟩


/-! ## Claims about the capacity of a store (C23) -/

/-- C23: in every reachable state (no call with an entity id that is not below
`MAX_ENTITIES` returns, so these are the states reached with ids in range), every store
of `component_arrays` has a `size` of at most `MAX_ENTITIES`; an `insert_component` that
returns has written the value at the index `size`, which is below `MAX_ENTITIES`, and the
store it returns again has a `size` of at most `MAX_ENTITIES`; and for an entity id below
`MAX_ENTITIES`, `insert_component` either fails its assertion or returns, so that the
write to `values` never is out of bounds. -/
theorem store_capacity_is_never_exceeded {V : Type} [Inhabited V]
    {p : ECS V → List Entity → Op V → Bool} {s : ECS V} {live : List Entity}
    (hr : Reach p s live) (t : TypeName) (c : ComponentArray V)
    (hc : (t, c) ∈ s.component_arrays) :
    c.size ≤ MAX_ENTITIES ∧
    (∀ e v c', c.insert_component e v = .ok c' →
      c.size < MAX_ENTITIES ∧ c'.values c.size = v ∧
      c'.entity_to_index_map e = some c.size ∧ c'.size ≤ MAX_ENTITIES) ∧
    (∀ e v, e < MAX_ENTITIES →
      c.insert_component e v = .error .component_already_present ∨
      ∃ c', c.insert_component e v = .ok c') := by
  obtain ⟨hp, hin⟩ := hr.has_stores.packed t c hc
  refine ⟨hp.size_le, ?_, ?_⟩
  · intro e v c' h
    obtain ⟨-, hlt, heq⟩ := ComponentArray.insert_component_eq h
    subst heq
    refine ⟨hlt, ?_, ?_, ?_⟩
    · simp
    · simp [UMap.assign]
    · show c.size + 1 ≤ MAX_ENTITIES
      omega
  · intro e v he
    cases hx : c.entity_to_index_map e with
    | none => exact Or.inr ⟨_, c.insert_component_ok e v hx (hp.size_lt hin he hx)⟩
    | some i =>
      left
      simp [ComponentArray.insert_component, UMap.contains, hx]

set_option maxRecDepth 100000 in
theorem mem_store_one_component :
    (0, (ECS.after calls_one_component).1.store 0) ∈
      (ECS.after calls_one_component).1.component_arrays :=
  ArrayMap.mem_of_find rfl

set_option maxRecDepth 100000 in
/-- C23, witness: the store of the only type after one entity got a component; its size
is `1`. -/
theorem store_capacity_is_never_exceeded_witness :
    Reach any_calls (ECS.after calls_one_component).1 (ECS.after calls_one_component).2 ∧
    (0, (ECS.after calls_one_component).1.store 0) ∈
      (ECS.after calls_one_component).1.component_arrays ∧
    ((ECS.after calls_one_component).1.store 0).size = 1 ∧
    (((ECS.after calls_one_component).1.store 0).size ≤ MAX_ENTITIES ∧
    (∀ e v c', ((ECS.after calls_one_component).1.store 0).insert_component e v = .ok c' →
      ((ECS.after calls_one_component).1.store 0).size < MAX_ENTITIES ∧
      c'.values ((ECS.after calls_one_component).1.store 0).size = v ∧
      c'.entity_to_index_map e = some ((ECS.after calls_one_component).1.store 0).size ∧
      c'.size ≤ MAX_ENTITIES) ∧
    (∀ e v, e < MAX_ENTITIES →
      ((ECS.after calls_one_component).1.store 0).insert_component e v =
        .error .component_already_present ∨
      ∃ c', ((ECS.after calls_one_component).1.store 0).insert_component e v = .ok c')) :=
  ⟨reach_one_component, mem_store_one_component, rfl,
    store_capacity_is_never_exceeded reach_one_component 0
      ((ECS.after calls_one_component).1.store 0) mem_store_one_component⟩

/-! ## Claims about the other entities when one is removed (C25) -/

/-- An entity other than the removed one keeps its presence and its value when a packed
store handles the removal of an entity. -/
theorem ComponentArray.Packed.get_component_handle {T : Type} {c c' : ComponentArray T}
    (hc : c.Packed) {e : Entity} (h : c.handle_entity_removed e = .ok c') (x : Entity)
    (hx : x ≠ e) : c'.get_component x = c.get_component x := by
  cases he : c.entity_to_index_map e with
  | none =>
    rw [c.handle_entity_removed_absent he] at h
    cases h
    rfl
  | some idx =>
    rw [c.handle_entity_removed_present he] at h
    exact hc.get_component_remove h x hx

/-- C25: in every reachable state `remove_entity(e)` returns for every id `e` in range,
and for every other entity `x` the signature of `x` is what it was and, for every type
`t`, `get_component<t>(x)` after the call is what it was before: it fails with the same
fault or returns the same value. -/
theorem remove_entity_keeps_other_entities {V : Type} [Inhabited V]
    {p : ECS V → List Entity → Op V → Bool} {s : ECS V} {live : List Entity}
    (hr : Reach p s live) (e : Entity) (he : e < MAX_ENTITIES) :
    ∃ s', s.remove_entity e = .ok s' ∧
      ∀ x, x ≠ e →
        s'.entity_signatures x = s.entity_signatures x ∧
        s'.get_entity_signature x = s.get_entity_signature x ∧
        ∀ t, s'.get_component_type t = s.get_component_type t ∧
          s'.get_component t x = s.get_component t x := by
  have hs := hr.has_stores
  obtain ⟨arrays, harr⟩ := ArrayMap.handle_all_ok s.component_arrays e
    (fun t c hc => (hs.packed t c hc).1)
  refine ⟨_, ECS.remove_entity_ok he harr, ?_⟩
  intro x hx
  refine ⟨by simp [hx], by simp [ECS.get_entity_signature, hx], ?_⟩
  intro t
  refine ⟨rfl, ?_⟩
  rcases ArrayMap.find_handle_entity_removed harr t with ⟨h1, h2⟩ | ⟨c, c', h1, h2, h3⟩
  · simp [ECS.get_component, ECS.get_component_array, h1, h2]
  · have hp := (hs.packed t c (ArrayMap.mem_of_find h1)).1
    have h4 := hp.get_component_handle h3 x hx
    by_cases hk : UMap.contains s.component_types t = true
    · simp [ECS.get_component, ECS.get_component_array, h1, h2, hk, h4]
    · simp [ECS.get_component, ECS.get_component_array, hk]

set_option maxRecDepth 100000 in
theorem reach_two_components :
    Reach any_calls (ECS.after calls_two_components).1 (ECS.after calls_two_components).2 :=
  Reach.of_run calls_two_components Reach.new rfl

set_option maxRecDepth 100000 in
/-- C25, witness: two entities with a component each, of which the first is removed; the
value of the second entity is moved inside the store and is still `6`. -/
theorem remove_entity_keeps_other_entities_witness :
    Reach any_calls (ECS.after calls_two_components).1 (ECS.after calls_two_components).2 ∧
    0 < MAX_ENTITIES ∧
    (ECS.after calls_two_components).1.get_component 0 1 = .ok 6 ∧
    ∃ s', (ECS.after calls_two_components).1.remove_entity 0 = .ok s' ∧
      ∀ x, x ≠ 0 →
        s'.entity_signatures x = (ECS.after calls_two_components).1.entity_signatures x ∧
        s'.get_entity_signature x =
          (ECS.after calls_two_components).1.get_entity_signature x ∧
        ∀ t, s'.get_component_type t =
            (ECS.after calls_two_components).1.get_component_type t ∧
          s'.get_component t x = (ECS.after calls_two_components).1.get_component t x :=
  ⟨reach_two_components, by decide, rfl,
    remove_entity_keeps_other_entities reach_two_components 0 (by decide)⟩


/-! ## Claims about views of two types (C27) -/

/-- The test `(sig & required) == required` of `view` holds exactly when every bit of
`required` is a bit of `sig`. -/
theorem Signature.and_eq_iff (sig required : Signature) :
    (sig &&& required) = required ↔
      ∀ j, Signature.test required j = true → Signature.test sig j = true := by
  simp only [Signature.test]
  constructor
  · intro h j hj
    have h1 : Nat.testBit (sig &&& required) j = true := by rw [h]; exact hj
    rw [Nat.testBit_and] at h1
    simp only [Bool.and_eq_true] at h1
    exact h1.1
  · intro h
    apply Nat.eq_of_testBit_eq
    intro j
    rw [Nat.testBit_and]
    cases hj : Nat.testBit required j with
    | false => simp
    | true => simp [h j hj]

/-- What `view` returns, in terms of the system signature. -/
theorem ECS.view_eq {V : Type} {s : ECS V} {t : TypeName} {rest : List TypeName}
    {l : List Entity} (h : s.view t rest = .ok l) :
    ∃ required, s.get_system_signature 0 t rest = .ok required ∧
      s.entity_array_count ≤ MAX_ENTITIES ∧
      l = (List.range s.entity_array_count).filter
        (fun i => decide ((s.entity_signatures i &&& required) = required)) := by
  unfold ECS.view at h
  cases h1 : s.get_system_signature 0 t rest with
  | error f => simp [h1] at h
  | ok req =>
    simp only [h1] at h
    have hbound := ECS.view_scan_bound h
    rw [s.view_scan_eq req _ hbound] at h
    simp only [Except.ok.injEq] at h
    exact ⟨req, rfl, hbound, h.symm⟩

/-- The test of `view<A, B>` is the test of `view<A>` together with the bit of `B`. -/
theorem Signature.and_eq_two (sig : Signature) (ka kb : Nat) :
    decide ((sig &&& ((0 ||| (1 <<< ka)) ||| (1 <<< kb))) = ((0 ||| (1 <<< ka)) ||| (1 <<< kb)))
      = (Signature.test sig kb && decide ((sig &&& (0 ||| (1 <<< ka))) = (0 ||| (1 <<< ka)))) := by
  rw [Bool.eq_iff_iff]
  simp only [decide_eq_true_eq, Bool.and_eq_true, Signature.and_eq_iff, Signature.test_set,
    Signature.test_zero, Bool.false_or, Bool.or_eq_true]
  constructor
  · intro h
    exact ⟨h kb (Or.inr rfl), fun j hj => h j (Or.inl hj)⟩
  · rintro ⟨h1, h2⟩ j (hj | hj)
    · exact h2 j hj
    · rw [← hj]
      exact h1

/-- C27: in every state and for all registered types `A` and `B`, `view<A, B>()` and
`view<B, A>()` are the same, as a list or as a failure; a list `view<A, B>()` returns is
the list `view<A>()` returns, filtered by the bit of `B` in the signature, and so a
sub-list of it; and when the slot of `B` is a valid bit position and `view<A>()` returns,
`view<A, B>()` returns the filtered list. -/
theorem view_of_two_types {V : Type} (s : ECS V) (a b : TypeName) (ka kb : ComponentType)
    (ha : s.get_component_type a = .ok ka) (hb : s.get_component_type b = .ok kb) :
    s.view a [b] = s.view b [a] ∧
    (∀ l, s.view a [b] = .ok l →
      ∃ la, s.view a [] = .ok la ∧
        l = la.filter (fun i => Signature.test (s.entity_signatures i) kb) ∧
        l.Sublist la) ∧
    (kb < MAX_COMPONENTS → ∀ la, s.view a [] = .ok la →
      s.view a [b] =
        .ok (la.filter (fun i => Signature.test (s.entity_signatures i) kb))) := by
  have hab : ∀ la, kb < MAX_COMPONENTS → s.view a [] = .ok la →
      s.view a [b] =
        .ok (la.filter (fun i => Signature.test (s.entity_signatures i) kb)) := by
    intro la hkb hla
    obtain ⟨req, hreq, hcount, rfl⟩ := ECS.view_eq hla
    simp only [ECS.get_system_signature] at hreq
    obtain ⟨k, hk, hk2, rfl⟩ := ECS.get_system_signature_single_eq hreq
    have hk3 := ECS.get_component_type_eq ha
    rw [hk] at hk3
    cases hk3
    have hsig : s.get_system_signature 0 a [b] = .ok ((0 ||| (1 <<< ka)) ||| (1 <<< kb)) := by
      simp [ECS.get_system_signature, ECS.get_system_signature_single, ha, hb, Signature.set,
        hk2, hkb]
    simp only [ECS.view, hsig, s.view_scan_eq _ _ hcount, List.filter_filter,
      Signature.and_eq_two]
  refine ⟨?_, ?_, fun hkb la hla => hab la hkb hla⟩
  · by_cases h1 : ka < MAX_COMPONENTS
    · by_cases h2 : kb < MAX_COMPONENTS
      · simp only [ECS.view, ECS.get_system_signature, ECS.get_system_signature_single, ha, hb,
          Signature.set, h1, h2, if_true]
        rw [Nat.zero_or, Nat.zero_or, Nat.lor_comm]
      · simp [ECS.view, ECS.get_system_signature, ECS.get_system_signature_single, ha, hb,
          Signature.set, h1, h2]
    · by_cases h2 : kb < MAX_COMPONENTS
      · simp [ECS.view, ECS.get_system_signature, ECS.get_system_signature_single, ha, hb,
          Signature.set, h1, h2]
      · simp [ECS.view, ECS.get_system_signature, ECS.get_system_signature_single, ha, hb,
          Signature.set, h1, h2]
  · intro l hl
    obtain ⟨req, hreq, hcount, -⟩ := ECS.view_eq hl
    simp only [ECS.get_system_signature] at hreq
    have h1 : ka < MAX_COMPONENTS ∧ kb < MAX_COMPONENTS := by
      by_cases h1 : ka < MAX_COMPONENTS
      · by_cases h2 : kb < MAX_COMPONENTS
        · exact ⟨h1, h2⟩
        · simp [ECS.get_system_signature_single, ha, hb, Signature.set, h1, h2] at hreq
      · simp [ECS.get_system_signature_single, ha, hb, Signature.set, h1] at hreq
    have hla : s.view a [] =
        .ok ((List.range s.entity_array_count).filter
          (fun i => decide ((s.entity_signatures i &&& (0 ||| (1 <<< ka))) = (0 ||| (1 <<< ka))))) := by
      simp [ECS.view, ECS.get_system_signature, ECS.get_system_signature_single, ha,
        Signature.set, h1.1, s.view_scan_eq _ _ hcount]
    have h3 := hab _ h1.2 hla
    rw [hl] at h3
    simp only [Except.ok.injEq] at h3
    refine ⟨_, hla, h3, ?_⟩
    rw [h3]
    exact List.filter_sublist _

set_option maxRecDepth 100000 in
/-- C27, witness: three registered types and one entity with a component of the first and
of the third type; both views of these two types return the entity. -/
theorem view_of_two_types_witness :
    (ECS.after calls_two_of_three).1.get_component_type 0 = .ok 0 ∧
    (ECS.after calls_two_of_three).1.get_component_type 2 = .ok 2 ∧
    (ECS.after calls_two_of_three).1.view 0 [2] = .ok [0] ∧
    ((ECS.after calls_two_of_three).1.view 0 [2] = (ECS.after calls_two_of_three).1.view 2 [0] ∧
    (∀ l, (ECS.after calls_two_of_three).1.view 0 [2] = .ok l →
      ∃ la, (ECS.after calls_two_of_three).1.view 0 [] = .ok la ∧
        l = la.filter
          (fun i => Signature.test ((ECS.after calls_two_of_three).1.entity_signatures i) 2) ∧
        l.Sublist la) ∧
    (2 < MAX_COMPONENTS → ∀ la, (ECS.after calls_two_of_three).1.view 0 [] = .ok la →
      (ECS.after calls_two_of_three).1.view 0 [2] =
        .ok (la.filter
          (fun i => Signature.test ((ECS.after calls_two_of_three).1.entity_signatures i) 2)))) :=
  ⟨rfl, rfl, rfl, view_of_two_types (ECS.after calls_two_of_three).1 0 2 0 2 rfl rfl⟩


/-! ## Claims about views when no entity was removed (C24) -/

theorem ECS.unremoved_new {V : Type} : (ECS.new : ECS V).Unremoved [] := by
  refine ⟨?_, ?_⟩
  · simp only [ECS.new, List.range_zero]
  · simp only [ECS.new, List.range_zero, List.nil_append]

theorem ECS.Unremoved.count_le {V : Type} {s : ECS V} {live : List Entity}
    (h : s.Unremoved live) : s.entity_array_count ≤ MAX_ENTITIES := by
  have h1 := congrArg List.length h.queue
  simp only [List.length_append, List.length_range] at h1
  omega

theorem ECS.Unremoved.unremoved_create {V : Type} {s s' : ECS V} {live : List Entity}
    {e : Entity} (h : s.Unremoved live) (hc : s.create_entity = .ok (e, s')) :
    e = s.entity_array_count ∧ s'.Unremoved (live ++ [e]) := by
  obtain ⟨hlt, rest, hq, rfl⟩ := ECS.create_entity_eq hc
  have hmod : (s.entity_array_count + 1) % UINT32_MOD = s.entity_array_count + 1 := by
    apply Nat.mod_eq_of_lt
    unfold MAX_ENTITIES at hlt
    unfold UINT32_MOD
    omega
  have h1 := h.queue
  rw [hq] at h1
  have h2 := congrArg (fun l => l[s.entity_array_count]?) h1
  simp only [List.getElem?_append_right (Nat.le_of_eq (List.length_range _)),
    List.length_range, Nat.sub_self, List.getElem?_cons_zero, List.getElem?_range hlt,
    Option.some.injEq] at h2
  refine ⟨h2, ?_, ?_⟩
  · show live ++ [e] = List.range ((s.entity_array_count + 1) % UINT32_MOD)
    rw [hmod, List.range_succ, h.live_eq, h2]
  · show List.range ((s.entity_array_count + 1) % UINT32_MOD) ++ rest = _
    rw [hmod, List.range_succ, List.append_assoc, ← h1, h2]
    rfl

theorem ECS.Unremoved.unremoved_call {V : Type} [Inhabited V] {s s' : ECS V}
    {live : List Entity} {op : Op V} (hp : s.Unremoved live)
    (hop : no_removal_calls s live op = true) (h : s.call op = .ok s') :
    s'.Unremoved (live_after live s op) := by
  cases op with
  | register_component t =>
    obtain ⟨_, rfl⟩ := ECS.register_component_eq h
    exact ⟨hp.live_eq, hp.queue⟩
  | create_entity =>
    simp only [ECS.call] at h
    cases h1 : s.create_entity with
    | error f => simp [h1] at h
    | ok r =>
      obtain ⟨e, s1⟩ := r
      simp only [h1, Except.ok.injEq] at h
      subst h
      simp only [live_after, h1]
      exact (hp.unremoved_create h1).2
  | remove_entity e => simp [no_removal_calls] at hop
  | add_component t e v =>
    obtain ⟨c, c', k, _, _, _, _, _, rfl⟩ := ECS.add_component_eq h
    exact ⟨hp.live_eq, hp.queue⟩
  | remove_component t e =>
    obtain ⟨c, c', k, _, _, _, _, _, rfl⟩ := ECS.remove_component_eq h
    exact ⟨hp.live_eq, hp.queue⟩

theorem Reach.has_unremoved {V : Type} [Inhabited V] {s : ECS V} {live : List Entity}
    (h : Reach no_removal_calls s live) : s.Unremoved live := by
  induction h with
  | new => exact ECS.unremoved_new
  | call _ hop hcall ih => exact ih.unremoved_call hop hcall

/-- C24: in every state reachable from a fresh `ECS` by `register_component`,
`create_entity` and by `add_component` and `remove_component` on live entities, without
any call of `remove_entity`, the live entities are the ids `0, ..., entity_array_count - 1`;
`view<T1, ..., Tn>()` returns when every `Ti` is registered with a slot below
`MAX_COMPONENTS`; and the list it returns is the list of the live entities, in the order of
their creation, filtered by the test of `view`, so that it holds exactly the live entities
whose signature has the bit of the slot of every `Ti`. -/
theorem view_without_remove_entity {V : Type} [Inhabited V] {s : ECS V} {live : List Entity}
    (hr : Reach no_removal_calls s live) (t : TypeName) (rest : List TypeName) :
    live = List.range s.entity_array_count ∧
    (∀ e, e ∈ live ↔ e < s.entity_array_count) ∧
    ((∀ u, u ∈ t :: rest → ∃ k, s.get_component_type u = .ok k ∧ k < MAX_COMPONENTS) →
      ∃ l, s.view t rest = .ok l) ∧
    (∀ l, s.view t rest = .ok l →
      (∃ required, s.get_system_signature 0 t rest = .ok required ∧
        l = live.filter (fun i => decide ((s.entity_signatures i &&& required) = required))) ∧
      ∀ e, e ∈ l ↔
        (e ∈ live ∧ ∀ u k, u ∈ t :: rest → s.get_component_type u = .ok k →
          Signature.test (s.entity_signatures e) k = true)) := by
  have hu := hr.has_unremoved
  have hmem : ∀ e, e ∈ live ↔ e < s.entity_array_count := by
    intro e
    rw [hu.live_eq, List.mem_range]
  refine ⟨hu.live_eq, hmem, ?_, ?_⟩
  · intro hreg
    obtain ⟨req, hreq⟩ := ECS.get_system_signature_ok rest 0 t hreg
    refine ⟨(List.range s.entity_array_count).filter
      (fun i => decide ((s.entity_signatures i &&& req) = req)), ?_⟩
    simp only [ECS.view, hreq, s.view_scan_eq req _ hu.count_le]
  · intro l hl
    obtain ⟨req, hreq, -, hleq⟩ := ECS.view_eq hl
    rw [← hu.live_eq] at hleq
    refine ⟨⟨req, hreq, hleq⟩, ?_⟩
    intro e
    rw [hleq, List.mem_filter, decide_eq_true_eq, Signature.and_eq_iff]
    have hbits := ECS.get_system_signature_test rest 0 req t hreq
    constructor
    · rintro ⟨h1, h2⟩
      refine ⟨h1, ?_⟩
      intro u k hu1 hk
      exact h2 k ((hbits k).2 (Or.inr ⟨u, hu1, hk⟩))
    · rintro ⟨h1, h2⟩
      refine ⟨h1, ?_⟩
      intro j hj
      rcases (hbits j).1 hj with h3 | ⟨u, hu1, hk⟩
      · simp [Signature.test_zero] at h3
      · exact h2 u j hu1 hk

set_option maxRecDepth 100000 in
theorem reach_two_components_unremoved :
    Reach no_removal_calls (ECS.after calls_two_components).1
      (ECS.after calls_two_components).2 :=
  Reach.of_run calls_two_components Reach.new rfl

set_option maxRecDepth 100000 in
/-- C24, witness: two entities with a component each and no removal; the view of the type
returns both. -/
theorem view_without_remove_entity_witness :
    Reach no_removal_calls (ECS.after calls_two_components).1
      (ECS.after calls_two_components).2 ∧
    (ECS.after calls_two_components).2 = [0, 1] ∧
    (ECS.after calls_two_components).1.view 0 [] = .ok [0, 1] ∧
    ((ECS.after calls_two_components).2 =
      List.range (ECS.after calls_two_components).1.entity_array_count ∧
    (∀ e, e ∈ (ECS.after calls_two_components).2 ↔
      e < (ECS.after calls_two_components).1.entity_array_count) ∧
    ((∀ u, u ∈ [0] → ∃ k, (ECS.after calls_two_components).1.get_component_type u = .ok k ∧
        k < MAX_COMPONENTS) →
      ∃ l, (ECS.after calls_two_components).1.view 0 [] = .ok l) ∧
    (∀ l, (ECS.after calls_two_components).1.view 0 [] = .ok l →
      (∃ required, (ECS.after calls_two_components).1.get_system_signature 0 0 [] =
          .ok required ∧
        l = (ECS.after calls_two_components).2.filter (fun i => decide
          (((ECS.after calls_two_components).1.entity_signatures i &&& required) =
            required))) ∧
      ∀ e, e ∈ l ↔
        (e ∈ (ECS.after calls_two_components).2 ∧ ∀ u k, u ∈ [0] →
          (ECS.after calls_two_components).1.get_component_type u = .ok k →
          Signature.test ((ECS.after calls_two_components).1.entity_signatures e) k = true))) :=
  ⟨reach_two_components_unremoved, rfl, rfl,
    view_without_remove_entity reach_two_components_unremoved 0 []⟩

end ecs
